import Mathlib

/-!
# Verification of the whalECS entity-component-system runtime

This file gives a shallow embedding, in Lean, of the core data structures and
operations of the whalECS runtime (the most recent variant of each source file),
and proves or refutes the claims of the specification against it.

Conventions used throughout:

* C++ `uint64_t` blocks are modelled as `Nat` with explicit `% 2 ^ 64` masking
  wherever overflow or bit width matters.
* Fallible operations (C++ `assert`s, out-of-scope registration paths) are
  modelled with `Option`: an assertion failure is `none`.
* The C++ `unordered_map`/`unordered_set` containers are determinised as
  association functions (`Nat → _`) and insertion-ordered duplicate-free lists.
* Monitor callbacks (`onAdd`/`onRemove`), the death callback and the other
  lifecycle callbacks are modelled as emitted events: they observe the world
  but do not mutate it.  Component payloads are modelled as opaque `Nat` values.
-/

namespace WhalECS

/-! ## DynamicBitset (src/DynamicBitset.h)

The general resizable bitset: a list of 64-bit storage blocks plus a bit
count.  `MAX_COMPONENTS = 64` instantiations are modelled separately below as
single-word patterns. -/

/-- `sizeof(BlockType) * CHAR_BIT` with `BlockType = uint64_t`. -/
def BITS_PER_BLOCK : Nat := 64

structure DynamicBitset where
  mBlocks : List Nat
  mNumBits : Nat
  deriving Repr, DecidableEq

namespace DynamicBitset

/-- Read one storage block; C++ indexes `mBlocks` without bounds checks, the out
of range default 0 never matters for in-range operations. -/
def block (b : DynamicBitset) (i : Nat) : Nat := b.mBlocks.getD i 0

/-- `test(pos)`: `(mBlocks[block_index(pos)] & bit_mask(pos)) != 0`. -/
def test (b : DynamicBitset) (pos : Nat) : Bool :=
  Nat.testBit (b.block (pos / BITS_PER_BLOCK)) (pos % BITS_PER_BLOCK)

/-- `contains(other)`, transcribed from `DynamicBitset::contains`.  The doc
comment in the source says "returns true if all bits in `other` are also 1 in
`this`", but the loop body compares `(mBlocks[i] & other.mBlocks[i]) !=
mBlocks[i]`, i.e. it checks that every bit of *this* is present in *other*. -/
def contains (a other : DynamicBitset) : Bool :=
  if a.mNumBits < other.mNumBits then false
  else
    let fullBlocks := a.mBlocks.length - 1
    if (List.range fullBlocks).all
        (fun i => (a.block i &&& other.block i) == a.block i) then
      if a.mBlocks.length > 0 then
        let usedBitsInLastBlock := a.mNumBits % BITS_PER_BLOCK
        if usedBitsInLastBlock == 0 then
          (a.block fullBlocks &&& other.block fullBlocks) == a.block fullBlocks
        else
          let mask := (1 <<< usedBitsInLastBlock) - 1
          let thisMasked := a.block fullBlocks &&& mask
          ((other.block fullBlocks &&& mask) &&& thisMasked) == thisMasked
      else true
    else false

/-- `containsNone(other)`, transcribed from `DynamicBitset::containsNone`. -/
def containsNone (a other : DynamicBitset) : Bool :=
  let fullBlocks := a.mBlocks.length - 1
  if (List.range fullBlocks).all
      (fun i => !((a.block i &&& other.block i) > 0)) then
    if a.mBlocks.length > 0 then
      let usedBitsInLastBlock := a.mNumBits % BITS_PER_BLOCK
      if usedBitsInLastBlock == 0 then
        (a.block fullBlocks &&& other.block fullBlocks) == 0
      else
        let mask := (1 <<< usedBitsInLastBlock) - 1
        let otherMasked := other.block fullBlocks &&& mask
        ((a.block fullBlocks &&& mask) &&& otherMasked) == 0
    else true
  else false

/-- Spec-side reading of `contains` ("this ⊇ other"): every bit position below
the (shared) size that is set in `other` is also set in `this`. -/
def IsSupersetUpTo (a other : DynamicBitset) (n : Nat) : Prop :=
  ∀ i, i < n → other.test i = true → a.test i = true

/-- Code-behaviour reading: every bit position below the size that is set in
`this` is also set in `other` (subset, the reverse of the spec). -/
def IsSubsetUpTo (a other : DynamicBitset) (n : Nat) : Prop :=
  ∀ i, i < n → a.test i = true → other.test i = true

end DynamicBitset

/-! ### Word-level helper lemmas -/

theorem land_eq_left_iff {x y : Nat} :
    (x &&& y) = x ↔ ∀ j, x.testBit j = true → y.testBit j = true := by
  constructor
  · intro h j hx
    have h2 : (x &&& y).testBit j = x.testBit j := by rw [h]
    rw [Nat.testBit_land, hx] at h2
    simpa using h2
  · intro h
    apply Nat.eq_of_testBit_eq
    intro j
    rw [Nat.testBit_land]
    cases hx : x.testBit j with
    | false => simp
    | true => simp [h j hx]

theorem testBit_eq_false_of_lt_of_le {x j k : Nat} (hx : x < 2 ^ k) (hj : k ≤ j) :
    x.testBit j = false :=
  Nat.testBit_eq_false_of_lt (lt_of_lt_of_le hx (Nat.pow_le_pow_right (by norm_num) hj))

/-- Full-word containment for 64-bit bounded words. -/
theorem land_eq_left_iff_bounded {x y : Nat} (hx : x < 2 ^ 64) :
    (x &&& y) = x ↔ ∀ j, j < 64 → x.testBit j = true → y.testBit j = true := by
  rw [land_eq_left_iff]
  constructor
  · intro h j _ hbit
    exact h j hbit
  · intro h j hbit
    by_cases hj : j < 64
    · exact h j hj hbit
    · rw [testBit_eq_false_of_lt_of_le hx (le_of_not_lt hj)] at hbit
      exact absurd hbit (by simp)

/-- Containment of the masked final blocks, bit by bit. -/
theorem masked_land_eq_iff {A O k : Nat} :
    ((O &&& (2 ^ k - 1)) &&& (A &&& (2 ^ k - 1))) = (A &&& (2 ^ k - 1)) ↔
      ∀ j, j < k → A.testBit j = true → O.testBit j = true := by
  rw [Nat.land_comm (O &&& (2 ^ k - 1)), land_eq_left_iff]
  constructor
  · intro h j hj hbit
    have hin : (A &&& (2 ^ k - 1)).testBit j = true := by
      rw [Nat.testBit_land, Nat.testBit_two_pow_sub_one]
      simp [hbit, hj]
    have := h j hin
    rw [Nat.testBit_land] at this
    exact (Bool.and_eq_true_iff.mp this).1
  · intro h j hbit
    rw [Nat.testBit_land, Nat.testBit_two_pow_sub_one] at hbit
    obtain ⟨hA, hk⟩ := Bool.and_eq_true_iff.mp hbit
    have hjk : j < k := by simpa using hk
    rw [Nat.testBit_land, Nat.testBit_two_pow_sub_one, h j hjk hA]
    simp [hjk]

theorem getD_mem_of_lt {l : List Nat} {i : Nat} (h : i < l.length) :
    l.getD i 0 ∈ l := by
  rw [List.getD_eq_getElem l 0 h]
  exact List.getElem_mem h

namespace DynamicBitset

theorem test_eq_block (b : DynamicBitset) (pos : Nat) :
    b.test pos = (b.block (pos / 64)).testBit (pos % 64) := rfl

/-- Decompose the position-wise subset property into per-block word
containments, matching the loop structure of `contains`. -/
theorem isSubsetUpTo_iff_blocks (a o : DynamicBitset)
    (hn : 0 < a.mNumBits)
    (hlen : a.mBlocks.length = (a.mNumBits + 63) / 64)
    (hbound : ∀ x ∈ a.mBlocks, x < 2 ^ 64) :
    IsSubsetUpTo a o a.mNumBits ↔
      ((∀ i, i < a.mBlocks.length - 1 →
          (a.block i &&& o.block i) = a.block i) ∧
       (∀ j, j < a.mNumBits - 64 * (a.mBlocks.length - 1) →
          (a.block (a.mBlocks.length - 1)).testBit j = true →
          (o.block (a.mBlocks.length - 1)).testBit j = true)) := by
  have hL : 0 < a.mBlocks.length := by omega
  have hub : ∀ i, i < a.mBlocks.length → a.block i < 2 ^ 64 := by
    intro i hi
    exact hbound _ (getD_mem_of_lt (by omega))
  constructor
  · intro h
    constructor
    · intro i hi
      rw [land_eq_left_iff]
      intro j hbit
      by_cases hj : j < 64
      · have hpos : 64 * i + j < a.mNumBits := by omega
        have hdiv : (64 * i + j) / 64 = i := by omega
        have hmod : (64 * i + j) % 64 = j := by omega
        have ht : a.test (64 * i + j) = true := by
          rw [test_eq_block, hdiv, hmod]; exact hbit
        have := h (64 * i + j) hpos ht
        rw [test_eq_block, hdiv, hmod] at this
        exact this
      · rw [testBit_eq_false_of_lt_of_le (hub i (by omega)) (by omega)] at hbit
        exact absurd hbit (by simp)
    · intro j hj hbit
      have hj64 : j < 64 := by omega
      have hpos : 64 * (a.mBlocks.length - 1) + j < a.mNumBits := by omega
      have hdiv : (64 * (a.mBlocks.length - 1) + j) / 64 = a.mBlocks.length - 1 := by
        omega
      have hmod : (64 * (a.mBlocks.length - 1) + j) % 64 = j := by omega
      have ht : a.test (64 * (a.mBlocks.length - 1) + j) = true := by
        rw [test_eq_block, hdiv, hmod]; exact hbit
      have := h _ hpos ht
      rw [test_eq_block, hdiv, hmod] at this
      exact this
  · rintro ⟨h1, h2⟩ pos hpos hbit
    rw [test_eq_block] at hbit ⊢
    have hj : pos % 64 < 64 := by omega
    by_cases hi : pos / 64 < a.mBlocks.length - 1
    · exact (land_eq_left_iff.mp (h1 _ hi)) _ hbit
    · have hieq : pos / 64 = a.mBlocks.length - 1 := by omega
      rw [hieq] at hbit ⊢
      exact h2 _ (by omega) hbit

/-- `DynamicBitset::contains` computes the *subset* relation: it returns true
exactly when every (in-range) bit set in `this` is also set in `other`,
regardless of the padding bits in the final storage word of either operand. -/
theorem contains_eq_subset (a o : DynamicBitset)
    (hn : 0 < a.mNumBits)
    (hsz : o.mNumBits = a.mNumBits)
    (hlen : a.mBlocks.length = (a.mNumBits + 63) / 64)
    (hlen2 : o.mBlocks.length = a.mBlocks.length)
    (hbound : ∀ x ∈ a.mBlocks, x < 2 ^ 64) :
    contains a o = true ↔ IsSubsetUpTo a o a.mNumBits := by
  have hL : 0 < a.mBlocks.length := by omega
  have hlast : a.block (a.mBlocks.length - 1) < 2 ^ 64 :=
    hbound _ (getD_mem_of_lt (by omega))
  rw [isSubsetUpTo_iff_blocks a o hn hlen hbound]
  simp only [contains]
  rw [if_neg (by omega)]
  by_cases h1 : (List.range (a.mBlocks.length - 1)).all
      (fun i => (a.block i &&& o.block i) == a.block i) = true
  · rw [if_pos h1, if_pos (by omega)]
    have h1p : ∀ i, i < a.mBlocks.length - 1 → (a.block i &&& o.block i) = a.block i := by
      intro i hi
      have := (List.all_eq_true.mp h1) i (List.mem_range.mpr hi)
      exact beq_iff_eq.mp (by simpa using this)
    by_cases hu : a.mNumBits % BITS_PER_BLOCK == 0
    · rw [if_pos hu]
      have hmul : a.mNumBits = 64 * a.mBlocks.length := by
        have := beq_iff_eq.mp hu
        simp only [BITS_PER_BLOCK] at this
        omega
      rw [beq_iff_eq, land_eq_left_iff_bounded hlast]
      constructor
      · intro h
        refine ⟨h1p, ?_⟩
        intro j hj hbit
        exact h j (by omega) hbit
      · rintro ⟨-, h2⟩ j hj hbit
        exact h2 j (by omega) hbit
    · rw [if_neg hu]
      have hune : a.mNumBits % 64 ≠ 0 := by
        intro hc
        exact absurd (by simpa [BITS_PER_BLOCK] using hc) (by simpa using hu)
      have hms : (1 <<< (a.mNumBits % BITS_PER_BLOCK)) - 1
          = 2 ^ (a.mNumBits % 64) - 1 := by
        simp [Nat.shiftLeft_eq, BITS_PER_BLOCK]
      rw [beq_iff_eq, hms, masked_land_eq_iff]
      have hrange : a.mNumBits - 64 * (a.mBlocks.length - 1) = a.mNumBits % 64 := by
        omega
      constructor
      · intro h
        refine ⟨h1p, ?_⟩
        intro j hj hbit
        exact h j (by omega) hbit
      · rintro ⟨-, h2⟩ j hj hbit
        exact h2 j (by omega) hbit
  · rw [if_neg h1]
    constructor
    · intro h
      exact absurd h (by simp)
    · rintro ⟨hc, -⟩
      exfalso
      apply h1
      rw [List.all_eq_true]
      intro i hi
      have := hc i (List.mem_range.mp hi)
      simpa using beq_iff_eq.mpr this

end DynamicBitset

/-! ### Claim C5 -/

/-- C5 counterexample: with two 2-bit bitsets, `this = {0,1}` and
`other = {0}`, `this` is a superset of `other` on every bit position in
`[0, size)`, yet `DynamicBitset::contains` returns `false`.  The claim that
`contains(other)` returns true exactly when `this ⊇ other` is therefore false
at this input. -/
theorem c5_counterexample :
    DynamicBitset.IsSupersetUpTo ⟨[3], 2⟩ ⟨[1], 2⟩ 2 ∧
      DynamicBitset.contains ⟨[3], 2⟩ ⟨[1], 2⟩ = false := by
  constructor
  · unfold DynamicBitset.IsSupersetUpTo
    decide
  · rfl

/-- C5 (amended): `DynamicBitset::contains(other)` returns true exactly when
`this` is a *subset* of `other` — every bit position in `[0, size)` set in
`this` is also set in `other` — for operands of equal bit size and block
count, and the result is unaffected by the contents of the unused padding
bits in the final storage word of either operand (the characterisation only
mentions bit positions below the size). -/
theorem c5_contains_subset_semantics (a o : WhalECS.DynamicBitset)
    (hn : 0 < a.mNumBits)
    (hsz : o.mNumBits = a.mNumBits)
    (hlen : a.mBlocks.length = (a.mNumBits + 63) / 64)
    (hlen2 : o.mBlocks.length = a.mBlocks.length)
    (hbound : ∀ x ∈ a.mBlocks, x < 2 ^ 64) :
    DynamicBitset.contains a o = true ↔ DynamicBitset.IsSubsetUpTo a o a.mNumBits :=
  DynamicBitset.contains_eq_subset a o hn hsz hlen hlen2 hbound

/-- C5 witness: the amended theorem applied at a concrete input. -/
theorem c5_witness : DynamicBitset.contains ⟨[1], 2⟩ ⟨[3], 2⟩ = true :=
  (c5_contains_subset_semantics ⟨[1], 2⟩ ⟨[3], 2⟩ (by norm_num) (by norm_num)
    (by norm_num) (by norm_num) (by decide)).mpr
    (by unfold DynamicBitset.IsSubsetUpTo; decide)

/-! ## Patterns at the ECS level

In the ECS core every `Pattern` is a `DynamicBitset` resized to
`MAX_COMPONENTS = 64` bits: exactly one 64-bit storage block with
`used_bits_in_last_block = 0`.  We model such patterns as a single machine
word (`Nat` kept below `2 ^ 64`); each operation below is the one-block
instantiation of the corresponding `DynamicBitset` member. -/

def MAX_COMPONENTS : Nat := 64

def MAX_ENTITIES : Nat := 5000

/-- A 64-bit component/tag signature word. -/
abbrev Pattern := Nat

namespace Pattern

/-- `DynamicBitset::test(pos)` on a single block. -/
def test (p : Pattern) (i : Nat) : Bool := Nat.testBit p i

/-- `DynamicBitset::set(pos)` on a single block. -/
def setBit (p : Pattern) (i : Nat) : Pattern := p ||| (1 <<< i)

/-- `DynamicBitset::reset(pos)` (`&= ~bit_mask`) on a single 64-bit block. -/
def resetBit (p : Pattern) (i : Nat) : Pattern :=
  p &&& ((2 ^ 64 - 1) ^^^ (1 <<< i))

/-- `DynamicBitset::set(pos, value)`. -/
def setVal (p : Pattern) (i : Nat) (v : Bool) : Pattern :=
  if v then p.setBit i else p.resetBit i

/-- `DynamicBitset::contains` in the one-block, fully-used-word case:
`(mBlocks[0] & other.mBlocks[0]) == mBlocks[0]` (subset semantics, see C5). -/
def contains (a b : Pattern) : Bool := (a &&& b) == a

/-- `DynamicBitset::containsNone` in the one-block, fully-used-word case. -/
def containsNone (a b : Pattern) : Bool := (a &&& b) == 0

/-- The one-block reading agrees with the general `DynamicBitset.contains`. -/
theorem contains_eq_dynamicBitset (a b : Pattern) :
    contains a b = DynamicBitset.contains ⟨[a], 64⟩ ⟨[b], 64⟩ := by
  simp only [contains, DynamicBitset.contains, DynamicBitset.block, BITS_PER_BLOCK]
  norm_num

/-- The one-block reading agrees with the general `DynamicBitset.containsNone`. -/
theorem containsNone_eq_dynamicBitset (a b : Pattern) :
    containsNone a b = DynamicBitset.containsNone ⟨[a], 64⟩ ⟨[b], 64⟩ := by
  simp only [containsNone, DynamicBitset.containsNone, DynamicBitset.block, BITS_PER_BLOCK]
  norm_num

end Pattern

end WhalECS

namespace WhalECS

/-! ## ComponentArray (part_002, lines 1026-1108)

Dense per-type storage: a value table indexed by dense slot, an
entity → index map (`-1` sentinel modelled as `none`), and the inverse
index → entity map (0-filled).  Component payloads are opaque `Nat` values. -/

structure ComponentArray where
  mComponentTable : Nat → Nat
  mEntityToIndex : Nat → Option Nat
  mIndexToEntity : Nat → Nat
  mSize : Nat

namespace ComponentArray

/-- The constructor: `mEntityToIndex.fill(-1); mIndexToEntity.fill(0)`. -/
def init : ComponentArray :=
  { mComponentTable := fun _ => 0
    mEntityToIndex := fun _ => none
    mIndexToEntity := fun _ => 0
    mSize := 0 }

/-- `hasData(entity)`: `mEntityToIndex[entity.id()] != -1`. -/
def hasData (arr : ComponentArray) (e : Nat) : Bool :=
  (arr.mEntityToIndex e).isSome

/-- `addData(entity, component)`: overwrite in place when present, else append
a new dense slot. -/
def addData (arr : ComponentArray) (e v : Nat) : ComponentArray :=
  match arr.mEntityToIndex e with
  | some ix =>
    { arr with mComponentTable := fun i => if i = ix then v else arr.mComponentTable i }
  | none =>
    let ix := arr.mSize
    { mComponentTable := fun i => if i = ix then v else arr.mComponentTable i
      mEntityToIndex := fun x => if x = e then some ix else arr.mEntityToIndex x
      mIndexToEntity := fun i => if i = ix then e else arr.mIndexToEntity i
      mSize := arr.mSize + 1 }

/-- `setData(entity, component)`: asserts a slot exists (`none` on violation). -/
def setData (arr : ComponentArray) (e v : Nat) : Option ComponentArray :=
  match arr.mEntityToIndex e with
  | none => none
  | some ix =>
    some { arr with mComponentTable := fun i => if i = ix then v else arr.mComponentTable i }

/-- `removeData(entity)`: no-op when absent; otherwise swap the last live
element into the removed slot, update both maps, shrink by one. -/
def removeData (arr : ComponentArray) (e : Nat) : ComponentArray :=
  match arr.mEntityToIndex e with
  | none => arr
  | some removeIx =>
    let lastIx := arr.mSize - 1
    let lastEntity := arr.mIndexToEntity lastIx
    let table1 := if removeIx = lastIx then arr.mComponentTable
      else fun i => if i = removeIx then arr.mComponentTable lastIx else arr.mComponentTable i
    let e2i1 := if removeIx = lastIx then arr.mEntityToIndex
      else fun x => if x = lastEntity then some removeIx else arr.mEntityToIndex x
    let i2e1 := if removeIx = lastIx then arr.mIndexToEntity
      else fun i => if i = removeIx then lastEntity else arr.mIndexToEntity i
    { mComponentTable := table1
      mEntityToIndex := fun x => if x = e then none else e2i1 x
      mIndexToEntity := fun i => if i = lastIx then 0 else i2e1 i
      mSize := arr.mSize - 1 }

/-- `tryGetData(entity)`: null when absent, otherwise the stored value. -/
def tryGetData (arr : ComponentArray) (e : Nat) : Option Nat :=
  match arr.mEntityToIndex e with
  | none => none
  | some ix => some (arr.mComponentTable ix)

/-- `entityDestroyed(entity)`: guard then `removeData` (which re-guards). -/
def entityDestroyed (arr : ComponentArray) (e : Nat) : ComponentArray :=
  if arr.hasData e then arr.removeData e else arr

/-- `copyComponent(prefab, dest)`: copy the prefab value onto `dest` when the
prefab holds one. -/
def copyComponent (arr : ComponentArray) (prefab dest : Nat) : ComponentArray :=
  match arr.tryGetData prefab with
  | none => arr
  | some v => arr.addData dest v

/-- Density invariant (§3 of the spec): live values occupy `[0, mSize)`
contiguously and the two maps are mutually inverse on the live range. -/
structure WF (arr : ComponentArray) : Prop where
  lookup_lt : ∀ e ix, arr.mEntityToIndex e = some ix → ix < arr.mSize
  lookup_inv : ∀ e ix, arr.mEntityToIndex e = some ix → arr.mIndexToEntity ix = e
  dense : ∀ ix, ix < arr.mSize → arr.mEntityToIndex (arr.mIndexToEntity ix) = some ix

theorem wf_init : WF init := by
  refine ⟨?_, ?_, ?_⟩
  · intro e ix h
    simp [init] at h
  · intro e ix h
    simp [init] at h
  · intro ix h
    simp [init] at h

theorem removeData_of_none {arr : ComponentArray} {e : Nat}
    (h : arr.mEntityToIndex e = none) : arr.removeData e = arr := by
  simp [removeData, h]

theorem removeData_size {arr : ComponentArray} {e removeIx : Nat}
    (h : arr.mEntityToIndex e = some removeIx) :
    (arr.removeData e).mSize = arr.mSize - 1 := by
  simp [removeData, h]

theorem removeData_e2i {arr : ComponentArray} {e removeIx : Nat}
    (h : arr.mEntityToIndex e = some removeIx) (x : Nat) :
    (arr.removeData e).mEntityToIndex x =
      if x = e then none
      else if removeIx = arr.mSize - 1 then arr.mEntityToIndex x
      else if x = arr.mIndexToEntity (arr.mSize - 1) then some removeIx
      else arr.mEntityToIndex x := by
  simp only [removeData, h]
  split_ifs <;> simp_all

theorem removeData_i2e {arr : ComponentArray} {e removeIx : Nat}
    (h : arr.mEntityToIndex e = some removeIx) (i : Nat) :
    (arr.removeData e).mIndexToEntity i =
      if i = arr.mSize - 1 then 0
      else if removeIx = arr.mSize - 1 then arr.mIndexToEntity i
      else if i = removeIx then arr.mIndexToEntity (arr.mSize - 1)
      else arr.mIndexToEntity i := by
  simp only [removeData, h]
  split_ifs <;> simp_all

theorem removeData_table {arr : ComponentArray} {e removeIx : Nat}
    (h : arr.mEntityToIndex e = some removeIx) (i : Nat) :
    (arr.removeData e).mComponentTable i =
      if removeIx = arr.mSize - 1 then arr.mComponentTable i
      else if i = removeIx then arr.mComponentTable (arr.mSize - 1)
      else arr.mComponentTable i := by
  simp only [removeData, h]
  split_ifs <;> simp_all

end ComponentArray

end WhalECS

namespace WhalECS

namespace ComponentArray

/-- Auxiliary facts available whenever an entity is present in a well-formed
array: its slot is in range and below the last slot exactly when it is not the
last element. -/
theorem lookup_facts {arr : ComponentArray} {e removeIx : Nat} (hwf : WF arr)
    (h : arr.mEntityToIndex e = some removeIx) :
    removeIx < arr.mSize ∧ arr.mIndexToEntity removeIx = e :=
  ⟨hwf.lookup_lt e removeIx h, hwf.lookup_inv e removeIx h⟩

end ComponentArray

/-- C2: `ComponentArray::removeData(e)` on a well-formed (dense) array with
`e` present leaves exactly `N - 1` elements occupying `[0, N-1)` contiguously
(size decremented and the density invariant preserved), moves the
previously-last element into the removed slot when `e` was not last, keeps
every other entity's lookup and stored value intact, and removes `e`; when `e`
is absent the call is a no-op. -/
theorem c2_removeData_correct (arr : ComponentArray) (e : Nat)
    (hwf : ComponentArray.WF arr) :
    (arr.hasData e = true →
      ((arr.removeData e).mSize = arr.mSize - 1
       ∧ ComponentArray.WF (arr.removeData e)
       ∧ (arr.removeData e).hasData e = false
       ∧ (∀ x, x ≠ e → (arr.removeData e).tryGetData x = arr.tryGetData x)
       ∧ (∀ removeIx, arr.mEntityToIndex e = some removeIx →
            removeIx ≠ arr.mSize - 1 →
            (arr.removeData e).mComponentTable removeIx
              = arr.mComponentTable (arr.mSize - 1)
            ∧ (arr.removeData e).mIndexToEntity removeIx
              = arr.mIndexToEntity (arr.mSize - 1))))
    ∧ (arr.hasData e = false → arr.removeData e = arr) := by
  constructor
  · intro hhas
    rcases hsome : arr.mEntityToIndex e with - | removeIx
    · rw [ComponentArray.hasData, hsome] at hhas
      simp at hhas
    obtain ⟨hlt, hinv⟩ := ComponentArray.lookup_facts hwf hsome
    have hN : 0 < arr.mSize := by omega
    -- notation for the last slot and its entity
    have hlastE : ∀ x ix, arr.mEntityToIndex x = some ix → ix = arr.mSize - 1 →
        x = arr.mIndexToEntity (arr.mSize - 1) := by
      intro x ix hx hix
      have := hwf.lookup_inv x ix hx
      rw [hix] at this
      omega
    refine ⟨ComponentArray.removeData_size hsome, ?_, ?_, ?_, ?_⟩
    · -- well-formedness of the result
      by_cases hcase : removeIx = arr.mSize - 1
      · -- removing the last element: no swap
        have hEe : arr.mIndexToEntity (arr.mSize - 1) = e := by
          rw [← hcase]; exact hinv
        refine ⟨?_, ?_, ?_⟩
        · intro x ix hx
          rw [ComponentArray.removeData_e2i hsome, if_pos hcase] at hx
          by_cases hxe : x = e
          · rw [if_pos hxe] at hx; cases hx
          · rw [if_neg hxe] at hx
            have hlt2 := hwf.lookup_lt x ix hx
            have hne : ix ≠ arr.mSize - 1 := by
              intro hc
              exact hxe (by rw [hlastE x ix hx hc, hEe])
            rw [ComponentArray.removeData_size hsome]
            omega
        · intro x ix hx
          rw [ComponentArray.removeData_e2i hsome, if_pos hcase] at hx
          by_cases hxe : x = e
          · rw [if_pos hxe] at hx; cases hx
          · rw [if_neg hxe] at hx
            have hlt2 := hwf.lookup_lt x ix hx
            have hne : ix ≠ arr.mSize - 1 := by
              intro hc
              exact hxe (by rw [hlastE x ix hx hc, hEe])
            rw [ComponentArray.removeData_i2e hsome, if_neg hne, if_pos hcase]
            exact hwf.lookup_inv x ix hx
        · intro ix hix
          rw [ComponentArray.removeData_size hsome] at hix
          have hne : ix ≠ arr.mSize - 1 := by omega
          rw [ComponentArray.removeData_i2e hsome, if_neg hne, if_pos hcase]
          have hd := hwf.dense ix (by omega)
          have hye : arr.mIndexToEntity ix ≠ e := by
            intro hc
            rw [hc, hsome] at hd
            have : removeIx = ix := by
              cases hd; rfl
            omega
          rw [ComponentArray.removeData_e2i hsome, if_neg hye, if_pos hcase]
          exact hd
      · -- swap case: the last element moves into the removed slot
        have hlastNe : arr.mIndexToEntity (arr.mSize - 1) ≠ e := by
          intro hc
          have hd := hwf.dense (arr.mSize - 1) (by omega)
          rw [hc, hsome] at hd
          have : removeIx = arr.mSize - 1 := by cases hd; rfl
          exact hcase this
        have hdlast := hwf.dense (arr.mSize - 1) (by omega)
        refine ⟨?_, ?_, ?_⟩
        · intro x ix hx
          rw [ComponentArray.removeData_e2i hsome, if_neg hcase] at hx
          rw [ComponentArray.removeData_size hsome]
          by_cases hxe : x = e
          · rw [if_pos hxe] at hx; cases hx
          · rw [if_neg hxe] at hx
            by_cases hxl : x = arr.mIndexToEntity (arr.mSize - 1)
            · rw [if_pos hxl] at hx
              cases hx
              omega
            · rw [if_neg hxl] at hx
              have hlt2 := hwf.lookup_lt x ix hx
              have hne : ix ≠ arr.mSize - 1 := by
                intro hc
                exact hxl (hlastE x ix hx hc)
              omega
        · intro x ix hx
          rw [ComponentArray.removeData_e2i hsome, if_neg hcase] at hx
          by_cases hxe : x = e
          · rw [if_pos hxe] at hx; cases hx
          · rw [if_neg hxe] at hx
            by_cases hxl : x = arr.mIndexToEntity (arr.mSize - 1)
            · rw [if_pos hxl] at hx
              cases hx
              rw [ComponentArray.removeData_i2e hsome, if_neg (by omega : removeIx ≠ arr.mSize - 1)]
              rw [if_neg hcase, if_pos rfl]
              exact hxl.symm
            · rw [if_neg hxl] at hx
              have hlt2 := hwf.lookup_lt x ix hx
              have hne : ix ≠ arr.mSize - 1 := by
                intro hc
                exact hxl (hlastE x ix hx hc)
              have hner : ix ≠ removeIx := by
                intro hc
                rw [hc] at hx
                have := hwf.lookup_inv x removeIx hx
                rw [hinv] at this
                exact hxe this.symm
              rw [ComponentArray.removeData_i2e hsome, if_neg hne, if_neg hcase, if_neg hner]
              exact hwf.lookup_inv x ix hx
        · intro ix hix
          rw [ComponentArray.removeData_size hsome] at hix
          have hne : ix ≠ arr.mSize - 1 := by omega
          rw [ComponentArray.removeData_i2e hsome, if_neg hne, if_neg hcase]
          by_cases hir : ix = removeIx
          · rw [if_pos hir]
            rw [ComponentArray.removeData_e2i hsome, if_neg hlastNe, if_neg hcase, if_pos rfl,
              hir]
          · rw [if_neg hir]
            have hd := hwf.dense ix (by omega)
            have hye : arr.mIndexToEntity ix ≠ e := by
              intro hc
              rw [hc, hsome] at hd
              have : removeIx = ix := by cases hd; rfl
              exact hir this.symm
            have hyl : arr.mIndexToEntity ix ≠ arr.mIndexToEntity (arr.mSize - 1) := by
              intro hc
              rw [hc, hdlast] at hd
              have : arr.mSize - 1 = ix := by cases hd; rfl
              omega
            rw [ComponentArray.removeData_e2i hsome, if_neg hye, if_neg hcase, if_neg hyl]
            exact hd
    · -- the removed entity no longer has data
      rw [ComponentArray.hasData, ComponentArray.removeData_e2i hsome, if_pos rfl]
      rfl
    · -- remaining entities keep their value lookup
      intro x hxe
      rw [ComponentArray.tryGetData, ComponentArray.tryGetData,
        ComponentArray.removeData_e2i hsome, if_neg hxe]
      by_cases hcase : removeIx = arr.mSize - 1
      · rw [if_pos hcase]
        rcases hx : arr.mEntityToIndex x with - | ix
        · rfl
        · show some ((arr.removeData e).mComponentTable ix) = some (arr.mComponentTable ix)
          rw [ComponentArray.removeData_table hsome, if_pos hcase]
      · rw [if_neg hcase]
        by_cases hxl : x = arr.mIndexToEntity (arr.mSize - 1)
        · rw [if_pos hxl]
          have hd := hwf.dense (arr.mSize - 1) (by omega)
          rw [← hxl] at hd
          rw [hd]
          show some ((arr.removeData e).mComponentTable removeIx)
            = some (arr.mComponentTable (arr.mSize - 1))
          rw [ComponentArray.removeData_table hsome, if_neg hcase, if_pos rfl]
        · rw [if_neg hxl]
          rcases hx : arr.mEntityToIndex x with - | ix
          · rfl
          · have hner : ix ≠ removeIx := by
              intro hc
              rw [hc] at hx
              have := hwf.lookup_inv x removeIx hx
              rw [hinv] at this
              exact hxe this.symm
            show some ((arr.removeData e).mComponentTable ix) = some (arr.mComponentTable ix)
            rw [ComponentArray.removeData_table hsome, if_neg hcase, if_neg hner]
    · -- the previously-last element moved into the removed slot
      intro removeIx2 hsome2 hne2
      have heq : removeIx2 = removeIx := (Option.some_inj.mp hsome2).symm
      subst heq
      constructor
      · rw [ComponentArray.removeData_table hsome, if_neg hne2, if_pos rfl]
      · rw [ComponentArray.removeData_i2e hsome, if_neg hne2, if_neg hne2, if_pos rfl]
  · intro hnone
    rcases hx : arr.mEntityToIndex e with - | ix
    · exact ComponentArray.removeData_of_none hx
    · rw [ComponentArray.hasData, hx] at hnone
      simp at hnone

end WhalECS

namespace WhalECS

namespace ComponentArray

theorem wf_addData {arr : ComponentArray} (hwf : WF arr) (e v : Nat) :
    WF (arr.addData e v) := by
  rcases h : arr.mEntityToIndex e with - | ix0
  · -- fresh insert at the end
    refine ⟨?_, ?_, ?_⟩
    · intro x ix hx
      simp only [addData, h] at hx ⊢
      by_cases hxe : x = e
      · rw [if_pos hxe] at hx
        cases hx
        omega
      · rw [if_neg hxe] at hx
        have := hwf.lookup_lt x ix hx
        omega
    · intro x ix hx
      simp only [addData, h] at hx ⊢
      by_cases hxe : x = e
      · rw [if_pos hxe] at hx
        cases hx
        rw [if_pos rfl]
        exact hxe.symm
      · rw [if_neg hxe] at hx
        have hlt := hwf.lookup_lt x ix hx
        rw [if_neg (by omega)]
        exact hwf.lookup_inv x ix hx
    · intro ix hix
      simp only [addData, h] at hix ⊢
      by_cases hie : ix = arr.mSize
      · rw [if_pos hie, if_pos rfl, hie]
      · rw [if_neg hie]
        have hd := hwf.dense ix (by omega)
        have hne : arr.mIndexToEntity ix ≠ e := by
          intro hc
          rw [hc, h] at hd
          cases hd
        rw [if_neg hne]
        exact hd
  · -- overwrite in place: the maps and size are untouched
    refine ⟨?_, ?_, ?_⟩
    · intro x ix hx
      simp only [addData, h] at hx ⊢
      exact hwf.lookup_lt x ix hx
    · intro x ix hx
      simp only [addData, h] at hx ⊢
      exact hwf.lookup_inv x ix hx
    · intro ix hix
      simp only [addData, h] at hix ⊢
      exact hwf.dense ix hix

end ComponentArray

/-- C2 witness: remove entity 1 from a two-element array built by `addData`. -/
theorem c2_witness :
    (((ComponentArray.init.addData 1 10).addData 2 20).removeData 1).mSize = 1 := by
  have hwf : ComponentArray.WF ((ComponentArray.init.addData 1 10).addData 2 20) :=
    ComponentArray.wf_addData (ComponentArray.wf_addData ComponentArray.wf_init 1 10) 2 20
  have h := (c2_removeData_correct ((ComponentArray.init.addData 1 10).addData 2 20) 1 hwf).1
    (by rfl)
  rw [h.1]
  rfl

end WhalECS

namespace WhalECS

/-! ## The ECS world state

One flat record holding the `EntityManager`, `ComponentManager`,
`SystemManager` and `World` state of the newest source variant
(EntityManager.cpp lines 146-256, part_002 lines 856-1898, part_010,
src/SystemManager.cpp, src/Entity.cpp lines 185-451).

Component/tag registration (`registerComponent`/`registerTag`) is treated as
pre-state setup: the registered type lists, the descriptor-entity tables and
the internal component ids are fields of the state that the modelled mutating
operations never extend; an operation on an unregistered type (which in C++
would lazily run the registration machinery) is out of the modelled scope and
returns `none`.  `internal::TraitUsers` values (a pair of patterns) live in
their own table rather than in the opaque-`Nat`-valued `ComponentArray`s. -/

/-- `SystemManager::Attributes::UniqueEntity`. -/
def UniqueEntity : Nat := 1

/-- `SystemManager::Attributes::UpdateDuringPause`. -/
def UpdateDuringPause : Nat := 2

/-- `SystemManager::Attributes::ExcludeChildren`. -/
def ExcludeChildren : Nat := 4

/-- The registration-time data of one system: its signatures (`ISystem`
fields), trait list, attribute bits (`SystemManager::mAttributes[i]`) and
which optional capability interfaces it implements. -/
structure SystemDef where
  mPattern : Pattern
  mAntiPattern : Pattern
  mTagPattern : Pattern
  mTagAntiPattern : Pattern
  mTraits : List Nat
  attrs : Nat
  hasMonitor : Bool
  hasUpdate : Bool
  deriving Repr, DecidableEq

/-- One registered system: its definition plus its live membership set
(`ISystem::mEntities`, keyed by entity id). -/
structure SystemState where
  sdef : SystemDef
  mEntities : List Nat
  deriving Repr, DecidableEq

/-- Observable events: monitor callbacks (with the membership set as the
callback observes it), lifecycle callbacks, the destruction steps of one
entity, and system updates. -/
inductive Ev where
  | onAdd (sys e : Nat)
  | onRemove (sys e : Nat) (membersAtCallback : List Nat)
  | deathCb (e : Nat)
  | destroyNotify (e : Nat)
  | unparentEv (e : Nat)
  | recycle (e : Nat)
  | clearStorage (e : Nat)
  | updateRun (sys : Nat)
  deriving Repr, DecidableEq

/-- `unordered_set` insertion, determinised as append-if-absent. -/
def insertUnique (l : List Nat) (x : Nat) : List Nat :=
  if l.contains x then l else l ++ [x]

structure WorldState where
  -- EntityManager
  mAvailableIDs : List Nat
  mEntityCount : Nat
  mActiveEntities : Nat → Bool
  mPatterns : Nat → Pattern
  mTagPatterns : Nat → Pattern
  childToParent : Nat → Nat
  parentToChildren : Nat → List Nat
  -- ComponentManager (registration data is pre-state, see above)
  registeredTypes : List Nat
  arrays : Nat → ComponentArray
  tagRegistered : Nat → Bool
  traitUsers : Nat → Option (Pattern × Pattern)
  compEntityOf : Nat → Nat
  tagEntityOf : Nat → Nat
  idCompInternal : Nat
  idTagInternal : Nat
  idTraitUsers : Nat
  idOverrideTag : Nat
  -- SystemManager
  systems : List SystemState
  mUpdateGroups : List (Nat × List Nat)
  mFrame : Nat
  mIsWorldPaused : Bool
  -- World
  mToKill : List Nat
  mKilledThisFrame : List Nat
  deathCallbackRegistered : Bool

namespace WorldState

/-- `Entity::_has(t)`: component-pattern bit. -/
def hasComponentBit (w : WorldState) (e t : Nat) : Bool :=
  Pattern.test (w.mPatterns e) t

/-- `Entity::_hasTag(t)`: tag-pattern bit. -/
def hasTagBit (w : WorldState) (e t : Nat) : Bool :=
  Pattern.test (w.mTagPatterns e) t

/-- `entity.has<OverrideAttributeIgnoreChildren>()` (an empty struct: a tag). -/
def hasOverrideIgnoreChildren (w : WorldState) (e : Nat) : Bool :=
  w.hasTagBit e w.idOverrideTag

/-- `entity.has<internal::Component>()` (a data component holding an id). -/
def hasInternalComponent (w : WorldState) (e : Nat) : Bool :=
  w.hasComponentBit e w.idCompInternal

/-- `entity.has<internal::Tag>()` (a data component holding an id). -/
def hasInternalTag (w : WorldState) (e : Nat) : Bool :=
  w.hasComponentBit e w.idTagInternal

/-- `ISystem::isPatternInSystem(pattern, tagPattern)` (part_002 lines
1315-1333): every trait must be implemented by at least one component or tag
of the pattern, the required signatures must be contained in the entity
patterns (`contains` is subset of its receiver, see C5), and the excluded
signatures must be disjoint from them. -/
def isPatternInSystem (w : WorldState) (sd : SystemDef) (p tp : Pattern) : Bool :=
  (sd.mTraits.all fun tr =>
    match w.traitUsers tr with
    | some tu => !(Pattern.containsNone tu.1 p && Pattern.containsNone tu.2 tp)
    | none => false)
  && Pattern.contains sd.mPattern p && Pattern.contains sd.mTagPattern tp
  && Pattern.containsNone sd.mAntiPattern p
  && Pattern.containsNone sd.mTagAntiPattern tp

/-- `ISystem::isMatch(e)`. -/
def isMatch (w : WorldState) (sd : SystemDef) (e : Nat) : Bool :=
  w.isPatternInSystem sd (w.mPatterns e) (w.mTagPatterns e)

end WorldState

end WhalECS

namespace WhalECS

namespace WorldState

/-! ### SystemManager membership maintenance (src/SystemManager.cpp) -/

/-- Worklist form of `tryRemoveChild` (src/SystemManager.cpp lines 52-63): a
DFS over the children of a just-inserted entity of an exclude-children
system, evicting any descendant found in the membership set (remove callback
fires before the erase there), descending only below evicted members.  Fuel
exhaustion is a failure (`none`): the C++ recursion would not terminate. -/
def tryRemoveChildren (env : WorldState) (i : Nat) (hasMon : Bool) :
    Nat → List Nat → List Nat → Option (List Nat × List Ev)
  | 0, ws, ms => if ws.isEmpty then some (ms, []) else none
  | fuel + 1, ws, ms =>
    match ws with
    | [] => some (ms, [])
    | c :: rest =>
      if env.hasOverrideIgnoreChildren c then
        tryRemoveChildren env i hasMon fuel rest ms
      else if ms.contains c then
        let evs1 := if hasMon then [Ev.onRemove i c ms] else []
        let ms1 := ms.erase c
        match tryRemoveChildren env i hasMon fuel (env.parentToChildren c ++ rest) ms1 with
        | none => none
        | some (ms2, evs2) => some (ms2, evs1 ++ evs2)
      else tryRemoveChildren env i hasMon fuel rest ms

/-- `SystemManager::checkIfInSystem` (src/SystemManager.cpp lines 65-90):
decide membership of `e` in system `i` from the supplied patterns, firing the
matching monitor callback on a transition; the `UniqueEntity` assertion is a
failure.  `env` supplies the world data the check reads (parents, patterns,
trait users); membership sets of other systems are never read. -/
def checkIfInSystem (env : WorldState) (fuel i : Nat) (ss : SystemState)
    (e : Nat) (p tp : Pattern) (isIn : Bool) : Option (SystemState × List Ev) :=
  let sd := ss.sdef
  let isExcluded := ((sd.attrs &&& ExcludeChildren) != 0)
    && !(env.hasOverrideIgnoreChildren e)
    && env.isMatch sd (env.childToParent e)
  let isPatternMatch := env.isPatternInSystem sd p tp
  if isPatternMatch && !isExcluded then
    if isIn then some (ss, [])
    else if ((sd.attrs &&& UniqueEntity) != 0) && !(ss.mEntities.length < 1 : Bool) then
      none
    else
      let ms1 := insertUnique ss.mEntities e
      let evs1 := if ss.sdef.hasMonitor then [Ev.onAdd i e] else []
      if (sd.attrs &&& ExcludeChildren) != 0 then
        match tryRemoveChildren env i ss.sdef.hasMonitor fuel (env.parentToChildren e) ms1 with
        | none => none
        | some (ms2, evs2) => some ({ ss with mEntities := ms2 }, evs1 ++ evs2)
      else some ({ ss with mEntities := ms1 }, evs1)
  else if isIn then
    let evs := if ss.sdef.hasMonitor then [Ev.onRemove i e ss.mEntities] else []
    some ({ ss with mEntities := ss.mEntities.erase e }, evs)
  else some (ss, [])

/-- The loop body of `SystemManager::onEntityPatternChanged`, from system
index `i` on. -/
def checkSystemsFrom (env : WorldState) (fuel : Nat) (e : Nat) (p tp : Pattern) :
    Nat → List SystemState → Option (List SystemState × List Ev)
  | _, [] => some ([], [])
  | i, ss :: rest =>
    match checkIfInSystem env fuel i ss e p tp (ss.mEntities.contains e) with
    | none => none
    | some (ss1, evs1) =>
      match checkSystemsFrom env fuel e p tp (i + 1) rest with
      | none => none
      | some (rest1, evs2) => some (ss1 :: rest1, evs1 ++ evs2)

/-- `SystemManager::onEntityPatternChanged(e, newEntityPattern, newTagPattern)`
(src/SystemManager.cpp lines 92-99). -/
def onEntityPatternChanged (w : WorldState) (fuel e : Nat) (p tp : Pattern) :
    Option (WorldState × List Ev) :=
  match checkSystemsFrom w fuel e p tp 0 w.systems with
  | none => none
  | some (systems1, evs) => some ({ w with systems := systems1 }, evs)

/-- The loop body of `SystemManager::onEntityDestroyed` from system index `i`
on: for every system containing `e`, erase it and *then* fire the monitor's
remove callback (note the order, src/SystemManager.cpp lines 42-47: the
callback observes the set with `e` already gone). -/
def destroySystemsFrom (e : Nat) : Nat → List SystemState → (List SystemState × List Ev)
  | _, [] => ([], [])
  | i, ss :: rest =>
    let step : SystemState × List Ev :=
      if ss.mEntities.contains e then
        let ms1 := ss.mEntities.erase e
        ({ ss with mEntities := ms1 },
          if ss.sdef.hasMonitor then [Ev.onRemove i e ms1] else [])
      else (ss, [])
    let next := destroySystemsFrom e (i + 1) rest
    (step.1 :: next.1, step.2 ++ next.2)

/-- `SystemManager::onEntityDestroyed(e)` (src/SystemManager.cpp lines 38-50). -/
def onEntityDestroyed (w : WorldState) (e : Nat) : WorldState × List Ev :=
  let r := destroySystemsFrom e 0 w.systems
  ({ w with systems := r.1 }, r.2)

/-- Attribute bits of the system at index `ix` (`mAttributes[ix]`). -/
def attrsOf (w : WorldState) (ix : Nat) : Nat :=
  match w.systems.getD ix { sdef := ⟨0, 0, 0, 0, [], 0, false, false⟩, mEntities := [] } with
  | ss => ss.sdef.attrs

/-- `SystemManager::autoUpdate()` (src/SystemManager.cpp lines 22-36): skip a
group unless the frame counter is a multiple of its interval, run members in
order — skipping non-`UpdateDuringPause` members while paused — and bump the
frame counter once at the end.  `update()` bodies are host code and are
modelled as `updateRun` events. -/
def autoUpdate (w : WorldState) : WorldState × List Ev :=
  let evs := w.mUpdateGroups.foldl (fun acc g =>
    if w.mFrame % g.1 != 0 then acc
    else acc ++ g.2.foldl (fun acc2 ix =>
      if w.mIsWorldPaused && ((w.attrsOf ix &&& UpdateDuringPause) == 0) then acc2
      else acc2 ++ [Ev.updateRun ix]) []) []
  ({ w with mFrame := w.mFrame + 1 }, evs)

end WorldState

end WhalECS

namespace WhalECS

namespace WorldState

/-! ### EntityManager (src/EntityManager.cpp, newest variant, lines 146-256) -/

/-- `EntityManager::createEntity(isAlive, parent)`: return the dummy entity 0
on capacity exhaustion (leaving all state untouched), otherwise pop the next
free id, count it, activate it only when the parent is the root sentinel or
itself active, and link it into the hierarchy maps.  `mEntityCount` is a
`u32`; its arithmetic is taken mod `2 ^ 32`.  `front()` on an empty free
queue is undefined behaviour in C++ and `none` here. -/
def createEntity (w : WorldState) (isAlive : Bool) (parent : Nat) :
    Option (WorldState × Nat) :=
  if (w.mEntityCount + 1) % 2 ^ 32 ≥ MAX_ENTITIES then some (w, 0)
  else
    match w.mAvailableIDs with
    | [] => none
    | id :: rest =>
      let active1 := if ((parent == 0) || w.mActiveEntities parent) && isAlive
        then fun x => if x = id then true else w.mActiveEntities x
        else w.mActiveEntities
      let p2c1 := fun x => if x = id then ([] : List Nat) else w.parentToChildren x
      let p2c2 := fun x => if x = parent then insertUnique (p2c1 parent) id else p2c1 x
      some ({ w with
        mAvailableIDs := rest
        mEntityCount := (w.mEntityCount + 1) % 2 ^ 32
        mActiveEntities := active1
        parentToChildren := p2c2
        childToParent := fun x => if x = id then parent else w.childToParent x }, id)

/-- `EntityManager::destroyEntity(e)`: deactivate, reset both patterns,
recycle the id, decrement the `u32` count (mod `2 ^ 32`). -/
def destroyEntity (w : WorldState) (e : Nat) : WorldState :=
  { w with
    mActiveEntities := fun x => if x = e then false else w.mActiveEntities x
    mPatterns := fun x => if x = e then 0 else w.mPatterns x
    mTagPatterns := fun x => if x = e then 0 else w.mTagPatterns x
    mAvailableIDs := w.mAvailableIDs ++ [e]
    mEntityCount := (w.mEntityCount + 2 ^ 32 - 1) % 2 ^ 32 }

/-- `EntityManager::activate(e)`: returns whether a transition occurred. -/
def emActivate (w : WorldState) (e : Nat) : WorldState × Bool :=
  if w.mActiveEntities e then (w, false)
  else ({ w with mActiveEntities := fun x => if x = e then true else w.mActiveEntities x },
    true)

/-- `EntityManager::deactivate(e)`: returns whether a transition occurred. -/
def emDeactivate (w : WorldState) (e : Nat) : WorldState × Bool :=
  if w.mActiveEntities e then
    ({ w with mActiveEntities := fun x => if x = e then false else w.mActiveEntities x },
      true)
  else (w, false)

/-! ### Entity pattern management (src/Entity.cpp lines 323-440, newest
variant)

`addToMgr`, `addTagToMgr` and `addTraitImplementer` are mutually recursive in
the source (adding the first trait to a component descriptor adds an
`internal::TraitUsers` component to the trait's descriptor entity, which
re-enters `addToMgr`); they are modelled as a single fuel-indexed step
function over a call tag. -/

inductive MgrCall where
  | addComp (e t : Nat)
  | addTag (e t : Nat)
  | addImplementer (trait implId : Nat) (isTag : Bool)

/-- One entry point of the `addToMgr`/`addTagToMgr`/`addTraitImplementer`
cluster.  `get<internal::Tag>()`/`get<internal::Component>()` assert presence
(`none` when the descriptor value is missing). -/
def mgrStep (w : WorldState) : Nat → MgrCall → Option (WorldState × List Ev)
  | 0, _ => none
  | fuel + 1, MgrCall.addComp e t =>
    let p := w.mPatterns e
    if p.test t then some (w, [])
    else
      let p1 := p.setBit t
      let w1 := { w with mPatterns := fun x => if x = e then p1 else w.mPatterns x }
      match (if w1.mActiveEntities e then
          onEntityPatternChanged w1 fuel e p1 (w1.mTagPatterns e)
        else some (w1, [])) with
      | none => none
      | some (w2, evs1) =>
        if w2.hasInternalTag e then
          match (w2.arrays w2.idTagInternal).tryGetData e with
          | none => none
          | some selfId =>
            let trait := w2.compEntityOf t
            if (trait != e) && (trait != w2.compEntityOf w2.idCompInternal)
                && (trait != w2.compEntityOf w2.idTagInternal) then
              match mgrStep w2 fuel (MgrCall.addImplementer trait selfId true) with
              | none => none
              | some (w3, evs2) => some (w3, evs1 ++ evs2)
            else some (w2, evs1)
        else if w2.hasInternalComponent e then
          match (w2.arrays w2.idCompInternal).tryGetData e with
          | none => none
          | some selfId =>
            let trait := w2.compEntityOf t
            if (trait != e) && (trait != w2.compEntityOf w2.idCompInternal)
                && (trait != w2.compEntityOf w2.idTagInternal) then
              match mgrStep w2 fuel (MgrCall.addImplementer trait selfId false) with
              | none => none
              | some (w3, evs2) => some (w3, evs1 ++ evs2)
            else some (w2, evs1)
        else some (w2, evs1)
  | fuel + 1, MgrCall.addTag e t =>
    let p := w.mTagPatterns e
    if p.test t then some (w, [])
    else
      let p1 := p.setBit t
      let w1 := { w with mTagPatterns := fun x => if x = e then p1 else w.mTagPatterns x }
      match (if w1.mActiveEntities e then
          onEntityPatternChanged w1 fuel e (w1.mPatterns e) p1
        else some (w1, [])) with
      | none => none
      | some (w2, evs1) =>
        if w2.hasInternalTag e then
          match (w2.arrays w2.idTagInternal).tryGetData e with
          | none => none
          | some selfId =>
            let trait := w2.tagEntityOf t
            if (trait != e) && (trait != w2.compEntityOf w2.idCompInternal)
                && (trait != w2.compEntityOf w2.idTagInternal) then
              match mgrStep w2 fuel (MgrCall.addImplementer trait selfId true) with
              | none => none
              | some (w3, evs2) => some (w3, evs1 ++ evs2)
            else some (w2, evs1)
        else if w2.hasInternalComponent e then
          match (w2.arrays w2.idCompInternal).tryGetData e with
          | none => none
          | some selfId =>
            let trait := w2.tagEntityOf t
            if (trait != e) && (trait != w2.compEntityOf w2.idCompInternal)
                && (trait != w2.compEntityOf w2.idTagInternal) then
              match mgrStep w2 fuel (MgrCall.addImplementer trait selfId false) with
              | none => none
              | some (w3, evs2) => some (w3, evs1 ++ evs2)
            else some (w2, evs1)
        else some (w2, evs1)
  | fuel + 1, MgrCall.addImplementer trait implId isTag =>
    match w.traitUsers trait with
    | some tu =>
      let tu1 := if isTag then (tu.1, tu.2.setBit implId) else (tu.1.setBit implId, tu.2)
      some ({ w with traitUsers := fun x => if x = trait then some tu1 else w.traitUsers x },
        [])
    | none =>
      let tu := if isTag then ((0 : Pattern), Pattern.setBit 0 implId)
        else (Pattern.setBit 0 implId, (0 : Pattern))
      let w1 := { w with traitUsers := fun x => if x = trait then some tu else w.traitUsers x }
      mgrStep w1 fuel (MgrCall.addComp trait w1.idTraitUsers)

/-- `Entity::removeTraitImplementer` (src/Entity.cpp lines 433-440):
`get<internal::TraitUsers>()` asserts presence, and the bit reset mutates a
by-value copy of the struct, so the stored trait users are unchanged. -/
def removeTraitImplementer (w : WorldState) (trait : Nat) : Option WorldState :=
  match w.traitUsers trait with
  | none => none
  | some _ => some w

/-- `Entity::removeFromMgr` (src/Entity.cpp lines 323-342): clear the pattern
bit, notify the systems when active, then unregister the trait implementation
when the entity is a component/tag descriptor. -/
def removeFromMgr (w : WorldState) (fuel e t : Nat) : Option (WorldState × List Ev) :=
  let p1 := (w.mPatterns e).resetBit t
  let w1 := { w with mPatterns := fun x => if x = e then p1 else w.mPatterns x }
  match (if w1.mActiveEntities e then
      onEntityPatternChanged w1 fuel e p1 (w1.mTagPatterns e)
    else some (w1, [])) with
  | none => none
  | some (w2, evs1) =>
    if w2.hasInternalTag e then
      match (w2.arrays w2.idTagInternal).tryGetData e with
      | none => none
      | some _ =>
        let trait := w2.compEntityOf t
        if trait != e then
          match removeTraitImplementer w2 trait with
          | none => none
          | some w3 => some (w3, evs1)
        else some (w2, evs1)
    else if w2.hasInternalComponent e then
      match (w2.arrays w2.idCompInternal).tryGetData e with
      | none => none
      | some _ =>
        let trait := w2.compEntityOf t
        if trait != e then
          match removeTraitImplementer w2 trait with
          | none => none
          | some w3 => some (w3, evs1)
        else some (w2, evs1)
    else some (w2, evs1)

/-- `Entity::removeTagFromMgr` (src/Entity.cpp lines 344-351): clear the tag
bit and notify when active; no trait logic. -/
def removeTagFromMgr (w : WorldState) (fuel e t : Nat) : Option (WorldState × List Ev) :=
  let p1 := (w.mTagPatterns e).resetBit t
  let w1 := { w with mTagPatterns := fun x => if x = e then p1 else w.mTagPatterns x }
  if w1.mActiveEntities e then
    onEntityPatternChanged w1 fuel e (w1.mPatterns e) p1
  else some (w1, [])

end WorldState

end WhalECS

namespace WhalECS

namespace WorldState

/-! ### World facade operations (part_010, src/Entity.cpp) -/

/-- `Entity::add<T>(component)` for a data component (part_002 lines
1667-1674): write the value into storage, then `addToMgr` (pattern bit +
system notification + trait bookkeeping).  The type must already be
registered (`none` models the out-of-scope lazy-registration path), and
`internal::TraitUsers` is handled through its own table. -/
def opAddComponent (w : WorldState) (fuel e t v : Nat) : Option (WorldState × List Ev) :=
  if !(w.registeredTypes.contains t) then none
  else if t == w.idTraitUsers then none
  else
    let w1 := { w with arrays := fun u => if u = t then (w.arrays t).addData e v else w.arrays u }
    mgrStep w1 fuel (MgrCall.addComp e t)

/-- `Entity::remove<T>()` for a data component (part_002 lines 1701-1708):
`removeFromMgr` runs *before* the storage erase so `onRemove` can still read
the component; `ComponentManager::removeComponent` is a no-op when the type
was never registered. -/
def opRemoveComponent (w : WorldState) (fuel e t : Nat) : Option (WorldState × List Ev) :=
  if t == w.idTraitUsers then none
  else
    match removeFromMgr w fuel e t with
    | none => none
    | some (w1, evs) =>
      let w2 := if w1.registeredTypes.contains t then
          { w1 with arrays := fun u => if u = t then (w1.arrays t).removeData e else w1.arrays u }
        else w1
      some (w2, evs)

/-- `Entity::add<T>()` for a tag (part_002 lines 1683-1692): the tag must be
registered already (the lazy registration branch is out of modelled scope),
then `addTagToMgr`. -/
def opAddTag (w : WorldState) (fuel e t : Nat) : Option (WorldState × List Ev) :=
  if !(w.tagRegistered t) then none
  else mgrStep w fuel (MgrCall.addTag e t)

/-- `Entity::remove<T>()` for a tag (part_002 lines 1710-1715). -/
def opRemoveTag (w : WorldState) (fuel e t : Nat) : Option (WorldState × List Ev) :=
  removeTagFromMgr w fuel e t

/-- Worklist form of `World::activate` (part_010 lines 102-113): assert the
entity is not a component descriptor, activate (notifying the systems on a
transition), then recursively activate the children. -/
def opActivateList (w : WorldState) : Nat → List Nat → Option (WorldState × List Ev)
  | 0, ws => if ws.isEmpty then some (w, []) else none
  | _ + 1, [] => some (w, [])
  | fuel + 1, e :: rest =>
    if w.hasInternalComponent e then none
    else
      let r := emActivate w e
      match (if r.2 then
          onEntityPatternChanged r.1 fuel e (r.1.mPatterns e) (r.1.mTagPatterns e)
        else some (r.1, [])) with
      | none => none
      | some (w2, evs1) =>
        match opActivateList w2 fuel (w2.parentToChildren e ++ rest) with
        | none => none
        | some (w3, evs2) => some (w3, evs1 ++ evs2)

/-- Worklist form of `World::deactivate` (part_010 lines 115-125): on a
transition the entity is removed from all systems via `onEntityDestroyed`,
then the children are deactivated recursively. -/
def opDeactivateList (w : WorldState) : Nat → List Nat → Option (WorldState × List Ev)
  | 0, ws => if ws.isEmpty then some (w, []) else none
  | _ + 1, [] => some (w, [])
  | fuel + 1, e :: rest =>
    let r := emDeactivate w e
    let r2 := if r.2 then onEntityDestroyed r.1 e else (r.1, [])
    match opDeactivateList r2.1 fuel (r2.1.parentToChildren e ++ rest) with
    | none => none
    | some (w3, evs2) => some (w3, r2.2 ++ evs2)

/-- Worklist form of `World::kill` (part_010 lines 46-55): assert the entity
is not a component descriptor, queue it, and recurse over its children.
Nothing is destroyed. -/
def opKillList (w : WorldState) : Nat → List Nat → Option WorldState
  | 0, ws => if ws.isEmpty then some w else none
  | _ + 1, [] => some w
  | fuel + 1, e :: rest =>
    if w.hasInternalComponent e then none
    else
      let w1 := { w with mToKill := insertUnique w.mToKill e }
      opKillList w1 fuel (w1.parentToChildren e ++ rest)

/-- `World::unparent(e)` (part_010 lines 151-156). -/
def unparent (w : WorldState) (e : Nat) : WorldState :=
  let oldParent := w.childToParent e
  { w with
    childToParent := fun x => if x = e then 0 else w.childToParent x
    parentToChildren := fun x => if x = oldParent
      then (w.parentToChildren oldParent).erase e else w.parentToChildren x }

/-- `ComponentManager::entityDestroyed(e)` (part_007 lines 15-19): every
registered component array drops the entity's value (the arrays are
independent, so the registration-order fold is a pointwise update). -/
def componentsDestroyed (w : WorldState) (e : Nat) : WorldState :=
  { w with
    arrays := fun t => if w.registeredTypes.contains t && (t != w.idTraitUsers)
      then (w.arrays t).entityDestroyed e else w.arrays t
    traitUsers := if w.registeredTypes.contains w.idTraitUsers
      then (fun x => if x = e then none else w.traitUsers x) else w.traitUsers }

/-- The body of the `killEntities` drain for one entity (part_010 lines
63-72): death callback, system-destruction notification (so `onRemove` can
still read components), unparent, id recycling, component storage clear. -/
def destroyOne (w : WorldState) (e : Nat) : WorldState × List Ev :=
  let evs0 := if w.deathCallbackRegistered then [Ev.deathCb e] else []
  let r := onEntityDestroyed w e
  let w2 := unparent r.1 e
  let w3 := destroyEntity w2 e
  let w4 := componentsDestroyed w3 e
  (w4, evs0 ++ [Ev.destroyNotify e] ++ r.2 ++ [Ev.unparentEv e, Ev.recycle e, Ev.clearStorage e])

/-- The inner for-loop of `killEntities` over the drained set. -/
def destroyList (w : WorldState) : List Nat → WorldState × List Ev
  | [] => (w, [])
  | e :: rest =>
    let r := destroyOne w e
    let r2 := destroyList r.1 rest
    (r2.1, r.2 ++ r2.2)

/-- One pass of the `while (!mToKill.empty())` loop body of
`World::killEntities` (part_010 lines 58-77): snapshot the kill queue, record
it in the killed-this-frame set, clear the queue, destroy each snapshotted
entity, then drop the snapshot from any kills re-queued by the destruction
itself. -/
def killPass (w : WorldState) : WorldState × List Ev :=
  let tmp := w.mToKill
  let w1 := { w with
    mKilledThisFrame := tmp.foldl insertUnique w.mKilledThisFrame
    mToKill := [] }
  let r := destroyList w1 tmp
  ({ r.1 with mToKill := tmp.foldl (fun acc e => acc.erase e) r.1.mToKill }, r.2)

/-- The `while (!mToKill.empty())` loop of `World::killEntities` (part_010
lines 57-78): repeat `killPass` until the queue stays empty (cascading kills
triggered by a drain are re-collected by the next pass). -/
def killEntitiesLoop : Nat → WorldState → Option (WorldState × List Ev)
  | 0, w => if w.mToKill.isEmpty then some (w, []) else none
  | fuel + 1, w =>
    if w.mToKill.isEmpty then some (w, [])
    else
      let r := killPass w
      match killEntitiesLoop fuel r.1 with
      | none => none
      | some (w4, evs2) => some (w4, r.2 ++ evs2)

/-- `World::killEntities()` (part_010 lines 57-80): run the drain loop, then
clear the killed-this-frame marker once the whole cascade has settled. -/
def opKillEntities (w : WorldState) (fuel : Nat) : Option (WorldState × List Ev) :=
  match killEntitiesLoop fuel w with
  | none => none
  | some (w1, evs) => some ({ w1 with mKilledThisFrame := [] }, evs)

/-- `World::entity(isActive)` (part_010 lines 19-26): create under the root
sentinel; the creation callback is not registered in the modelled worlds. -/
def worldEntity (w : WorldState) (isAlive : Bool) : Option (WorldState × Nat) :=
  createEntity w isAlive 0

/-- `ComponentManager::copyComponents(prefab, dest)` (part_007 lines 21-25). -/
def copyComponents (w : WorldState) (prefab dest : Nat) : WorldState :=
  { w with
    arrays := fun t => if w.registeredTypes.contains t && (t != w.idTraitUsers)
      then (w.arrays t).copyComponent prefab dest else w.arrays t
    traitUsers := if w.registeredTypes.contains w.idTraitUsers
      then (fun x => if x = dest && (w.traitUsers prefab).isSome
        then w.traitUsers prefab else w.traitUsers x)
      else w.traitUsers }

/-- The middle, state-pure stage of `World::copy` (part_010 lines 87-93):
copy the component values, copy the *component* pattern (`setPattern` — the
tag pattern is not copied), and link the new entity under the prefab's
parent. -/
def copyLink (w1 : WorldState) (prefab newE : Nat) : WorldState :=
  let w2 := copyComponents w1 prefab newE
  let w3 := { w2 with mPatterns := fun x =>
    if x = newE then w2.mPatterns prefab else w2.mPatterns x }
  let par := w3.childToParent prefab
  { w3 with
    childToParent := fun x => if x = newE then par else w3.childToParent x
    parentToChildren := fun x => if x = par
      then insertUnique (w3.parentToChildren par) newE else w3.parentToChildren x }

/-- `World::copy(prefab, isActive)` (part_010 lines 82-100): create an
inactive entity, run the copy/link stage above, then optionally activate. -/
def opCopy (w : WorldState) (fuel prefab : Nat) (isActive : Bool) :
    Option (WorldState × Nat × List Ev) :=
  match worldEntity w false with
  | none => none
  | some (w1, newE) =>
    if newE == 0 then some (w1, 0, [])
    else
      let w4 := copyLink w1 prefab newE
      if isActive then
        match opActivateList w4 fuel [newE] with
        | none => none
        | some (w5, evs) => some (w5, newE, evs)
      else some (w4, newE, [])

/-- `Entity::addChild(child)` (src/Entity.cpp lines 217-228): assert the
child is not a component descriptor, then relink: sever the old parent link
before inserting under the new parent.  No system re-evaluation happens
(`onEntityParentChanged` has no caller). -/
def opAddChild (w : WorldState) (parent child : Nat) : Option WorldState :=
  if w.hasInternalComponent child then none
  else
    let oldParent := w.childToParent child
    let ctp1 := fun x => if x = child then parent else w.childToParent x
    let ptc1 := fun x => if x = oldParent
      then (w.parentToChildren oldParent).erase child else w.parentToChildren x
    let ptc2 := fun x => if x = parent then insertUnique (ptc1 parent) child else ptc1 x
    some { w with childToParent := ctp1, parentToChildren := ptc2 }

end WorldState

/-- The mutating operations named by claim C1: component/tag add and remove,
activate, deactivate, copy, kill and the `killEntities` drain, reparent. -/
inductive MOp where
  | addComp (e t v : Nat)
  | removeComp (e t : Nat)
  | addTag (e t : Nat)
  | removeTag (e t : Nat)
  | activate (e : Nat)
  | deactivate (e : Nat)
  | copy (prefab : Nat) (isActive : Bool)
  | kill (e : Nat)
  | killEntities
  | reparent (parent child : Nat)

namespace WorldState

/-- Interpret one claim-C1 operation. -/
def interpM (w : WorldState) (fuel : Nat) : MOp → Option (WorldState × List Ev)
  | MOp.addComp e t v => opAddComponent w fuel e t v
  | MOp.removeComp e t => opRemoveComponent w fuel e t
  | MOp.addTag e t => opAddTag w fuel e t
  | MOp.removeTag e t => opRemoveTag w fuel e t
  | MOp.activate e => opActivateList w fuel [e]
  | MOp.deactivate e => opDeactivateList w fuel [e]
  | MOp.copy prefab isActive =>
    match opCopy w fuel prefab isActive with
    | none => none
    | some (w1, _, evs) => some (w1, evs)
  | MOp.kill e =>
    match opKillList w fuel [e] with
    | none => none
    | some w1 => some (w1, [])
  | MOp.killEntities => opKillEntities w fuel
  | MOp.reparent parent child =>
    match opAddChild w parent child with
    | none => none
    | some w1 => some (w1, [])

/-- Interpret a sequence of claim-C1 operations. -/
def runM (fuel : Nat) : List MOp → WorldState → Option (WorldState × List Ev)
  | [], w => some (w, [])
  | op :: rest, w =>
    match interpM w fuel op with
    | none => none
    | some (w1, evs1) =>
      match runM fuel rest w1 with
      | none => none
      | some (w2, evs2) => some (w2, evs1 ++ evs2)

end WorldState

end WhalECS

namespace WhalECS

/-- A world as built by the constructors: free ids `1 .. MAX_ENTITIES-1`, no
entity active, empty patterns, no systems, nothing registered. -/
def emptyWorld : WorldState :=
  { mAvailableIDs := (List.range (MAX_ENTITIES - 1)).map (fun i => i + 1)
    mEntityCount := 0
    mActiveEntities := fun _ => false
    mPatterns := fun _ => 0
    mTagPatterns := fun _ => 0
    childToParent := fun _ => 0
    parentToChildren := fun _ => []
    registeredTypes := []
    arrays := fun _ => ComponentArray.init
    tagRegistered := fun _ => false
    traitUsers := fun _ => none
    compEntityOf := fun _ => 0
    tagEntityOf := fun _ => 0
    idCompInternal := 0
    idTagInternal := 1
    idTraitUsers := 2
    idOverrideTag := 0
    systems := []
    mUpdateGroups := []
    mFrame := 0
    mIsWorldPaused := false
    mToKill := []
    mKilledThisFrame := []
    deathCallbackRegistered := false }

/-- Which entity an observable event concerns (destruction-order bookkeeping
for claim C3): projecting an event trace with this predicate isolates the
destruction block of one entity. -/
def evAbout (e : Nat) : Ev → Bool
  | Ev.onAdd _ x => x == e
  | Ev.onRemove _ x _ => x == e
  | Ev.deathCb x => x == e
  | Ev.destroyNotify x => x == e
  | Ev.unparentEv x => x == e
  | Ev.recycle x => x == e
  | Ev.clearStorage x => x == e
  | Ev.updateRun _ => false

/-- The observable state of a fully destroyed entity (claim C3): inactive,
both patterns reset, absent from every system's membership set, its id
recycled into the free-list, and every registered component array cleared of
its value. -/
def Destroyed (w : WorldState) (e : Nat) : Prop :=
  w.mActiveEntities e = false
  ∧ w.mPatterns e = 0
  ∧ w.mTagPatterns e = 0
  ∧ (∀ ss ∈ w.systems, ss.mEntities.contains e = false)
  ∧ e ∈ w.mAvailableIDs
  ∧ (∀ t, w.registeredTypes.contains t = true → (t == w.idTraitUsers) = false →
      (w.arrays t).hasData e = false)

/-- The membership predicate asserted by claim C1, written from the spec's
words and specialised to a system without trait requirements and without the
exclude-children attribute (for such a system the trait clause and the parent
clause are vacuous): the entity is active, the required component and tag
signatures are subsets of the entity's patterns, and the excluded signatures
are disjoint from them. -/
def claimC1Match (w : WorldState) (sd : SystemDef) (e : Nat) : Bool :=
  w.mActiveEntities e
  && Pattern.contains sd.mPattern (w.mPatterns e)
  && Pattern.contains sd.mTagPattern (w.mTagPatterns e)
  && Pattern.containsNone sd.mAntiPattern (w.mPatterns e)
  && Pattern.containsNone sd.mTagAntiPattern (w.mTagPatterns e)

/-- The full membership predicate asserted by claim C1, written from the
spec's words: active, required signatures contained, excluded signatures
disjoint, every trait implemented by a held component or tag, and — for an
exclude-children system — the system must not also match the entity's
parent. -/
def claimC1MatchFull (w : WorldState) (sd : SystemDef) (e : Nat) : Bool :=
  w.mActiveEntities e
  && Pattern.contains sd.mPattern (w.mPatterns e)
  && Pattern.contains sd.mTagPattern (w.mTagPatterns e)
  && Pattern.containsNone sd.mAntiPattern (w.mPatterns e)
  && Pattern.containsNone sd.mTagAntiPattern (w.mTagPatterns e)
  && (sd.mTraits.all fun tr =>
      match w.traitUsers tr with
      | some tu => !(Pattern.containsNone tu.1 (w.mPatterns e)
          && Pattern.containsNone tu.2 (w.mTagPatterns e))
      | none => false)
  && (if (sd.attrs &&& ExcludeChildren) != 0
      then !(w.isMatch sd (w.childToParent e)) else true)

/-- The spec invariant of claim C1 for trait-free systems without the
exclude-children attribute: each such system's membership set is exactly the
set of entities satisfying `claimC1Match`. -/
def MembersIff (w : WorldState) : Prop :=
  ∀ ss ∈ w.systems, ss.sdef.mTraits = [] → ss.sdef.attrs &&& ExcludeChildren = 0 →
    ∀ e, ss.mEntities.contains e = true ↔ claimC1Match w ss.sdef e = true

/-- The membership sets are duplicate-free (they model `unordered_set`s). -/
def MembersNodup (w : WorldState) : Prop :=
  ∀ ss ∈ w.systems, ss.mEntities.Nodup

/-- Equality of every field claim C1's invariant reads apart from the
patterns and the membership sets: used to transport the bookkeeping clauses
across operations that only touch patterns, trait users and systems. -/
def NonSyncEq (w w1 : WorldState) : Prop :=
  w1.mAvailableIDs = w.mAvailableIDs
  ∧ w1.mActiveEntities = w.mActiveEntities
  ∧ w1.childToParent = w.childToParent
  ∧ w1.parentToChildren = w.parentToChildren
  ∧ w1.mToKill = w.mToKill

/-- Well-formedness invariant carried through claim C1's induction: the
membership sets, the free-list, the children lists and the kill queue are
duplicate-free; free ids are nonzero, inactive and absent from every nonzero
children list; a nonzero children list only holds entities whose recorded
parent it is; queued kills are nonzero and live; and the membership sets of
trait-free non-exclude-children systems are synchronised (`MembersIff`). -/
structure SyncInv (w : WorldState) : Prop where
  ndMembers : MembersNodup w
  freeNz : ∀ id ∈ w.mAvailableIDs, id ≠ 0
  freeNodup : w.mAvailableIDs.Nodup
  freeInactive : ∀ id ∈ w.mAvailableIDs, w.mActiveEntities id = false
  freeNoChild : ∀ id ∈ w.mAvailableIDs, ∀ p, p ≠ 0 → id ∉ w.parentToChildren p
  childNodup : ∀ p, (w.parentToChildren p).Nodup
  childNz : ∀ p, 0 ∉ w.parentToChildren p
  childParent : ∀ p, p ≠ 0 → ∀ c ∈ w.parentToChildren p, w.childToParent c = p
  killNodup : w.mToKill.Nodup
  killLive : ∀ x ∈ w.mToKill, x ≠ 0 ∧ x ∉ w.mAvailableIDs
  membersIff : MembersIff w

/-- Per-operation liveness guard for claim C1: `activate`, `kill` and
`reparent` must target a nonzero id that is not currently recycled on the
free-list (the code performs no such check; applying these operations to a
dead id corrupts the bookkeeping). -/
def opGuard (w : WorldState) : MOp → Prop
  | MOp.activate e => e ≠ 0 ∧ e ∉ w.mAvailableIDs
  | MOp.kill e => e ≠ 0 ∧ e ∉ w.mAvailableIDs
  | MOp.reparent _ child => child ≠ 0 ∧ child ∉ w.mAvailableIDs
  | _ => True

/-- The guard holds at every step of a run. -/
def GuardedRun (fuel : Nat) : List MOp → WorldState → Prop
  | [], _ => True
  | op :: rest, w =>
    opGuard w op ∧
      (match WorldState.interpM w fuel op with
       | none => True
       | some (w1, _) => GuardedRun fuel rest w1)

/-- Counterexample world for claim C1: component type 3 registered, one
registered system with the exclude-children attribute requiring component 3
(no monitor, no traits), no entities yet set up. -/
def c1Start : WorldState :=
  { emptyWorld with
    mAvailableIDs := []
    registeredTypes := [3]
    systems := [⟨⟨8, 0, 0, 0, [], 4, false, false⟩, []⟩] }

/-- Counterexample operations for claim C1: give entities 1 and 2 component
3 and activate them (both join the system: neither has a matching parent),
then reparent 2 under 1.  No re-evaluation happens on reparenting. -/
def c1Ops : List MOp :=
  [MOp.addComp 1 3 5, MOp.activate 1, MOp.addComp 2 3 5, MOp.activate 2,
   MOp.reparent 1 2]

/-- The world after the counterexample run. -/
def c1Final : WorldState × List Ev :=
  (WorldState.runM 6 c1Ops c1Start).getD (c1Start, [])

/-- Witness world for claim C1: component type 3 registered, one plain
(trait-free, non-exclude-children) system requiring component 3, entity 1
live (not on the free-list) and everything else fresh. -/
def c1WitStart : WorldState :=
  { emptyWorld with
    mAvailableIDs := [2, 3]
    registeredTypes := [3]
    systems := [⟨⟨8, 0, 0, 0, [], 0, false, false⟩, []⟩] }

/-- The witness operations for claim C1: give live entity 1 component 3,
then activate it. -/
def c1WitOps : List MOp := [MOp.addComp 1 3 5, MOp.activate 1]

/-- The world after the witness run. -/
def c1WitFinal : WorldState × List Ev :=
  (WorldState.runM 5 c1WitOps c1WitStart).getD (c1WitStart, [])

/-- A fresh world with one tag type (id 0) registered. -/
def c4Start : WorldState := { emptyWorld with tagRegistered := fun t => t == 0 }

/-- Create entity 1 (active). -/
def c4Created : WorldState × Nat := (c4Start.worldEntity true).getD (c4Start, 0)

/-- Add tag 0 to entity 1, making it the prefab. -/
def c4Tagged : WorldState × List Ev :=
  ((c4Created.1).opAddTag 4 1 0).getD (c4Created.1, [])

/-- Copy entity 1 with `isActive = true`, producing entity 2. -/
def c4Copied : WorldState × Nat × List Ev :=
  ((c4Tagged.1).opCopy 4 1 true).getD (c4Tagged.1, 0, [])

/-! ### Claim C7 -/

/-- C7: `EntityManager::createEntity` returns the sentinel invalid entity
(id 0) whenever the fixed entity capacity is exhausted, never aborts on
exhaustion, and leaves the whole entity-manager state unchanged in that
case; when capacity is not exhausted it returns a valid non-zero id popped
from the front of the free-list. -/
theorem c7_createEntity_capacity (w : WorldState) (isAlive : Bool) (parent : Nat) :
    (((w.mEntityCount + 1) % 2 ^ 32 ≥ MAX_ENTITIES) →
      w.createEntity isAlive parent = some (w, 0))
    ∧ (((w.mEntityCount + 1) % 2 ^ 32 < MAX_ENTITIES) →
       ∀ id rest, w.mAvailableIDs = id :: rest →
       (∀ x ∈ w.mAvailableIDs, x ≠ 0) →
       ∃ w1, w.createEntity isAlive parent = some (w1, id) ∧ id ≠ 0
         ∧ w1.mAvailableIDs = rest
         ∧ w1.mEntityCount = (w.mEntityCount + 1) % 2 ^ 32) := by
  constructor
  · intro hcap
    rw [WorldState.createEntity, if_pos hcap]
  · intro hcap id rest hq hnz
    have heval : ∃ w1, w.createEntity isAlive parent = some (w1, id)
        ∧ w1.mAvailableIDs = rest
        ∧ w1.mEntityCount = (w.mEntityCount + 1) % 2 ^ 32 := by
      rw [WorldState.createEntity, if_neg (by omega), hq]
      exact ⟨_, rfl, rfl, rfl⟩
    obtain ⟨w1, h1, h2, h3⟩ := heval
    exact ⟨w1, h1, hnz id (by rw [hq]; exact List.mem_cons_self id rest), h2, h3⟩

/-- C7 witness: exhaustion returns the untouched state with id 0; a fresh
world returns the head of the free-list. -/
theorem c7_witness :
    ({ emptyWorld with mEntityCount := 4999 } : WorldState).createEntity true 0
        = some ({ emptyWorld with mEntityCount := 4999 }, 0)
    ∧ ∃ w1, ({ emptyWorld with mAvailableIDs := [1, 2, 3] } : WorldState).createEntity true 0
        = some (w1, 1) ∧ (1 : Nat) ≠ 0 ∧ w1.mAvailableIDs = [2, 3]
        ∧ w1.mEntityCount = 1 := by
  constructor
  · exact (c7_createEntity_capacity { emptyWorld with mEntityCount := 4999 } true 0).1
      (by decide)
  · obtain ⟨w1, h1, h2, h3, h4⟩ :=
      (c7_createEntity_capacity { emptyWorld with mAvailableIDs := [1, 2, 3] } true 0).2
        (by decide) 1 [2, 3] rfl (by decide)
    exact ⟨w1, h1, h2, h3, by rw [h4]; rfl⟩

/-! ### Claim C10 -/

/-- C10: a newly created entity starts active exactly when the `isAlive`
argument is true and its parent is the root sentinel (id 0) or itself
currently active; in particular, creating with `isAlive = true` under a
valid but inactive parent yields an inactive entity. -/
theorem c10_createEntity_active (w : WorldState) (isAlive : Bool) (parent : Nat)
    (hcap : (w.mEntityCount + 1) % 2 ^ 32 < MAX_ENTITIES)
    (id : Nat) (rest : List Nat) (hq : w.mAvailableIDs = id :: rest)
    (hfresh : w.mActiveEntities id = false) :
    ∃ w1, w.createEntity isAlive parent = some (w1, id)
      ∧ w1.mActiveEntities id
          = (((parent == 0) || w.mActiveEntities parent) && isAlive) := by
  have heval : ∃ w1, w.createEntity isAlive parent = some (w1, id)
      ∧ w1.mActiveEntities
          = (if ((parent == 0) || w.mActiveEntities parent) && isAlive
             then fun x => if x = id then true else w.mActiveEntities x
             else w.mActiveEntities) := by
    simp only [WorldState.createEntity]
    rw [if_neg (by omega), hq]
    exact ⟨_, rfl, rfl⟩
  obtain ⟨w1, h1, h2⟩ := heval
  refine ⟨w1, h1, ?_⟩
  rw [h2]
  cases hc : ((parent == 0) || w.mActiveEntities parent) && isAlive with
  | false =>
    rw [if_neg (by simp [hc])]
    exact hfresh
  | true =>
    rw [if_pos (by simp [hc])]
    simp

/-- C10 witness: entity 1 exists but is inactive; creating entity 2 with
`isAlive = true` under parent 1 yields an inactive entity. -/
theorem c10_witness :
    ∃ w1, ({ emptyWorld with mAvailableIDs := [2, 3] } : WorldState).createEntity true 1
      = some (w1, 2) ∧ w1.mActiveEntities 2 = false := by
  obtain ⟨w1, h1, h2⟩ := c10_createEntity_active
    { emptyWorld with mAvailableIDs := [2, 3] } true 1 (by decide) 2 [3] rfl (by decide)
  exact ⟨w1, h1, by rw [h2]; rfl⟩

end WhalECS

namespace WhalECS

/-! ### Claim C8 -/

theorem foldl_append_eq_append_flatMap {α β : Type} (f : α → List β) (l : List α)
    (acc : List β) :
    l.foldl (fun a x => a ++ f x) acc = acc ++ l.flatMap f := by
  induction l generalizing acc with
  | nil => simp
  | cons x xs ih => simp [ih, List.append_assoc]

theorem flatMap_singleton_if_eq_filter_map {α β : Type} (p : α → Bool) (f : α → β)
    (l : List α) :
    l.flatMap (fun x => if p x then [f x] else []) = (l.filter p).map f := by
  induction l with
  | nil => simp
  | cons x xs ih =>
    cases h : p x <;> simp [List.filter_cons, h, ih]

/-- C8: in one `SystemManager::autoUpdate()` call, a group contributes
nothing unless the current frame counter is a multiple of its interval;
a non-skipped group runs exactly its members in order, skipping members
without the update-during-pause flag while the world is paused; and the
frame counter is incremented exactly once, with all group decisions based on
the pre-increment counter. -/
theorem c8_autoUpdate (w : WorldState) :
    (w.autoUpdate).1 = { w with mFrame := w.mFrame + 1 }
    ∧ (w.autoUpdate).2 = w.mUpdateGroups.flatMap (fun g =>
        if w.mFrame % g.1 == 0 then
          (g.2.filter (fun ix =>
            !(w.mIsWorldPaused
              && ((w.attrsOf ix &&& UpdateDuringPause) == 0)))).map Ev.updateRun
        else []) := by
  constructor
  · rfl
  · show w.mUpdateGroups.foldl _ [] = _
    have hinner : ∀ (g : Nat × List Nat),
        g.2.foldl (fun acc2 ix =>
          if w.mIsWorldPaused && ((w.attrsOf ix &&& UpdateDuringPause) == 0)
          then acc2 else acc2 ++ [Ev.updateRun ix]) []
        = (g.2.filter (fun ix =>
            !(w.mIsWorldPaused
              && ((w.attrsOf ix &&& UpdateDuringPause) == 0)))).map Ev.updateRun := by
      intro g
      rw [List.foldl_ext _ (fun acc2 ix => acc2 ++
          (if !(w.mIsWorldPaused && ((w.attrsOf ix &&& UpdateDuringPause) == 0))
           then [Ev.updateRun ix] else []))]
      · rw [foldl_append_eq_append_flatMap, flatMap_singleton_if_eq_filter_map]
        simp
      · intro acc ix _
        cases h : w.mIsWorldPaused && ((w.attrsOf ix &&& UpdateDuringPause) == 0) <;>
          simp [h]
    rw [List.foldl_ext _ (fun acc g => acc ++
        (if w.mFrame % g.1 == 0 then
          (g.2.filter (fun ix =>
            !(w.mIsWorldPaused
              && ((w.attrsOf ix &&& UpdateDuringPause) == 0)))).map Ev.updateRun
         else []))]
    · rw [foldl_append_eq_append_flatMap]
      simp
    · intro acc g _
      cases h : w.mFrame % g.1 == 0 with
      | false =>
        rw [if_pos (by simp [bne, h]), if_neg (by simp [h])]
        simp
      | true =>
        rw [if_neg (by simp [bne, h]), if_pos (by simp [h]), hinner]

end WhalECS

namespace WhalECS

/-! ### Claim C6 -/

namespace WorldState

/-- Closed form of the `onEntityDestroyed` loop: every system containing the
entity has it erased, and the monitor callback fires *after* the erase,
observing the already-shrunk membership set. -/
theorem destroySystemsFrom_eq (e : Nat) :
    ∀ (i : Nat) (l : List SystemState),
      destroySystemsFrom e i l =
        (l.map (fun ss => if ss.mEntities.contains e
            then { ss with mEntities := ss.mEntities.erase e } else ss),
         ((l.enumFrom i).filter
            (fun p => p.2.mEntities.contains e && p.2.sdef.hasMonitor)).map
           (fun p => Ev.onRemove p.1 e (p.2.mEntities.erase e))) := by
  intro i l
  induction l generalizing i with
  | nil => rfl
  | cons ss rest ih =>
    cases hc : ss.mEntities.contains e with
    | false =>
      have he : ¬(e ∈ ss.mEntities) := by simpa using hc
      simp [destroySystemsFrom, ih (i + 1), hc, he, List.filter_cons,
        List.enumFrom_cons]
    | true =>
      have he : e ∈ ss.mEntities := by simpa using hc
      cases hm : ss.sdef.hasMonitor with
      | false =>
        simp [destroySystemsFrom, ih (i + 1), hc, he, hm, List.filter_cons,
          List.enumFrom_cons]
      | true =>
        simp [destroySystemsFrom, ih (i + 1), hc, he, hm, List.filter_cons,
          List.enumFrom_cons]

end WorldState

/-- C6 (amended): `SystemManager::onEntityDestroyed(e)` erases `e` from the
membership set of every system currently containing it and *then* fires the
monitor's remove callback, so the callback observes the membership set with
`e` already absent; systems not containing `e` are untouched, as is all
non-system state. -/
theorem c6_onEntityDestroyed (w : WorldState) (e : Nat) :
    (w.onEntityDestroyed e).1
        = { w with systems := w.systems.map (fun ss => if ss.mEntities.contains e
            then { ss with mEntities := ss.mEntities.erase e } else ss) }
    ∧ (w.onEntityDestroyed e).2
        = ((w.systems.enumFrom 0).filter
            (fun p => p.2.mEntities.contains e && p.2.sdef.hasMonitor)).map
          (fun p => Ev.onRemove p.1 e (p.2.mEntities.erase e)) := by
  constructor
  · show { w with systems := (WorldState.destroySystemsFrom e 0 w.systems).1 } = _
    rw [WorldState.destroySystemsFrom_eq]
  · show (WorldState.destroySystemsFrom e 0 w.systems).2 = _
    rw [WorldState.destroySystemsFrom_eq]

/-- C6 counterexample: a monitor system whose membership set is `{1}`.  On
`onEntityDestroyed(1)` the remove callback fires with the membership set
already empty — it does not observe `1` still present, contrary to the
claim. -/
theorem c6_counterexample :
    (({ emptyWorld with
        systems := [⟨⟨0, 0, 0, 0, [], 0, true, false⟩, [1]⟩] } : WorldState).onEntityDestroyed
          1).2
      = [Ev.onRemove 0 1 []]
    ∧ (([] : List Nat).contains 1) = false := by
  constructor
  · rfl
  · rfl

end WhalECS

namespace WhalECS

/-! ### Claim C9 -/

/-- C9: adding a component of a type the entity already holds overwrites the
stored value in place and changes nothing else: the operation returns the
world with only that component array's value table updated at the entity's
existing slot — no events (no monitor callback), patterns, membership sets,
array size and both index maps all unchanged, other arrays untouched. -/
theorem c9_add_existing_overwrites (w : WorldState) (e t v fuel : Nat)
    (hreg : w.registeredTypes.contains t = true)
    (hnotTU : (t == w.idTraitUsers) = false)
    (hbit : (w.mPatterns e).test t = true)
    (hix : ∃ ix, (w.arrays t).mEntityToIndex e = some ix) :
    (w.opAddComponent (fuel + 1) e t v
      = some ({ w with arrays := fun u => if u = t
          then (w.arrays t).addData e v else w.arrays u }, []))
    ∧ ((w.arrays t).addData e v).mSize = (w.arrays t).mSize
    ∧ ((w.arrays t).addData e v).mEntityToIndex = (w.arrays t).mEntityToIndex
    ∧ ((w.arrays t).addData e v).mIndexToEntity = (w.arrays t).mIndexToEntity
    ∧ (∀ ix, (w.arrays t).mEntityToIndex e = some ix →
        ((w.arrays t).addData e v).mComponentTable ix = v
        ∧ (∀ i, i ≠ ix →
            ((w.arrays t).addData e v).mComponentTable i
              = (w.arrays t).mComponentTable i)) := by
  obtain ⟨ix0, hix0⟩ := hix
  refine ⟨?_, ?_, ?_, ?_, ?_⟩
  · have step : ∀ w1 : WorldState, w1.mPatterns e = w.mPatterns e →
        w1.mgrStep (fuel + 1) (WorldState.MgrCall.addComp e t) = some (w1, []) := by
      intro w1 hw1
      simp only [WorldState.mgrStep]
      rw [if_pos (by rw [hw1]; exact hbit)]
    rw [WorldState.opAddComponent, if_neg (by rw [hreg]; simp),
      if_neg (by simp [hnotTU])]
    exact step _ rfl
  · simp [ComponentArray.addData, hix0]
  · simp [ComponentArray.addData, hix0]
  · simp [ComponentArray.addData, hix0]
  · intro ix hx
    have heq : ix = ix0 := Option.some_inj.mp (hx.symm.trans hix0)
    subst heq
    constructor
    · simp [ComponentArray.addData, hix0]
    · intro i hi
      simp [ComponentArray.addData, hix0, hi]

/-- C9 witness: entity 1 holds component 0 with value 10; re-adding value 99
returns the world with only the stored value replaced and no events. -/
theorem c9_witness :
    ∃ w1, ({ emptyWorld with
        registeredTypes := [0]
        arrays := fun _ => ComponentArray.init.addData 1 10
        mPatterns := fun x => if x = 1 then Pattern.setBit 0 0 else 0 } :
          WorldState).opAddComponent 5 1 0 99
      = some (w1, [])
      ∧ (w1.arrays 0).mComponentTable 0 = 99 ∧ (w1.arrays 0).mSize = 1 := by
  have h := c9_add_existing_overwrites
    { emptyWorld with
      registeredTypes := [0]
      arrays := fun _ => ComponentArray.init.addData 1 10
      mPatterns := fun x => if x = 1 then Pattern.setBit 0 0 else 0 }
    1 0 99 4 (by decide) (by decide) (by decide) ⟨0, by rfl⟩
  refine ⟨_, h.1, ?_, ?_⟩
  · rfl
  · rfl

end WhalECS

namespace WhalECS

namespace ComponentArray

theorem tryGetData_addData_self {arr : ComponentArray} (e v : Nat) :
    (arr.addData e v).tryGetData e = some v := by
  rcases h : arr.mEntityToIndex e with - | ix
  · simp [addData, tryGetData, h]
  · simp [addData, tryGetData, h]

theorem tryGetData_addData_other {arr : ComponentArray} (hwf : WF arr) (e v x : Nat)
    (hx : x ≠ e) : (arr.addData e v).tryGetData x = arr.tryGetData x := by
  rcases h : arr.mEntityToIndex e with - | ix0
  · -- fresh insert at index mSize
    rcases hx2 : arr.mEntityToIndex x with - | ix
    · simp [addData, tryGetData, h, hx2, hx]
    · have hlt := hwf.lookup_lt x ix hx2
      simp [addData, tryGetData, h, hx2, hx]
      omega
  · -- overwrite at ix0
    rcases hx2 : arr.mEntityToIndex x with - | ix
    · simp [addData, tryGetData, h, hx2]
    · have hne : ix ≠ ix0 := by
        intro hc
        rw [hc] at hx2
        have h1 := hwf.lookup_inv x ix0 hx2
        have h2 := hwf.lookup_inv e ix0 h
        exact hx (h1.symm.trans h2 ▸ rfl)
      simp [addData, tryGetData, h, hx2, hne]

theorem setData_tryGetData_other {arr arr2 : ComponentArray} (hwf : WF arr)
    {e x v : Nat} (hx : x ≠ e) (h : arr.setData e v = some arr2) :
    arr2.tryGetData x = arr.tryGetData x := by
  rcases he : arr.mEntityToIndex e with - | ix0
  · rw [setData, he] at h
    cases h
  · rw [setData, he] at h
    have harr2 : arr2 = { arr with mComponentTable := fun i =>
        if i = ix0 then v else arr.mComponentTable i } := by
      cases h
      rfl
    subst harr2
    rcases hx2 : arr.mEntityToIndex x with - | ix
    · simp [tryGetData, hx2]
    · have hne : ix ≠ ix0 := by
        intro hc
        rw [hc] at hx2
        have h1 := hwf.lookup_inv x ix0 hx2
        have h2 := hwf.lookup_inv e ix0 he
        exact hx (h1.symm.trans h2 ▸ rfl)
      simp [tryGetData, hx2, hne]

theorem wf_copyComponent {arr : ComponentArray} (hwf : WF arr) (prefab dest : Nat) :
    WF (arr.copyComponent prefab dest) := by
  rcases h : arr.tryGetData prefab with - | v
  · rw [copyComponent, h]
    exact hwf
  · rw [copyComponent, h]
    exact wf_addData hwf dest v

end ComponentArray

namespace WorldState

/-- `onEntityPatternChanged` only rewrites the system list: every other field
of the world is untouched. -/
theorem onEntityPatternChanged_fields {w : WorldState} {fuel e : Nat}
    {p tp : Pattern} {w1 : WorldState} {evs : List Ev}
    (h : w.onEntityPatternChanged fuel e p tp = some (w1, evs)) :
    w1 = { w with systems := w1.systems } := by
  rw [onEntityPatternChanged] at h
  rcases hm : checkSystemsFrom w fuel e p tp 0 w.systems with - | r
  · rw [hm] at h
    cases h
  · rw [hm] at h
    cases h
    rfl

/-- `onEntityDestroyed` only rewrites the system list. -/
theorem onEntityDestroyed_fields (w : WorldState) (e : Nat) :
    (w.onEntityDestroyed e).1 = { w with systems := (w.onEntityDestroyed e).1.systems } := by
  rfl

/-- `EntityManager::activate` only touches the active set, monotonically. -/
theorem emActivate_fields (w : WorldState) (e : Nat) :
    ((w.emActivate e).1 = { w with mActiveEntities := (w.emActivate e).1.mActiveEntities }
     ∧ (∀ x, w.mActiveEntities x = true → (w.emActivate e).1.mActiveEntities x = true)
     ∧ (w.emActivate e).1.mActiveEntities e = true)
    ∨ (w.emActivate e).1 = w := by
  by_cases h : w.mActiveEntities e = true
  · right
    simp [emActivate, h]
  · left
    rw [emActivate, if_neg h]
    refine ⟨rfl, ?_, ?_⟩
    · intro x hx
      show (if x = e then true else w.mActiveEntities x) = true
      by_cases hxe : x = e
      · simp [hxe]
      · simp [hxe, hx]
    · show (if e = e then true else w.mActiveEntities e) = true
      simp

/-- `World::activate` (worklist form) modifies only the active set and the
system memberships; activation is monotone on the active set. -/
theorem opActivateList_fields :
    ∀ (fuel : Nat) (ws : List Nat) (w w1 : WorldState) (evs : List Ev),
      opActivateList w fuel ws = some (w1, evs) →
      w1 = { w with mActiveEntities := w1.mActiveEntities, systems := w1.systems }
      ∧ (∀ x, w.mActiveEntities x = true → w1.mActiveEntities x = true) := by
  intro fuel
  induction fuel with
  | zero =>
    intro ws w w1 evs h
    rw [opActivateList] at h
    by_cases hws : ws.isEmpty
    · rw [if_pos hws] at h
      cases h
      exact ⟨rfl, fun x hx => hx⟩
    · rw [if_neg hws] at h
      cases h
  | succ fuel ih =>
    intro ws w w1 evs h
    match ws with
    | [] =>
      rw [opActivateList] at h
      cases h
      exact ⟨rfl, fun x hx => hx⟩
    | e :: rest =>
      rw [opActivateList] at h
      by_cases hint : w.hasInternalComponent e = true
      · rw [if_pos hint] at h
        cases h
      · rw [if_neg hint] at h
        simp only [] at h
        rcases hm : (if (w.emActivate e).2 then
            onEntityPatternChanged (w.emActivate e).1 fuel e
              ((w.emActivate e).1.mPatterns e) ((w.emActivate e).1.mTagPatterns e)
          else some ((w.emActivate e).1, [])) with - | r2
        · rw [hm] at h
          cases h
        · obtain ⟨w2, evs1⟩ := r2
          rw [hm] at h
          simp only [] at h
          rcases hm2 : opActivateList w2 fuel (w2.parentToChildren e ++ rest)
            with - | r3
          · rw [hm2] at h
            cases h
          · obtain ⟨w3, evs2⟩ := r3
            rw [hm2] at h
            cases h
            -- chain the three step characterisations
            have hstep1 : (w.emActivate e).1
                = { w with mActiveEntities := (w.emActivate e).1.mActiveEntities }
                ∧ (∀ x, w.mActiveEntities x = true →
                    (w.emActivate e).1.mActiveEntities x = true) := by
              rcases emActivate_fields w e with ⟨h1, h2, -⟩ | heq
              · exact ⟨h1, h2⟩
              · rw [heq]
                exact ⟨rfl, fun x hx => hx⟩
            have hstep2 : w2 = { (w.emActivate e).1 with systems := w2.systems }
                ∧ (∀ x, (w.emActivate e).1.mActiveEntities x = true →
                    w2.mActiveEntities x = true) := by
              by_cases hb : (w.emActivate e).2 = true
              · rw [if_pos hb] at hm
                have := onEntityPatternChanged_fields hm
                constructor
                · exact this
                · intro x hx
                  rw [this]
                  exact hx
              · rw [if_neg hb] at hm
                cases hm
                exact ⟨rfl, fun x hx => hx⟩
            have hstep3 := ih _ _ _ _ hm2
            constructor
            · rw [hstep3.1, hstep2.1, hstep1.1]
            · intro x hx
              exact hstep3.2 x (hstep2.2 x (hstep1.2 x hx))

end WorldState

end WhalECS

namespace WhalECS

namespace WorldState

/-- Creating an entity with `isAlive = false` touches only the free-list, the
count and the hierarchy maps (and the hierarchy only at the new id and its
parent key). -/
theorem createEntity_inactive_fields {w : WorldState} {parent : Nat}
    {w1 : WorldState} {id : Nat}
    (h : w.createEntity false parent = some (w1, id)) (hid : id ≠ 0) :
    w1.mPatterns = w.mPatterns ∧ w1.mTagPatterns = w.mTagPatterns
    ∧ w1.arrays = w.arrays ∧ w1.mActiveEntities = w.mActiveEntities
    ∧ w1.registeredTypes = w.registeredTypes ∧ w1.traitUsers = w.traitUsers
    ∧ w1.idTraitUsers = w.idTraitUsers ∧ w1.systems = w.systems
    ∧ (∀ x, x ≠ id → w1.childToParent x = w.childToParent x) := by
  rw [createEntity] at h
  by_cases hcap : (w.mEntityCount + 1) % 2 ^ 32 ≥ MAX_ENTITIES
  · rw [if_pos hcap] at h
    cases h
    exact absurd rfl hid
  · rw [if_neg hcap] at h
    rcases hq : w.mAvailableIDs with - | ⟨a, rest⟩
    · rw [hq] at h
      cases h
    · rw [hq] at h
      simp only [] at h
      cases h
      refine ⟨rfl, rfl, rfl, ?_, rfl, rfl, rfl, rfl, ?_⟩
      · show (if (((parent == 0) || w.mActiveEntities parent) && false) = true
          then _ else w.mActiveEntities) = w.mActiveEntities
        rw [if_neg (by simp)]
      · intro x hx
        show (if x = id then parent else w.childToParent x) = w.childToParent x
        rw [if_neg hx]

/-- The head of the activation worklist ends up active. -/
theorem opActivateList_activates {w w1 : WorldState} {fuel e : Nat}
    {rest : List Nat} {evs : List Ev}
    (h : w.opActivateList (fuel + 1) (e :: rest) = some (w1, evs)) :
    w1.mActiveEntities e = true := by
  rw [opActivateList] at h
  by_cases hint : w.hasInternalComponent e = true
  · rw [if_pos hint] at h
    cases h
  · rw [if_neg hint] at h
    simp only [] at h
    have hactive : (w.emActivate e).1.mActiveEntities e = true := by
      by_cases hb : w.mActiveEntities e = true
      · rw [emActivate, if_pos hb]
        exact hb
      · rw [emActivate, if_neg hb]
        show (if e = e then true else w.mActiveEntities e) = true
        simp
    rcases hm : (if (w.emActivate e).2 then
        onEntityPatternChanged (w.emActivate e).1 fuel e
          ((w.emActivate e).1.mPatterns e) ((w.emActivate e).1.mTagPatterns e)
      else some ((w.emActivate e).1, [])) with - | r2
    · rw [hm] at h
      cases h
    · obtain ⟨w2, evs1⟩ := r2
      rw [hm] at h
      simp only [] at h
      have hw2 : w2.mActiveEntities e = true := by
        by_cases hb : (w.emActivate e).2 = true
        · rw [if_pos hb] at hm
          rw [onEntityPatternChanged_fields hm]
          exact hactive
        · rw [if_neg hb] at hm
          cases hm
          exact hactive
      rcases hm2 : opActivateList w2 fuel (w2.parentToChildren e ++ rest) with - | r3
      · rw [hm2] at h
        cases h
      · obtain ⟨w3, evs2⟩ := r3
        rw [hm2] at h
        cases h
        exact (opActivateList_fields fuel _ w2 _ evs2 hm2).2 e hw2

theorem hasData_false_tryGetData {arr : ComponentArray} {e : Nat}
    (h : arr.hasData e = false) : arr.tryGetData e = none := by
  rcases hx : arr.mEntityToIndex e with - | ix
  · simp [ComponentArray.tryGetData, hx]
  · rw [ComponentArray.hasData, hx] at h
    simp at h

end WorldState

end WhalECS


namespace WhalECS

/-! ### Claim C4 -/

namespace WorldState

theorem copyLink_mTagPatterns (w1 : WorldState) (prefab newE : Nat) :
    (w1.copyLink prefab newE).mTagPatterns = w1.mTagPatterns := rfl

theorem copyLink_mActiveEntities (w1 : WorldState) (prefab newE : Nat) :
    (w1.copyLink prefab newE).mActiveEntities = w1.mActiveEntities := rfl

theorem copyLink_mPatterns_self (w1 : WorldState) (prefab newE : Nat) :
    (w1.copyLink prefab newE).mPatterns newE = w1.mPatterns prefab := by
  simp [copyLink, copyComponents]

theorem copyLink_childToParent_self (w1 : WorldState) (prefab newE : Nat) :
    (w1.copyLink prefab newE).childToParent newE = w1.childToParent prefab := by
  simp [copyLink, copyComponents]

end WorldState

/-- C4 (amended): a successful `World::copy(prefab, isActive)` yields a fresh
entity whose component values are independent copies of the prefab's (the
prefab's stored values are unchanged by the copy, and overwriting the copy's
value afterwards leaves the prefab's value intact), whose *component*
pattern equals the prefab's, whose parent is the prefab's parent, and which
ends up active exactly when `isActive` is true; the tag pattern however is
*not* copied — the new entity keeps its fresh (empty) tag pattern. -/
theorem c4_copy_characterisation (w : WorldState) (fuel prefab : Nat) (act : Bool)
    (w1f : WorldState) (newE : Nat) (evs : List Ev)
    (hcopy : w.opCopy fuel prefab act = some (w1f, newE, evs))
    (hvalid : newE ≠ 0)
    (hneq : prefab ≠ newE)
    (hwf : ∀ t, ComponentArray.WF (w.arrays t))
    (hfresh : ∀ t, (w.arrays t).hasData newE = false)
    (hinactive : w.mActiveEntities newE = false) :
    w1f.mPatterns newE = w.mPatterns prefab
    ∧ w1f.mTagPatterns newE = w.mTagPatterns newE
    ∧ w1f.childToParent newE = w.childToParent prefab
    ∧ w1f.mActiveEntities newE = act
    ∧ (∀ t, w.registeredTypes.contains t = true → (t == w.idTraitUsers) = false →
        (w1f.arrays t).tryGetData newE = (w.arrays t).tryGetData prefab
        ∧ (w1f.arrays t).tryGetData prefab = (w.arrays t).tryGetData prefab
        ∧ (∀ v2 arr2, ComponentArray.setData (w1f.arrays t) newE v2 = some arr2 →
            arr2.tryGetData prefab = (w1f.arrays t).tryGetData prefab)) := by
  rw [WorldState.opCopy] at hcopy
  rcases hce : w.worldEntity false with - | r1
  · rw [hce] at hcopy
    cases hcopy
  · obtain ⟨w1, newE0⟩ := r1
    rw [hce] at hcopy
    simp only [] at hcopy
    by_cases h0 : (newE0 == 0) = true
    · rw [if_pos h0] at hcopy
      cases hcopy
      exact absurd rfl hvalid
    · rw [if_neg h0] at hcopy
      have hz : newE0 ≠ 0 := by
        intro hzz
        rw [hzz] at h0
        simp at h0
      have hn0 : newE = newE0 := by
        have h2 := hcopy
        split at h2
        · split at h2
          · cases h2
          · cases h2
            rfl
        · cases h2
          rfl
      subst hn0
      obtain ⟨hAp, hAtp, hAarr, hAact, hAreg, hAtu, hAitu, hAsys, hActp⟩ :=
        WorldState.createEntity_inactive_fields (show w.createEntity false 0 = some (w1, newE) from hce) hz
      -- facts about the copy/link stage
      have g1 : (w1.copyLink prefab newE).mPatterns newE = w.mPatterns prefab := by
        rw [WorldState.copyLink_mPatterns_self, hAp]
      have g2 : (w1.copyLink prefab newE).mTagPatterns newE = w.mTagPatterns newE := by
        rw [WorldState.copyLink_mTagPatterns, hAtp]
      have g3 : (w1.copyLink prefab newE).childToParent newE = w.childToParent prefab := by
        rw [WorldState.copyLink_childToParent_self]
        exact hActp prefab hneq
      have g4 : (w1.copyLink prefab newE).mActiveEntities newE = false := by
        rw [WorldState.copyLink_mActiveEntities, hAact]
        exact hinactive
      have g5 : ∀ t, w.registeredTypes.contains t = true → (t == w.idTraitUsers) = false →
          (w1.copyLink prefab newE).arrays t = (w.arrays t).copyComponent prefab newE := by
        intro t ht htu
        show (w1.copyComponents prefab newE).arrays t = _
        have hcond : (w1.registeredTypes.contains t && (t != w1.idTraitUsers)) = true := by
          rw [hAreg, hAitu, ht]
          simp [bne, htu]
        show (if w1.registeredTypes.contains t && (t != w1.idTraitUsers)
          then (w1.arrays t).copyComponent prefab newE else w1.arrays t) = _
        rw [if_pos hcond, hAarr]
      -- array-level consequences of one copyComponent
      have harr : ∀ t, w.registeredTypes.contains t = true → (t == w.idTraitUsers) = false →
          ((w.arrays t).copyComponent prefab newE).tryGetData newE
            = (w.arrays t).tryGetData prefab
          ∧ ((w.arrays t).copyComponent prefab newE).tryGetData prefab
            = (w.arrays t).tryGetData prefab
          ∧ (∀ v2 arr2,
              ComponentArray.setData ((w.arrays t).copyComponent prefab newE) newE v2
                = some arr2 →
              arr2.tryGetData prefab
                = ((w.arrays t).copyComponent prefab newE).tryGetData prefab) := by
        intro t _ _
        have hwft := hwf t
        rcases hv : (w.arrays t).tryGetData prefab with - | v
        · rw [ComponentArray.copyComponent, hv]
          refine ⟨?_, ?_, ?_⟩
          · show (w.arrays t).tryGetData newE = none
            exact WorldState.hasData_false_tryGetData (hfresh t)
          · show (w.arrays t).tryGetData prefab = none
            exact hv
          · intro v2 arr2 hset
            have hset2 : (w.arrays t).setData newE v2 = some arr2 := hset
            rw [ComponentArray.setData] at hset2
            have he2i : (w.arrays t).mEntityToIndex newE = none := by
              have := hfresh t
              rw [ComponentArray.hasData] at this
              rcases hx : (w.arrays t).mEntityToIndex newE with - | ix
              · rfl
              · rw [hx] at this
                simp at this
            rw [he2i] at hset2
            cases hset2
        · rw [ComponentArray.copyComponent, hv]
          refine ⟨?_, ?_, ?_⟩
          · show ((w.arrays t).addData newE v).tryGetData newE = some v
            exact ComponentArray.tryGetData_addData_self newE v
          · show ((w.arrays t).addData newE v).tryGetData prefab = some v
            rw [ComponentArray.tryGetData_addData_other hwft newE v prefab hneq]
            exact hv
          · intro v2 arr2 hset
            have hset2 : ((w.arrays t).addData newE v).setData newE v2 = some arr2 := hset
            show arr2.tryGetData prefab = ((w.arrays t).addData newE v).tryGetData prefab
            exact ComponentArray.setData_tryGetData_other
              (ComponentArray.wf_addData hwft newE v) hneq hset2
      split at hcopy
      · -- isActive branch
        rename_i hact
        split at hcopy
        · cases hcopy
        · rename_i w5 evs5 heq
          cases hcopy
          have hfields := WorldState.opActivateList_fields fuel _ _ _ _ heq
          refine ⟨?_, ?_, ?_, ?_, ?_⟩
          · rw [hfields.1]
            exact g1
          · rw [hfields.1]
            exact g2
          · rw [hfields.1]
            exact g3
          · rw [hact]
            match fuel, heq with
            | 0, heq => rw [WorldState.opActivateList] at heq; cases heq
            | fuel + 1, heq => exact WorldState.opActivateList_activates heq
          · intro t ht htu
            have h5 := g5 t ht htu
            have ha := harr t ht htu
            have harreq : w1f.arrays t = (w.arrays t).copyComponent prefab newE := by
              rw [hfields.1]
              exact h5
            rw [harreq]
            exact ha
      · rename_i hact
        cases hcopy
        have hactf : act = false := by
          revert hact
          cases act <;> simp
        refine ⟨g1, g2, g3, ?_, ?_⟩
        · rw [hactf]
          exact g4
        · intro t ht htu
          rw [g5 t ht htu]
          exact harr t ht htu

end WhalECS

namespace WhalECS

set_option maxRecDepth 40000 in
/-- C4 counterexample: copy a prefab that holds tag 0.  The claim says the
copy's tag pattern equals the prefab's; in fact `World::copy` never calls
`setTagPattern`, so the copy's tag pattern is empty (0) while the prefab's is
1. -/
theorem c4_counterexample :
    c4Start.worldEntity true = some (c4Created.1, 1)
    ∧ (c4Created.1).opAddTag 4 1 0 = some (c4Tagged.1, [])
    ∧ (c4Tagged.1).opCopy 4 1 true = some (c4Copied.1, 2, [])
    ∧ (c4Tagged.1).mTagPatterns 1 = 1
    ∧ (c4Copied.1).mTagPatterns 2 = 0
    ∧ (c4Copied.1).mTagPatterns 1 = 1 := by
  refine ⟨rfl, rfl, rfl, rfl, rfl, rfl⟩

set_option maxRecDepth 40000 in
/-- C4 witness: the amended characterisation applied to the concrete copy
above. -/
theorem c4_witness :
    (c4Copied.1).mPatterns 2 = (c4Tagged.1).mPatterns 1
    ∧ (c4Copied.1).mActiveEntities 2 = true := by
  have h := c4_copy_characterisation (c4Tagged.1) 4 1 true (c4Copied.1) 2 [] rfl
    (by decide) (by decide) (fun t => ComponentArray.wf_init) (fun t => rfl) rfl
  exact ⟨h.1, h.2.2.2.1⟩

end WhalECS

namespace WhalECS

/-! ### Claim C3 -/

theorem mem_insertUnique_self (l : List Nat) (x : Nat) : x ∈ insertUnique l x := by
  rw [insertUnique]
  split_ifs with h
  · simpa using h
  · simp

theorem mem_insertUnique_of_mem (l : List Nat) (x y : Nat) (h : y ∈ l) :
    y ∈ insertUnique l x := by
  rw [insertUnique]
  split_ifs with h2
  · exact h
  · exact List.mem_append_left _ h

theorem mem_foldl_insertUnique (l : List Nat) :
    ∀ (acc : List Nat) (x : Nat), x ∈ acc ∨ x ∈ l → x ∈ l.foldl insertUnique acc := by
  induction l with
  | nil =>
    intro acc x h
    rcases h with h | h
    · exact h
    · cases h
  | cons a rest ih =>
    intro acc x h
    show x ∈ rest.foldl insertUnique (insertUnique acc a)
    apply ih
    rcases h with h | h
    · exact Or.inl (mem_insertUnique_of_mem acc a x h)
    · rcases List.mem_cons.mp h with rfl | h2
      · exact Or.inl (mem_insertUnique_self acc x)
      · exact Or.inr h2

theorem foldl_erase_nil (l : List Nat) :
    l.foldl (fun acc e => acc.erase e) ([] : List Nat) = [] := by
  induction l with
  | nil => rfl
  | cons a rest ih =>
    show rest.foldl (fun acc e => acc.erase e) (([] : List Nat).erase a) = []
    exact ih

theorem isEmpty_eq_nil {l : List Nat} (h : l.isEmpty = true) : l = [] := by
  cases l with
  | nil => rfl
  | cons a tl => simp at h

/-- `removeData` preserves the density invariant (extracted so the
`killEntities` fold can maintain well-formedness of every array). -/
theorem ComponentArray.wf_removeData {arr : ComponentArray}
    (hwf : ComponentArray.WF arr) (e : Nat) : ComponentArray.WF (arr.removeData e) := by
  rcases hsome : arr.mEntityToIndex e with - | removeIx
  · rw [ComponentArray.removeData_of_none hsome]
    exact hwf
  · obtain ⟨hlt, hinv⟩ := ComponentArray.lookup_facts hwf hsome
    have hN : 0 < arr.mSize := by omega
    have hlastE : ∀ x ix, arr.mEntityToIndex x = some ix → ix = arr.mSize - 1 →
        x = arr.mIndexToEntity (arr.mSize - 1) := by
      intro x ix hx hix
      have := hwf.lookup_inv x ix hx
      rw [hix] at this
      omega
    by_cases hcase : removeIx = arr.mSize - 1
    · have hEe : arr.mIndexToEntity (arr.mSize - 1) = e := by
        rw [← hcase]; exact hinv
      refine ⟨?_, ?_, ?_⟩
      · intro x ix hx
        rw [ComponentArray.removeData_e2i hsome, if_pos hcase] at hx
        by_cases hxe : x = e
        · rw [if_pos hxe] at hx; cases hx
        · rw [if_neg hxe] at hx
          have hlt2 := hwf.lookup_lt x ix hx
          have hne : ix ≠ arr.mSize - 1 := by
            intro hc
            exact hxe (by rw [hlastE x ix hx hc, hEe])
          rw [ComponentArray.removeData_size hsome]
          omega
      · intro x ix hx
        rw [ComponentArray.removeData_e2i hsome, if_pos hcase] at hx
        by_cases hxe : x = e
        · rw [if_pos hxe] at hx; cases hx
        · rw [if_neg hxe] at hx
          have hlt2 := hwf.lookup_lt x ix hx
          have hne : ix ≠ arr.mSize - 1 := by
            intro hc
            exact hxe (by rw [hlastE x ix hx hc, hEe])
          rw [ComponentArray.removeData_i2e hsome, if_neg hne, if_pos hcase]
          exact hwf.lookup_inv x ix hx
      · intro ix hix
        rw [ComponentArray.removeData_size hsome] at hix
        have hne : ix ≠ arr.mSize - 1 := by omega
        rw [ComponentArray.removeData_i2e hsome, if_neg hne, if_pos hcase]
        have hd := hwf.dense ix (by omega)
        have hye : arr.mIndexToEntity ix ≠ e := by
          intro hc
          rw [hc, hsome] at hd
          have : removeIx = ix := by
            cases hd; rfl
          omega
        rw [ComponentArray.removeData_e2i hsome, if_neg hye, if_pos hcase]
        exact hd
    · have hlastNe : arr.mIndexToEntity (arr.mSize - 1) ≠ e := by
        intro hc
        have hd := hwf.dense (arr.mSize - 1) (by omega)
        rw [hc, hsome] at hd
        have : removeIx = arr.mSize - 1 := by cases hd; rfl
        exact hcase this
      have hdlast := hwf.dense (arr.mSize - 1) (by omega)
      refine ⟨?_, ?_, ?_⟩
      · intro x ix hx
        rw [ComponentArray.removeData_e2i hsome, if_neg hcase] at hx
        rw [ComponentArray.removeData_size hsome]
        by_cases hxe : x = e
        · rw [if_pos hxe] at hx; cases hx
        · rw [if_neg hxe] at hx
          by_cases hxl : x = arr.mIndexToEntity (arr.mSize - 1)
          · rw [if_pos hxl] at hx
            cases hx
            omega
          · rw [if_neg hxl] at hx
            have hlt2 := hwf.lookup_lt x ix hx
            have hne : ix ≠ arr.mSize - 1 := by
              intro hc
              exact hxl (hlastE x ix hx hc)
            omega
      · intro x ix hx
        rw [ComponentArray.removeData_e2i hsome, if_neg hcase] at hx
        by_cases hxe : x = e
        · rw [if_pos hxe] at hx; cases hx
        · rw [if_neg hxe] at hx
          by_cases hxl : x = arr.mIndexToEntity (arr.mSize - 1)
          · rw [if_pos hxl] at hx
            cases hx
            rw [ComponentArray.removeData_i2e hsome,
              if_neg (by omega : removeIx ≠ arr.mSize - 1)]
            rw [if_neg hcase, if_pos rfl]
            exact hxl.symm
          · rw [if_neg hxl] at hx
            have hlt2 := hwf.lookup_lt x ix hx
            have hne : ix ≠ arr.mSize - 1 := by
              intro hc
              exact hxl (hlastE x ix hx hc)
            have hner : ix ≠ removeIx := by
              intro hc
              rw [hc] at hx
              have := hwf.lookup_inv x removeIx hx
              rw [hinv] at this
              exact hxe this.symm
            rw [ComponentArray.removeData_i2e hsome, if_neg hne, if_neg hcase, if_neg hner]
            exact hwf.lookup_inv x ix hx
      · intro ix hix
        rw [ComponentArray.removeData_size hsome] at hix
        have hne : ix ≠ arr.mSize - 1 := by omega
        rw [ComponentArray.removeData_i2e hsome, if_neg hne, if_neg hcase]
        by_cases hir : ix = removeIx
        · rw [if_pos hir]
          rw [ComponentArray.removeData_e2i hsome, if_neg hlastNe, if_neg hcase, if_pos rfl,
            hir]
        · rw [if_neg hir]
          have hd := hwf.dense ix (by omega)
          have hye : arr.mIndexToEntity ix ≠ e := by
            intro hc
            rw [hc, hsome] at hd
            have : removeIx = ix := by cases hd; rfl
            exact hir this.symm
          have hyl : arr.mIndexToEntity ix ≠ arr.mIndexToEntity (arr.mSize - 1) := by
            intro hc
            rw [hc, hdlast] at hd
            have : arr.mSize - 1 = ix := by cases hd; rfl
            omega
          rw [ComponentArray.removeData_e2i hsome, if_neg hye, if_neg hcase, if_neg hyl]
          exact hd

/-- Removing some other entity from a well-formed array never resurrects a
slot for an entity that holds none. -/
theorem ComponentArray.e2i_none_removeData {arr : ComponentArray}
    (hwf : ComponentArray.WF arr) {e : Nat} (h : arr.mEntityToIndex e = none) (x : Nat) :
    (arr.removeData x).mEntityToIndex e = none := by
  rcases hx : arr.mEntityToIndex x with - | removeIx
  · rw [ComponentArray.removeData_of_none hx]
    exact h
  · rw [ComponentArray.removeData_e2i hx]
    obtain ⟨hlt, -⟩ := ComponentArray.lookup_facts hwf hx
    by_cases h1 : e = x
    · rw [if_pos h1]
    · rw [if_neg h1]
      by_cases h2 : removeIx = arr.mSize - 1
      · rw [if_pos h2]
        exact h
      · rw [if_neg h2]
        have hlast : arr.mEntityToIndex (arr.mIndexToEntity (arr.mSize - 1))
            = some (arr.mSize - 1) := hwf.dense (arr.mSize - 1) (by omega)
        have hne : e ≠ arr.mIndexToEntity (arr.mSize - 1) := by
          intro hc
          rw [← hc, h] at hlast
          cases hlast
        rw [if_neg hne]
        exact h

theorem ComponentArray.wf_entityDestroyed {arr : ComponentArray}
    (hwf : ComponentArray.WF arr) (e : Nat) :
    ComponentArray.WF (arr.entityDestroyed e) := by
  rw [ComponentArray.entityDestroyed]
  cases hb : arr.hasData e with
  | false =>
    rw [if_neg (by simp [hb])]
    exact hwf
  | true =>
    rw [if_pos rfl]
    exact ComponentArray.wf_removeData hwf e

theorem ComponentArray.hasData_entityDestroyed_self (arr : ComponentArray) (e : Nat) :
    (arr.entityDestroyed e).hasData e = false := by
  rw [ComponentArray.entityDestroyed]
  cases hb : arr.hasData e with
  | false =>
    rw [if_neg (by simp [hb])]
    exact hb
  | true =>
    rw [if_pos rfl]
    rcases hx : arr.mEntityToIndex e with - | ix
    · rw [ComponentArray.hasData, hx] at hb
      simp at hb
    · rw [ComponentArray.hasData, ComponentArray.removeData_e2i hx, if_pos rfl]
      rfl

theorem ComponentArray.hasData_false_entityDestroyed {arr : ComponentArray}
    (hwf : ComponentArray.WF arr) {e : Nat} (h : arr.hasData e = false) (x : Nat) :
    (arr.entityDestroyed x).hasData e = false := by
  have he : arr.mEntityToIndex e = none := by
    rcases hx : arr.mEntityToIndex e with - | ix
    · rfl
    · rw [ComponentArray.hasData, hx] at h
      simp at h
  rw [ComponentArray.entityDestroyed]
  cases hb : arr.hasData x with
  | false =>
    rw [if_neg (by simp [hb])]
    exact h
  | true =>
    rw [if_pos rfl, ComponentArray.hasData, ComponentArray.e2i_none_removeData hwf he x]
    rfl

end WhalECS

namespace WhalECS

namespace WorldState

/-- `World::kill` (worklist form) queues and destroys nothing: every field
except the kill queue is untouched, the queue only grows, and every entity of
the worklist ends up queued together with all of its children. -/
theorem opKillList_spec :
    ∀ (fuel : Nat) (ws : List Nat) (w w1 : WorldState),
      w.opKillList fuel ws = some w1 →
      w1 = { w with mToKill := w1.mToKill }
      ∧ (∀ x ∈ w.mToKill, x ∈ w1.mToKill)
      ∧ (∀ e ∈ ws, e ∈ w1.mToKill ∧ ∀ c ∈ w.parentToChildren e, c ∈ w1.mToKill) := by
  intro fuel
  induction fuel with
  | zero =>
    intro ws w w1 h
    rw [opKillList] at h
    by_cases hws : ws.isEmpty
    · rw [if_pos hws] at h
      cases h
      refine ⟨rfl, fun x hx => hx, ?_⟩
      rw [isEmpty_eq_nil hws]
      intro e he
      cases he
    · rw [if_neg hws] at h
      cases h
  | succ fuel ih =>
    intro ws w w1 h
    match ws with
    | [] =>
      rw [opKillList] at h
      cases h
      exact ⟨rfl, fun x hx => hx, fun e he => absurd he (List.not_mem_nil e)⟩
    | e :: rest =>
      rw [opKillList] at h
      by_cases hint : w.hasInternalComponent e = true
      · rw [if_pos hint] at h
        cases h
      · rw [if_neg hint] at h
        simp only [] at h
        obtain ⟨hfields, hmono, hws⟩ := ih _ _ _ h
        refine ⟨hfields.trans rfl, ?_, ?_⟩
        · intro x hx
          exact hmono x (mem_insertUnique_of_mem w.mToKill e x hx)
        · intro e2 he2
          rcases List.mem_cons.mp he2 with rfl | he2r
          · refine ⟨hmono e2 (mem_insertUnique_self w.mToKill e2), ?_⟩
            intro c hc
            exact (hws c (List.mem_append_left _ hc)).1
          · refine ⟨(hws e2 (List.mem_append_right _ he2r)).1, ?_⟩
            intro c hc
            exact (hws e2 (List.mem_append_right _ he2r)).2 c hc

theorem destroyOne_mToKill (w : WorldState) (e : Nat) :
    (w.destroyOne e).1.mToKill = w.mToKill := rfl

theorem destroyOne_mKilledThisFrame (w : WorldState) (e : Nat) :
    (w.destroyOne e).1.mKilledThisFrame = w.mKilledThisFrame := rfl

theorem destroyOne_deathCallbackRegistered (w : WorldState) (e : Nat) :
    (w.destroyOne e).1.deathCallbackRegistered = w.deathCallbackRegistered := rfl

theorem destroyList_mToKill (es : List Nat) :
    ∀ w : WorldState, (w.destroyList es).1.mToKill = w.mToKill := by
  induction es with
  | nil => intro w; rfl
  | cons e rest ih => intro w; exact ih ((w.destroyOne e).1)

theorem destroyList_mKilledThisFrame (es : List Nat) :
    ∀ w : WorldState, (w.destroyList es).1.mKilledThisFrame = w.mKilledThisFrame := by
  induction es with
  | nil => intro w; rfl
  | cons e rest ih => intro w; exact ih ((w.destroyOne e).1)

/-- After `onEntityDestroyed(e)`, no membership set contains `e` any more
(erasing from a duplicate-free set removes the entity), and the sets stay
duplicate-free. -/
theorem systems_after_onEntityDestroyed (w : WorldState) (e : Nat)
    (hnd : ∀ ss ∈ w.systems, ss.mEntities.Nodup) :
    ∀ ss ∈ (w.onEntityDestroyed e).1.systems,
      ss.mEntities.contains e = false ∧ ss.mEntities.Nodup := by
  intro ss hss
  have hmap : (w.onEntityDestroyed e).1.systems
      = w.systems.map (fun ss => if ss.mEntities.contains e
          then { ss with mEntities := ss.mEntities.erase e } else ss) := by
    show (destroySystemsFrom e 0 w.systems).1 = _
    rw [destroySystemsFrom_eq]
  rw [hmap] at hss
  obtain ⟨ss0, hss0, rfl⟩ := List.mem_map.mp hss
  have hnd0 := hnd ss0 hss0
  by_cases hc : ss0.mEntities.contains e = true
  · rw [if_pos hc]
    constructor
    · have hnm : e ∉ ss0.mEntities.erase e := fun hm =>
        ((List.Nodup.mem_erase_iff hnd0).mp hm).1 rfl
      simpa using hnm
    · exact hnd0.erase e
  · rw [if_neg hc]
    refine ⟨?_, hnd0⟩
    simpa using hc

/-- Destroying any entity keeps every membership set duplicate-free. -/
theorem destroyOne_nodup (w : WorldState) (x : Nat)
    (hnd : ∀ ss ∈ w.systems, ss.mEntities.Nodup) :
    ∀ ss ∈ (w.destroyOne x).1.systems, ss.mEntities.Nodup := by
  intro ss hss
  exact (systems_after_onEntityDestroyed w x hnd ss hss).2

/-- Destroying any entity keeps every component array well-formed. -/
theorem destroyOne_wf (w : WorldState) (x : Nat)
    (hwf : ∀ t, ComponentArray.WF (w.arrays t)) :
    ∀ t, ComponentArray.WF ((w.destroyOne x).1.arrays t) := by
  intro t
  show ComponentArray.WF (if w.registeredTypes.contains t && (t != w.idTraitUsers)
      then (w.arrays t).entityDestroyed x else w.arrays t)
  split_ifs with h
  · exact ComponentArray.wf_entityDestroyed (hwf t) x
  · exact hwf t

/-- One pass of the destruction block leaves its entity fully destroyed. -/
theorem destroyOne_destroys (w : WorldState) (e : Nat)
    (hnd : ∀ ss ∈ w.systems, ss.mEntities.Nodup) :
    Destroyed (w.destroyOne e).1 e := by
  refine ⟨?_, ?_, ?_, ?_, ?_, ?_⟩
  · show (if e = e then false
      else (unparent (w.onEntityDestroyed e).1 e).mActiveEntities e) = false
    rw [if_pos rfl]
  · show (if e = e then 0
      else (unparent (w.onEntityDestroyed e).1 e).mPatterns e) = 0
    rw [if_pos rfl]
  · show (if e = e then 0
      else (unparent (w.onEntityDestroyed e).1 e).mTagPatterns e) = 0
    rw [if_pos rfl]
  · intro ss hss
    exact (systems_after_onEntityDestroyed w e hnd ss hss).1
  · show e ∈ (unparent (w.onEntityDestroyed e).1 e).mAvailableIDs ++ [e]
    exact List.mem_append_right _ (by simp)
  · intro t hreg htu
    have hreg2 : w.registeredTypes.contains t = true := hreg
    have htu2 : (t == w.idTraitUsers) = false := htu
    show (if w.registeredTypes.contains t && (t != w.idTraitUsers)
        then (w.arrays t).entityDestroyed e else w.arrays t).hasData e = false
    rw [if_pos (by rw [hreg2]; simp [bne, htu2])]
    exact ComponentArray.hasData_entityDestroyed_self (w.arrays t) e

/-- Destroying some other entity (or the same one again) cannot resurrect an
already-destroyed entity. -/
theorem destroyOne_keeps_destroyed (w : WorldState) (x e : Nat)
    (hwf : ∀ t, ComponentArray.WF (w.arrays t))
    (hd : Destroyed w e) : Destroyed (w.destroyOne x).1 e := by
  obtain ⟨hact, hpat, htag, hsys, hav, harr⟩ := hd
  refine ⟨?_, ?_, ?_, ?_, ?_, ?_⟩
  · show (if e = x then false
      else (unparent (w.onEntityDestroyed x).1 x).mActiveEntities e) = false
    by_cases hex : e = x
    · rw [if_pos hex]
    · rw [if_neg hex]
      exact hact
  · show (if e = x then 0
      else (unparent (w.onEntityDestroyed x).1 x).mPatterns e) = 0
    by_cases hex : e = x
    · rw [if_pos hex]
    · rw [if_neg hex]
      exact hpat
  · show (if e = x then 0
      else (unparent (w.onEntityDestroyed x).1 x).mTagPatterns e) = 0
    by_cases hex : e = x
    · rw [if_pos hex]
    · rw [if_neg hex]
      exact htag
  · intro ss hss
    have hmap : (w.onEntityDestroyed x).1.systems
        = w.systems.map (fun ss => if ss.mEntities.contains x
            then { ss with mEntities := ss.mEntities.erase x } else ss) := by
      show (destroySystemsFrom x 0 w.systems).1 = _
      rw [destroySystemsFrom_eq]
    have hss2 : ss ∈ (w.onEntityDestroyed x).1.systems := hss
    rw [hmap] at hss2
    obtain ⟨ss0, hss0, rfl⟩ := List.mem_map.mp hss2
    have h0 := hsys ss0 hss0
    by_cases hc : ss0.mEntities.contains x = true
    · rw [if_pos hc]
      have hnm : e ∉ ss0.mEntities := by simpa using h0
      have hne : e ∉ ss0.mEntities.erase x := fun hm => hnm (List.mem_of_mem_erase hm)
      simpa using hne
    · rw [if_neg hc]
      exact h0
  · show e ∈ (unparent (w.onEntityDestroyed x).1 x).mAvailableIDs ++ [x]
    exact List.mem_append_left _ hav
  · intro t hreg htu
    have hreg2 : w.registeredTypes.contains t = true := hreg
    have htu2 : (t == w.idTraitUsers) = false := htu
    show (if w.registeredTypes.contains t && (t != w.idTraitUsers)
        then (w.arrays t).entityDestroyed x else w.arrays t).hasData e = false
    split_ifs with hcond
    · exact ComponentArray.hasData_false_entityDestroyed (hwf t) (harr t hreg2 htu2) x
    · exact harr t hreg2 htu2

theorem destroyList_wf (es : List Nat) :
    ∀ w : WorldState, (∀ t, ComponentArray.WF (w.arrays t)) →
      ∀ t, ComponentArray.WF ((w.destroyList es).1.arrays t) := by
  induction es with
  | nil => intro w h; exact h
  | cons a rest ih =>
    intro w h
    exact ih ((w.destroyOne a).1) (destroyOne_wf w a h)

theorem destroyList_nodup (es : List Nat) :
    ∀ w : WorldState, (∀ ss ∈ w.systems, ss.mEntities.Nodup) →
      ∀ ss ∈ (w.destroyList es).1.systems, ss.mEntities.Nodup := by
  induction es with
  | nil => intro w h; exact h
  | cons a rest ih =>
    intro w h
    exact ih ((w.destroyOne a).1) (destroyOne_nodup w a h)

theorem destroyList_keeps_destroyed (es : List Nat) :
    ∀ (w : WorldState) (e : Nat), (∀ t, ComponentArray.WF (w.arrays t)) →
      Destroyed w e → Destroyed (w.destroyList es).1 e := by
  induction es with
  | nil => intro w e _ hd; exact hd
  | cons a rest ih =>
    intro w e hwf hd
    exact ih ((w.destroyOne a).1) e (destroyOne_wf w a hwf)
      (destroyOne_keeps_destroyed w a e hwf hd)

/-- The `killEntities` inner loop leaves every drained entity destroyed. -/
theorem destroyList_destroys (es : List Nat) :
    ∀ w : WorldState, (∀ t, ComponentArray.WF (w.arrays t)) →
      (∀ ss ∈ w.systems, ss.mEntities.Nodup) →
      ∀ e ∈ es, Destroyed (w.destroyList es).1 e := by
  induction es with
  | nil =>
    intro w _ _ e he
    cases he
  | cons a rest ih =>
    intro w hwf hnd e he
    rcases List.mem_cons.mp he with rfl | he2
    · exact destroyList_keeps_destroyed rest ((w.destroyOne e).1) e
        (destroyOne_wf w e hwf) (destroyOne_destroys w e hnd)
    · exact ih ((w.destroyOne a).1) (destroyOne_wf w a hwf) (destroyOne_nodup w a hnd) e he2

end WorldState

end WhalECS

namespace WhalECS

namespace WorldState

/-- The destruction events of one entity, in order: death callback (if
registered), system-destruction notification, the monitor remove callbacks,
unparent, id recycling, component storage clear. -/
theorem destroyOne_events (w : WorldState) (e : Nat) :
    (w.destroyOne e).2
      = (if w.deathCallbackRegistered then [Ev.deathCb e] else [])
        ++ [Ev.destroyNotify e]
        ++ ((w.systems.enumFrom 0).filter
            (fun p => p.2.mEntities.contains e && p.2.sdef.hasMonitor)).map
          (fun p => Ev.onRemove p.1 e (p.2.mEntities.erase e))
        ++ [Ev.unparentEv e, Ev.recycle e, Ev.clearStorage e] := by
  show (if w.deathCallbackRegistered then [Ev.deathCb e] else [])
        ++ [Ev.destroyNotify e]
        ++ (destroySystemsFrom e 0 w.systems).2
        ++ [Ev.unparentEv e, Ev.recycle e, Ev.clearStorage e] = _
  rw [destroySystemsFrom_eq]

/-- Every event of one destruction block concerns exactly the destroyed
entity. -/
theorem destroyOne_events_about (w : WorldState) (e : Nat) :
    ∀ ev ∈ (w.destroyOne e).2, ∀ x, evAbout x ev = (e == x) := by
  intro ev hev x
  rw [destroyOne_events] at hev
  rcases List.mem_append.mp hev with h3 | htail
  · rcases List.mem_append.mp h3 with h2 | hmap
    · rcases List.mem_append.mp h2 with hdc | hdn
      · split at hdc
        · have := List.mem_singleton.mp hdc
          subst this
          rfl
        · exact absurd hdc (List.not_mem_nil ev)
      · have := List.mem_singleton.mp hdn
        subst this
        rfl
    · obtain ⟨p, hp, hpe⟩ := List.mem_map.mp hmap
      subst hpe
      rfl
  · rcases List.mem_cons.mp htail with rfl | htail2
    · rfl
    · rcases List.mem_cons.mp htail2 with rfl | htail3
      · rfl
      · have := List.mem_singleton.mp htail3
        subst this
        rfl

theorem destroyOne_filter_ne (w : WorldState) (a e : Nat) (hne : a ≠ e) :
    ((w.destroyOne a).2).filter (evAbout e) = [] := by
  rw [List.filter_eq_nil_iff]
  intro ev hev
  rw [destroyOne_events_about w a ev hev e]
  simp [hne]

theorem destroyList_filter_not_mem (es : List Nat) :
    ∀ (w : WorldState) (e : Nat), e ∉ es →
      ((w.destroyList es).2).filter (evAbout e) = [] := by
  induction es with
  | nil => intro w e _; rfl
  | cons a rest ih =>
    intro w e he
    have hne : a ≠ e := by
      intro hc
      exact he (by rw [← hc] at *; exact List.mem_cons_self a rest)
    have hsplit : ((w.destroyList (a :: rest)).2).filter (evAbout e)
        = ((w.destroyOne a).2).filter (evAbout e)
          ++ ((((w.destroyOne a).1).destroyList rest).2).filter (evAbout e) := by
      show ((w.destroyOne a).2 ++ (((w.destroyOne a).1).destroyList rest).2).filter
        (evAbout e) = _
      rw [List.filter_append]
    rw [hsplit, destroyOne_filter_ne w a e hne,
      ih ((w.destroyOne a).1) e (fun h2 => he (List.mem_cons_of_mem a h2))]
    rfl

/-- Projecting the event trace of a whole drain onto one drained entity
recovers exactly that entity's destruction block, in order. -/
theorem destroyList_events_filter (es : List Nat) :
    ∀ (w : WorldState) (e : Nat), e ∈ es → es.Nodup →
      ∃ removes : List Ev,
        ((w.destroyList es).2).filter (evAbout e)
          = (if w.deathCallbackRegistered then [Ev.deathCb e] else [])
            ++ [Ev.destroyNotify e] ++ removes
            ++ [Ev.unparentEv e, Ev.recycle e, Ev.clearStorage e]
        ∧ ∀ ev ∈ removes, ∃ i ms, ev = Ev.onRemove i e ms := by
  induction es with
  | nil =>
    intro w e he
    cases he
  | cons a rest ih =>
    intro w e he hnd
    have hsplit : ((w.destroyList (a :: rest)).2).filter (evAbout e)
        = ((w.destroyOne a).2).filter (evAbout e)
          ++ ((((w.destroyOne a).1).destroyList rest).2).filter (evAbout e) := by
      show ((w.destroyOne a).2 ++ (((w.destroyOne a).1).destroyList rest).2).filter
        (evAbout e) = _
      rw [List.filter_append]
    rcases List.mem_cons.mp he with rfl | he2
    · have hrest0 : ((((w.destroyOne e).1).destroyList rest).2).filter (evAbout e) = [] :=
        destroyList_filter_not_mem rest ((w.destroyOne e).1) e (List.nodup_cons.mp hnd).1
      have hblock : ((w.destroyOne e).2).filter (evAbout e) = (w.destroyOne e).2 := by
        rw [List.filter_eq_self]
        intro ev hev
        rw [destroyOne_events_about w e ev hev e]
        simp
      refine ⟨((w.systems.enumFrom 0).filter
          (fun p => p.2.mEntities.contains e && p.2.sdef.hasMonitor)).map
          (fun p => Ev.onRemove p.1 e (p.2.mEntities.erase e)), ?_, ?_⟩
      · rw [hsplit, hrest0, List.append_nil, hblock, destroyOne_events]
      · intro ev hev
        obtain ⟨p, hp, hpe⟩ := List.mem_map.mp hev
        exact ⟨p.1, p.2.mEntities.erase e, hpe.symm⟩
    · have hne : a ≠ e := by
        intro hc
        subst hc
        exact (List.nodup_cons.mp hnd).1 he2
      have ha0 : ((w.destroyOne a).2).filter (evAbout e) = [] :=
        destroyOne_filter_ne w a e hne
      obtain ⟨removes, h1, h2⟩ := ih ((w.destroyOne a).1) e he2 (List.nodup_cons.mp hnd).2
      rw [hsplit, ha0, List.nil_append]
      exact ⟨removes, h1, h2⟩

end WorldState

end WhalECS

namespace WhalECS

namespace WorldState

theorem killPass_mToKill (w : WorldState) : (w.killPass).1.mToKill = [] := by
  show w.mToKill.foldl (fun acc e => acc.erase e)
      (destroyList { w with
        mKilledThisFrame := w.mToKill.foldl insertUnique w.mKilledThisFrame
        mToKill := [] } w.mToKill).1.mToKill = []
  rw [destroyList_mToKill]
  exact foldl_erase_nil w.mToKill

theorem killPass_mKilledThisFrame (w : WorldState) :
    (w.killPass).1.mKilledThisFrame
      = w.mToKill.foldl insertUnique w.mKilledThisFrame := by
  show (destroyList { w with
      mKilledThisFrame := w.mToKill.foldl insertUnique w.mKilledThisFrame
      mToKill := [] } w.mToKill).1.mKilledThisFrame = _
  rw [destroyList_mKilledThisFrame]

/-- One drain pass empties the queued snapshot, records it in the
killed-this-frame set, destroys every snapshotted entity, and its event trace
projected onto any snapshotted entity is that entity's ordered destruction
block. -/
theorem killPass_spec (w : WorldState)
    (hwf : ∀ t, ComponentArray.WF (w.arrays t))
    (hnd : ∀ ss ∈ w.systems, ss.mEntities.Nodup)
    (hknd : w.mToKill.Nodup) :
    (w.killPass).1.mToKill = []
    ∧ (∀ e ∈ w.mToKill, e ∈ (w.killPass).1.mKilledThisFrame)
    ∧ (∀ e ∈ w.mToKill, Destroyed (w.killPass).1 e)
    ∧ (∀ e ∈ w.mToKill, ∃ removes : List Ev,
        ((w.killPass).2).filter (evAbout e)
          = (if w.deathCallbackRegistered then [Ev.deathCb e] else [])
            ++ [Ev.destroyNotify e] ++ removes
            ++ [Ev.unparentEv e, Ev.recycle e, Ev.clearStorage e]
        ∧ ∀ ev ∈ removes, ∃ i ms, ev = Ev.onRemove i e ms) := by
  refine ⟨killPass_mToKill w, ?_, ?_, ?_⟩
  · intro e he
    rw [killPass_mKilledThisFrame]
    exact mem_foldl_insertUnique w.mToKill w.mKilledThisFrame e (Or.inr he)
  · intro e he
    have hd := destroyList_destroys w.mToKill
      { w with
        mKilledThisFrame := w.mToKill.foldl insertUnique w.mKilledThisFrame
        mToKill := [] } hwf hnd e he
    exact hd
  · intro e he
    obtain ⟨removes, h1, h2⟩ := destroyList_events_filter w.mToKill
      { w with
        mKilledThisFrame := w.mToKill.foldl insertUnique w.mKilledThisFrame
        mToKill := [] } e he hknd
    exact ⟨removes, h1, h2⟩

/-- With enough fuel for the cascade plus the final emptiness check, the
drain loop terminates with an empty queue; all queued entities are destroyed
and recorded, and the trace is the concatenation of their destruction
blocks. -/
theorem opKillEntities_drains (w : WorldState) (fuel : Nat)
    (hwf : ∀ t, ComponentArray.WF (w.arrays t))
    (hnd : ∀ ss ∈ w.systems, ss.mEntities.Nodup)
    (hknd : w.mToKill.Nodup) :
    ∃ wl evs, killEntitiesLoop (fuel + 2) w = some (wl, evs)
      ∧ w.opKillEntities (fuel + 2) = some ({ wl with mKilledThisFrame := [] }, evs)
      ∧ wl.mToKill = []
      ∧ (∀ e ∈ w.mToKill, e ∈ wl.mKilledThisFrame)
      ∧ (∀ e ∈ w.mToKill, Destroyed wl e)
      ∧ (∀ e ∈ w.mToKill, ∃ removes : List Ev,
          evs.filter (evAbout e)
            = (if w.deathCallbackRegistered then [Ev.deathCb e] else [])
              ++ [Ev.destroyNotify e] ++ removes
              ++ [Ev.unparentEv e, Ev.recycle e, Ev.clearStorage e]
          ∧ ∀ ev ∈ removes, ∃ i ms, ev = Ev.onRemove i e ms) := by
  by_cases hemp : w.mToKill.isEmpty = true
  · have hnil : w.mToKill = [] := isEmpty_eq_nil hemp
    have hrun : killEntitiesLoop (fuel + 2) w = some (w, []) := by
      show (if w.mToKill.isEmpty then some (w, []) else _) = some (w, [])
      rw [if_pos hemp]
    refine ⟨w, [], hrun, ?_, hnil, ?_, ?_, ?_⟩
    · show (match killEntitiesLoop (fuel + 2) w with
        | none => none
        | some (w1, evs) => some ({ w1 with mKilledThisFrame := [] }, evs)) = _
      rw [hrun]
    · rw [hnil]
      intro e he
      cases he
    · rw [hnil]
      intro e he
      cases he
    · rw [hnil]
      intro e he
      cases he
  · have hpass := killPass_spec w hwf hnd hknd
    have hloopstep : killEntitiesLoop (fuel + 2) w
        = match killEntitiesLoop (fuel + 1) (w.killPass).1 with
          | none => none
          | some (w4, evs2) => some (w4, (w.killPass).2 ++ evs2) := by
      show (if w.mToKill.isEmpty then some (w, []) else _) = _
      rw [if_neg hemp]
    have hsecond : killEntitiesLoop (fuel + 1) (w.killPass).1
        = some ((w.killPass).1, []) := by
      show (if (w.killPass).1.mToKill.isEmpty then some ((w.killPass).1, []) else _) = _
      rw [if_pos (by rw [killPass_mToKill]; rfl)]
    have hrun : killEntitiesLoop (fuel + 2) w
        = some ((w.killPass).1, (w.killPass).2 ++ []) := by
      rw [hloopstep, hsecond]
    refine ⟨(w.killPass).1, (w.killPass).2 ++ [], hrun, ?_, hpass.1, hpass.2.1,
      hpass.2.2.1, ?_⟩
    · show (match killEntitiesLoop (fuel + 2) w with
        | none => none
        | some (w1, evs) => some ({ w1 with mKilledThisFrame := [] }, evs)) = _
      rw [hrun]
    · intro e he
      rw [List.append_nil]
      exact hpass.2.2.2 e he

end WorldState

end WhalECS

namespace WhalECS

/-- C3: `kill(e)` destroys nothing immediately — it only queues `e` and,
recursively along the hierarchy worklist, `e`'s descendants, leaving every
other field of the world untouched.  All destruction happens in
`killEntities()`: the drain loop (given fuel for the cascade plus the final
emptiness check) ends with an empty kill queue, records every drained entity
in the killed-this-frame set — cleared only after the whole cascade has
settled, as the `opKillEntities` wrapper equation shows — leaves every
drained entity fully destroyed (inactive, patterns reset, absent from every
membership set, id recycled, component storage cleared), and destroys each
entity in the order: death callback, system-destruction notification, monitor
remove callbacks, unparent, id recycle, component storage clear. -/
theorem c3_kill_deferred :
    (∀ (fuel : Nat) (ws : List Nat) (w w1 : WorldState),
        w.opKillList fuel ws = some w1 →
        w1 = { w with mToKill := w1.mToKill }
        ∧ (∀ x ∈ w.mToKill, x ∈ w1.mToKill)
        ∧ (∀ e ∈ ws, e ∈ w1.mToKill ∧ ∀ c ∈ w.parentToChildren e, c ∈ w1.mToKill))
    ∧ (∀ (fuel : Nat) (w : WorldState),
        (∀ t, ComponentArray.WF (w.arrays t)) →
        (∀ ss ∈ w.systems, ss.mEntities.Nodup) →
        w.mToKill.Nodup →
        ∃ wl evs,
          WorldState.killEntitiesLoop (fuel + 2) w = some (wl, evs)
          ∧ w.opKillEntities (fuel + 2) = some ({ wl with mKilledThisFrame := [] }, evs)
          ∧ wl.mToKill = []
          ∧ (∀ e ∈ w.mToKill, e ∈ wl.mKilledThisFrame)
          ∧ (∀ e ∈ w.mToKill,
              wl.mActiveEntities e = false
              ∧ wl.mPatterns e = 0
              ∧ wl.mTagPatterns e = 0
              ∧ (∀ ss ∈ wl.systems, ss.mEntities.contains e = false)
              ∧ e ∈ wl.mAvailableIDs
              ∧ (∀ t, wl.registeredTypes.contains t = true →
                  (t == wl.idTraitUsers) = false → (wl.arrays t).hasData e = false))
          ∧ (∀ e ∈ w.mToKill, ∃ removes : List Ev,
              evs.filter (evAbout e)
                = (if w.deathCallbackRegistered then [Ev.deathCb e] else [])
                  ++ [Ev.destroyNotify e] ++ removes
                  ++ [Ev.unparentEv e, Ev.recycle e, Ev.clearStorage e]
              ∧ ∀ ev ∈ removes, ∃ i ms, ev = Ev.onRemove i e ms)) := by
  constructor
  · exact WorldState.opKillList_spec
  · intro fuel w hwf hnd hknd
    obtain ⟨wl, evs, h1, h2, h3, h4, h5, h6⟩ :=
      WorldState.opKillEntities_drains w fuel hwf hnd hknd
    exact ⟨wl, evs, h1, h2, h3, h4, fun e he => h5 e he, h6⟩

set_option maxRecDepth 40000 in
/-- C3 witness: in a world with entity 1 already queued, killing entity 2
only queues it (both stay queued, nothing else changes), and the
`killEntities` drain then empties the queue, marks 1 killed-this-frame
(cleared in the returned state), deactivates 1 and recycles its id. -/
theorem c3_witness :
    (({ emptyWorld with mToKill := [1] } : WorldState).opKillList 2 [2]
        = some { emptyWorld with mToKill := [1, 2] }
      ∧ (2 : Nat) ∈ ([1, 2] : List Nat) ∧ (1 : Nat) ∈ ([1, 2] : List Nat))
    ∧ (∃ wl evs,
        WorldState.killEntitiesLoop 3 { emptyWorld with mToKill := [1] }
          = some (wl, evs)
        ∧ ({ emptyWorld with mToKill := [1] } : WorldState).opKillEntities 3
            = some ({ wl with mKilledThisFrame := [] }, evs)
        ∧ wl.mToKill = [] ∧ (1 : Nat) ∈ wl.mKilledThisFrame
        ∧ wl.mActiveEntities 1 = false ∧ (1 : Nat) ∈ wl.mAvailableIDs) := by
  constructor
  · have h := c3_kill_deferred.1 2 [2] { emptyWorld with mToKill := [1] }
      { emptyWorld with mToKill := [1, 2] } rfl
    refine ⟨rfl, ?_, ?_⟩
    · exact (h.2.2 2 (by simp)).1
    · exact h.2.1 1 (by simp)
  · obtain ⟨wl, evs, h1, h2, h3, h4, h5, h6⟩ :=
      c3_kill_deferred.2 1 { emptyWorld with mToKill := [1] }
        (fun t => ComponentArray.wf_init)
        (fun ss hss => absurd hss (List.not_mem_nil ss))
        (by simp)
    exact ⟨wl, evs, h1, h2, h3, h4 1 (by simp), (h5 1 (by simp)).1,
      (h5 1 (by simp)).2.2.2.2.1⟩

end WhalECS

namespace WhalECS

/-! ### Claim C1 -/

theorem contains_iff_mem {l : List Nat} {x : Nat} : l.contains x = true ↔ x ∈ l := by
  simp

theorem mem_insertUnique_iff {l : List Nat} {x y : Nat} :
    y ∈ insertUnique l x ↔ y ∈ l ∨ y = x := by
  rw [insertUnique]
  split_ifs with h
  · constructor
    · exact Or.inl
    · rintro (h2 | rfl)
      · exact h2
      · simpa using h
  · simp [List.mem_append]

theorem nodup_insertUnique {l : List Nat} (x : Nat) (h : l.Nodup) :
    (insertUnique l x).Nodup := by
  rw [insertUnique]
  split_ifs with hc
  · exact h
  · have hx : x ∉ l := by simpa using hc
    refine List.Nodup.append h (List.nodup_singleton x) ?_
    intro a ha hb
    rw [List.mem_singleton] at hb
    subst hb
    exact hx ha

theorem claimC1Match_congr (w0 w1 : WorldState) (sd : SystemDef) (x : Nat)
    (hact : w1.mActiveEntities x = w0.mActiveEntities x)
    (hpat : w1.mPatterns x = w0.mPatterns x)
    (htag : w1.mTagPatterns x = w0.mTagPatterns x) :
    claimC1Match w1 sd x = claimC1Match w0 sd x := by
  rw [claimC1Match, claimC1Match, hact, hpat, htag]

theorem active_of_claimC1Match {w : WorldState} {sd : SystemDef} {x : Nat}
    (h : claimC1Match w sd x = true) : w.mActiveEntities x = true := by
  rw [claimC1Match] at h
  cases hA : w.mActiveEntities x
  · rw [hA] at h
    simp at h
  · rfl

theorem claimC1Match_false_of_inactive {w : WorldState} {sd : SystemDef} {x : Nat}
    (h : w.mActiveEntities x = false) : claimC1Match w sd x = false := by
  rw [claimC1Match, h]
  rfl

/-- For a trait-free system the code's match predicate is exactly the four
containment clauses (and reads nothing else from the world). -/
theorem isPatternInSystem_no_traits (w : WorldState) (sd : SystemDef)
    (h : sd.mTraits = []) (p tp : Pattern) :
    w.isPatternInSystem sd p tp
      = (Pattern.contains sd.mPattern p && Pattern.contains sd.mTagPattern tp
         && Pattern.containsNone sd.mAntiPattern p
         && Pattern.containsNone sd.mTagAntiPattern tp) := by
  rw [WorldState.isPatternInSystem, h]
  rfl

theorem claimC1Match_eq_active_and_match (w : WorldState) (sd : SystemDef) (e : Nat)
    (h : sd.mTraits = []) :
    claimC1Match w sd e
      = (w.mActiveEntities e
         && w.isPatternInSystem sd (w.mPatterns e) (w.mTagPatterns e)) := by
  rw [claimC1Match, isPatternInSystem_no_traits w sd h]
  cases w.mActiveEntities e <;> simp [Bool.and_assoc]

theorem membersIff_eqfields {w0 w1 : WorldState}
    (hsys : w1.systems = w0.systems)
    (hact : w1.mActiveEntities = w0.mActiveEntities)
    (hpat : w1.mPatterns = w0.mPatterns)
    (htag : w1.mTagPatterns = w0.mTagPatterns)
    (h : MembersIff w0) : MembersIff w1 := by
  intro ss hss htr hec e
  rw [claimC1Match_congr w0 w1 ss.sdef e (congrFun hact e) (congrFun hpat e)
    (congrFun htag e)]
  exact h ss (hsys ▸ hss) htr hec e

theorem membersNodup_eqfields {w0 w1 : WorldState} (hsys : w1.systems = w0.systems)
    (h : MembersNodup w0) : MembersNodup w1 := by
  intro ss hss
  exact h ss (hsys ▸ hss)

/-- A pattern change of an *inactive* entity (no notification fires) keeps
the invariant: the entity matches no system before or after, and was not a
member. -/
theorem membersIff_skip (w0 w1 : WorldState) (e : Nat)
    (hsys : w1.systems = w0.systems)
    (hact : w1.mActiveEntities = w0.mActiveEntities)
    (hacte : w1.mActiveEntities e = false)
    (hpatx : ∀ x, x ≠ e → w1.mPatterns x = w0.mPatterns x)
    (htagx : ∀ x, x ≠ e → w1.mTagPatterns x = w0.mTagPatterns x)
    (h : MembersIff w0) : MembersIff w1 := by
  intro ss hss htr hec x
  have h0 := h ss (hsys ▸ hss) htr hec x
  by_cases hx : x = e
  · subst hx
    constructor
    · intro hmem
      have h1 := active_of_claimC1Match (h0.mp hmem)
      have h2 : w1.mActiveEntities x = true := by rw [hact]; exact h1
      rw [hacte] at h2
      cases h2
    · intro hmatch
      have h1 := active_of_claimC1Match hmatch
      rw [hacte] at h1
      cases h1
  · rw [claimC1Match_congr w0 w1 ss.sdef x (congrFun hact x) (hpatx x hx) (htagx x hx)]
    exact h0

theorem nonSyncEq_refl (w : WorldState) : NonSyncEq w w := ⟨rfl, rfl, rfl, rfl, rfl⟩

theorem nonSyncEq_trans {w w1 w2 : WorldState} (a : NonSyncEq w w1)
    (b : NonSyncEq w1 w2) : NonSyncEq w w2 :=
  ⟨b.1.trans a.1, b.2.1.trans a.2.1, b.2.2.1.trans a.2.2.1,
   b.2.2.2.1.trans a.2.2.2.1, b.2.2.2.2.trans a.2.2.2.2⟩

/-- Rebuild the bookkeeping invariant after an operation that only touched
patterns, trait users and membership sets. -/
theorem syncInv_of_nonSyncEq {w w1 : WorldState} (hs : SyncInv w)
    (heq : NonSyncEq w w1) (hIff : MembersIff w1) (hNd : MembersNodup w1) :
    SyncInv w1 := by
  obtain ⟨h1, h2, h3, h4, h5⟩ := heq
  refine ⟨hNd, ?_, ?_, ?_, ?_, ?_, ?_, ?_, ?_, ?_, hIff⟩
  · rw [h1]
    exact hs.freeNz
  · rw [h1]
    exact hs.freeNodup
  · rw [h1, h2]
    exact hs.freeInactive
  · rw [h1, h4]
    exact hs.freeNoChild
  · rw [h4]
    exact hs.childNodup
  · rw [h4]
    exact hs.childNz
  · rw [h4, h3]
    exact hs.childParent
  · rw [h5]
    exact hs.killNodup
  · rw [h5, h1]
    exact hs.killLive

end WhalECS

namespace WhalECS

theorem tryRemoveChildren_nodup (env : WorldState) (i : Nat) (hasMon : Bool) :
    ∀ (fuel : Nat) (ws ms ms2 : List Nat) (evs : List Ev),
      WorldState.tryRemoveChildren env i hasMon fuel ws ms = some (ms2, evs) →
      ms.Nodup → ms2.Nodup := by
  intro fuel
  induction fuel with
  | zero =>
    intro ws ms ms2 evs h hnd
    rw [WorldState.tryRemoveChildren] at h
    split_ifs at h with hws
    cases h
    exact hnd
  | succ fuel ih =>
    intro ws ms ms2 evs h hnd
    match ws with
    | [] =>
      rw [WorldState.tryRemoveChildren] at h
      cases h
      exact hnd
    | c :: rest =>
      rw [WorldState.tryRemoveChildren] at h
      split at h
      · exact ih rest ms ms2 evs h hnd
      · split at h
        · simp only [] at h
          rcases hm : WorldState.tryRemoveChildren env i hasMon fuel
              (env.parentToChildren c ++ rest) (ms.erase c) with - | r
          · rw [hm] at h
            cases h
          · obtain ⟨ms3, evs3⟩ := r
            rw [hm] at h
            cases h
            exact ih _ _ _ _ hm (hnd.erase c)
        · exact ih rest ms ms2 evs h hnd

/-- `checkIfInSystem` never changes the system definition and keeps the
membership set duplicate-free. -/
theorem checkIfInSystem_shape (env : WorldState) (fuel i : Nat) (ss : SystemState)
    (e : Nat) (p tp : Pattern) (isIn : Bool) (ss1 : SystemState) (evs : List Ev)
    (h : WorldState.checkIfInSystem env fuel i ss e p tp isIn = some (ss1, evs)) :
    ss1.sdef = ss.sdef ∧ (ss.mEntities.Nodup → ss1.mEntities.Nodup) := by
  rw [WorldState.checkIfInSystem] at h
  simp only [] at h
  split at h
  · split at h
    · cases h
      exact ⟨rfl, fun hnd => hnd⟩
    · split at h
      · cases h
      · split at h
        · rcases hm : WorldState.tryRemoveChildren env i ss.sdef.hasMonitor fuel
              (env.parentToChildren e) (insertUnique ss.mEntities e) with - | r
          · rw [hm] at h
            cases h
          · obtain ⟨ms2, evs2⟩ := r
            rw [hm] at h
            cases h
            exact ⟨rfl, fun hnd =>
              tryRemoveChildren_nodup env i ss.sdef.hasMonitor fuel _ _ _ _ hm
                (nodup_insertUnique e hnd)⟩
        · cases h
          exact ⟨rfl, fun hnd => nodup_insertUnique e hnd⟩
  · split at h
    · cases h
      exact ⟨rfl, fun hnd => hnd.erase e⟩
    · cases h
      exact ⟨rfl, fun hnd => hnd⟩

/-- For a trait-free system without the exclude-children attribute,
`checkIfInSystem` (on a success) rewrites the membership of exactly the
checked entity to the code's match verdict and keeps every other entity's
membership. -/
theorem checkIfInSystem_plain (env : WorldState) (fuel i : Nat) (ss : SystemState)
    (e : Nat) (p tp : Pattern) (ss1 : SystemState) (evs : List Ev)
    ( _htr : ss.sdef.mTraits = []) (hec : ss.sdef.attrs &&& ExcludeChildren = 0)
    (hnd : ss.mEntities.Nodup)
    (h : WorldState.checkIfInSystem env fuel i ss e p tp (ss.mEntities.contains e)
        = some (ss1, evs)) :
    ∀ x, x ∈ ss1.mEntities ↔
      ((x = e ∧ env.isPatternInSystem ss.sdef p tp = true)
       ∨ (x ≠ e ∧ x ∈ ss.mEntities)) := by
  rw [WorldState.checkIfInSystem] at h
  simp only [] at h
  have hex : (((ss.sdef.attrs &&& ExcludeChildren) != 0)
      && !(env.hasOverrideIgnoreChildren e)
      && env.isMatch ss.sdef (env.childToParent e)) = false := by
    rw [hec]
    rfl
  cases hm : env.isPatternInSystem ss.sdef p tp with
  | true =>
    have hcond : (env.isPatternInSystem ss.sdef p tp
        && !(((ss.sdef.attrs &&& ExcludeChildren) != 0)
          && !(env.hasOverrideIgnoreChildren e)
          && env.isMatch ss.sdef (env.childToParent e))) = true := by
      rw [hm, hex]
      rfl
    rw [if_pos hcond] at h
    cases hin : ss.mEntities.contains e with
    | true =>
      rw [if_pos hin] at h
      cases h
      intro x
      by_cases hx : x = e
      · subst hx
        constructor
        · intro _
          exact Or.inl ⟨rfl, rfl⟩
        · intro _
          exact contains_iff_mem.mp hin
      · constructor
        · intro hmem
          exact Or.inr ⟨hx, hmem⟩
        · rintro (⟨rfl, -⟩ | ⟨-, hmem⟩)
          · exact absurd rfl hx
          · exact hmem
    | false =>
      rw [if_neg (by rw [hin]; simp)] at h
      split at h
      · cases h
      · rw [if_neg (by rw [hec]; simp)] at h
        cases h
        intro x
        show x ∈ insertUnique ss.mEntities e ↔ _
        rw [mem_insertUnique_iff]
        constructor
        · rintro (hmem | rfl)
          · by_cases hx : x = e
            · subst hx
              exact Or.inl ⟨rfl, rfl⟩
            · exact Or.inr ⟨hx, hmem⟩
          · exact Or.inl ⟨rfl, rfl⟩
        · rintro (⟨rfl, -⟩ | ⟨-, hmem⟩)
          · exact Or.inr rfl
          · exact Or.inl hmem
  | false =>
    rw [if_neg (by rw [hm]; simp)] at h
    cases hin : ss.mEntities.contains e with
    | true =>
      rw [if_pos hin] at h
      cases h
      intro x
      show x ∈ ss.mEntities.erase e ↔ _
      rw [List.Nodup.mem_erase_iff hnd]
      constructor
      · rintro ⟨hx, hmem⟩
        exact Or.inr ⟨hx, hmem⟩
      · rintro (⟨rfl, hmt⟩ | ⟨hx, hmem⟩)
        · cases hmt
        · exact ⟨hx, hmem⟩
    | false =>
      rw [if_neg (by rw [hin]; simp)] at h
      cases h
      intro x
      constructor
      · intro hmem
        by_cases hx : x = e
        · subst hx
          exact absurd (contains_iff_mem.mpr hmem) (by rw [hin]; simp)
        · exact Or.inr ⟨hx, hmem⟩
      · rintro (⟨rfl, hmt⟩ | ⟨-, hmem⟩)
        · cases hmt
        · exact hmem

/-- The per-system content of one `onEntityPatternChanged` pass, from system
index `i` on. -/
theorem checkSystemsFrom_sync (env : WorldState) (fuel e : Nat) (p tp : Pattern) :
    ∀ (l : List SystemState) (i : Nat) (l1 : List SystemState) (evs : List Ev),
      WorldState.checkSystemsFrom env fuel e p tp i l = some (l1, evs) →
      (∀ ss ∈ l, ss.mEntities.Nodup) →
      (∀ ss1 ∈ l1, ss1.mEntities.Nodup)
      ∧ (∀ ss1 ∈ l1, ∃ ss, ss ∈ l ∧ ss1.sdef = ss.sdef
          ∧ (ss.sdef.mTraits = [] → ss.sdef.attrs &&& ExcludeChildren = 0 →
             ∀ x, x ∈ ss1.mEntities ↔
               ((x = e ∧ env.isPatternInSystem ss.sdef p tp = true)
                ∨ (x ≠ e ∧ x ∈ ss.mEntities)))) := by
  intro l
  induction l with
  | nil =>
    intro i l1 evs h hnd
    rw [WorldState.checkSystemsFrom] at h
    cases h
    exact ⟨fun ss1 h1 => absurd h1 (List.not_mem_nil ss1),
      fun ss1 h1 => absurd h1 (List.not_mem_nil ss1)⟩
  | cons ss rest ih =>
    intro i l1 evs h hnd
    rw [WorldState.checkSystemsFrom] at h
    rcases h1 : WorldState.checkIfInSystem env fuel i ss e p tp
        (ss.mEntities.contains e) with - | r1
    · rw [h1] at h
      cases h
    · obtain ⟨ss1, evs1⟩ := r1
      rw [h1] at h
      simp only [] at h
      rcases h2 : WorldState.checkSystemsFrom env fuel e p tp (i + 1) rest with - | r2
      · rw [h2] at h
        cases h
      · obtain ⟨rest1, evs2⟩ := r2
        rw [h2] at h
        cases h
        have hnds := hnd ss (List.mem_cons_self ss rest)
        have hndrest : ∀ s2 ∈ rest, s2.mEntities.Nodup :=
          fun s2 hs2 => hnd s2 (List.mem_cons_of_mem ss hs2)
        obtain ⟨ihnd, ihcorr⟩ := ih (i + 1) rest1 evs2 h2 hndrest
        have hshape := checkIfInSystem_shape env fuel i ss e p tp
          (ss.mEntities.contains e) ss1 evs1 h1
        constructor
        · intro s1 hs1
          rcases List.mem_cons.mp hs1 with rfl | hs1r
          · exact hshape.2 hnds
          · exact ihnd s1 hs1r
        · intro s1 hs1
          rcases List.mem_cons.mp hs1 with rfl | hs1r
          · refine ⟨ss, List.mem_cons_self ss rest, hshape.1, ?_⟩
            intro htr hec x
            exact checkIfInSystem_plain env fuel i ss e p tp s1 evs1 htr hec hnds h1 x
          · obtain ⟨ss0, hss0, hsd, hcorr⟩ := ihcorr s1 hs1r
            exact ⟨ss0, List.mem_cons_of_mem ss hss0, hsd, hcorr⟩

/-- A pattern-change notification for an active entity restores the claim-C1
invariant: afterwards the notified entity's membership in every plain system
is the code's match verdict on its new patterns, and every other membership
is untouched. -/
theorem membersIff_after_notify (w0 w1 w2 : WorldState) (fuel e : Nat)
    (p tp : Pattern) (evs : List Ev)
    (hsys : w1.systems = w0.systems)
    (hactx : ∀ x, x ≠ e → w1.mActiveEntities x = w0.mActiveEntities x)
    (hpatx : ∀ x, x ≠ e → w1.mPatterns x = w0.mPatterns x)
    (htagx : ∀ x, x ≠ e → w1.mTagPatterns x = w0.mTagPatterns x)
    (hacte : w1.mActiveEntities e = true)
    (hpe : w1.mPatterns e = p) (hte : w1.mTagPatterns e = tp)
    (hIff : MembersIff w0) (hNd : MembersNodup w0)
    (h : WorldState.onEntityPatternChanged w1 fuel e p tp = some (w2, evs)) :
    MembersIff w2 ∧ MembersNodup w2 ∧ w2 = { w1 with systems := w2.systems } := by
  rw [WorldState.onEntityPatternChanged] at h
  rcases hm : WorldState.checkSystemsFrom w1 fuel e p tp 0 w1.systems with - | r
  · rw [hm] at h
    cases h
  · obtain ⟨sys1, evs1⟩ := r
    rw [hm] at h
    cases h
    have hnd1 : ∀ ss ∈ w1.systems, ss.mEntities.Nodup := by
      rw [hsys]
      exact hNd
    obtain ⟨hnds, hcorr⟩ := checkSystemsFrom_sync w1 fuel e p tp w1.systems 0 sys1 evs
      hm hnd1
    refine ⟨?_, ?_, rfl⟩
    · intro ss1 hss1 htr1 hec1 x
      obtain ⟨ss0, hss0, hsd, hcorr1⟩ := hcorr ss1 hss1
      have hss0w0 : ss0 ∈ w0.systems := by
        rw [← hsys]
        exact hss0
      rw [hsd] at htr1 hec1
      have hiffx := hcorr1 htr1 hec1 x
      have hmain : x ∈ ss1.mEntities ↔ claimC1Match w1 ss0.sdef x = true := by
        rw [hiffx]
        by_cases hx : x = e
        · subst hx
          have hcm : claimC1Match w1 ss0.sdef x
              = w1.isPatternInSystem ss0.sdef p tp := by
            rw [claimC1Match_eq_active_and_match w1 ss0.sdef x htr1, hacte, hpe, hte]
            rfl
          rw [hcm]
          constructor
          · rintro (⟨-, hmt⟩ | ⟨hne, -⟩)
            · exact hmt
            · exact absurd rfl hne
          · intro hmt
            exact Or.inl ⟨rfl, hmt⟩
        · rw [claimC1Match_congr w0 w1 ss0.sdef x (hactx x hx) (hpatx x hx) (htagx x hx)]
          have h0 := hIff ss0 hss0w0 htr1 hec1 x
          rw [contains_iff_mem] at h0
          constructor
          · rintro (⟨rfl, -⟩ | ⟨-, hmem⟩)
            · exact absurd rfl hx
            · exact h0.mp hmem
          · intro hcm
            exact Or.inr ⟨hx, h0.mpr hcm⟩
      rw [contains_iff_mem, hsd]
      exact hmain
    · intro ss1 hss1
      exact hnds ss1 hss1

end WhalECS

namespace WhalECS

/-- The shared "update one entity's pattern, then notify the systems if the
entity is active" stage of the `addToMgr`/`removeFromMgr` cluster preserves
the claim-C1 invariant. -/
theorem notifyStage_ok (w wp : WorldState) (fuel e : Nat) (p tp : Pattern)
    (w2 : WorldState) (evs1 : List Ev)
    (h : (if wp.mActiveEntities e then
        WorldState.onEntityPatternChanged wp fuel e p tp
      else some (wp, [])) = some (w2, evs1))
    (hIff : MembersIff w) (hNd : MembersNodup w)
    (hsys : wp.systems = w.systems)
    (hact : wp.mActiveEntities = w.mActiveEntities)
    (hpatx : ∀ x, x ≠ e → wp.mPatterns x = w.mPatterns x)
    (htagx : ∀ x, x ≠ e → wp.mTagPatterns x = w.mTagPatterns x)
    (hpe : wp.mPatterns e = p) (hte : wp.mTagPatterns e = tp)
    (heq : NonSyncEq w wp) :
    MembersIff w2 ∧ MembersNodup w2 ∧ NonSyncEq w w2 := by
  cases hb : wp.mActiveEntities e with
  | true =>
    rw [if_pos hb] at h
    obtain ⟨h1, h2, h3⟩ := membersIff_after_notify w wp w2 fuel e p tp evs1 hsys
      (fun x _ => congrFun hact x) hpatx htagx hb hpe hte hIff hNd h
    refine ⟨h1, h2, nonSyncEq_trans heq ⟨?_, ?_, ?_, ?_, ?_⟩⟩
    · rw [h3]
    · rw [h3]
    · rw [h3]
    · rw [h3]
    · rw [h3]
  | false =>
    rw [if_neg (by rw [hb]; simp)] at h
    cases h
    refine ⟨?_, ?_, heq⟩
    · exact membersIff_skip w wp e hsys hact hb hpatx htagx hIff
    · exact membersNodup_eqfields hsys hNd

theorem membersIff_setTraitUsers (w : WorldState)
    (f : Nat → Option (Pattern × Pattern)) (hIff : MembersIff w) :
    MembersIff { w with traitUsers := f } :=
  membersIff_eqfields rfl rfl rfl rfl hIff

theorem membersNodup_setTraitUsers (w : WorldState)
    (f : Nat → Option (Pattern × Pattern)) (hNd : MembersNodup w) :
    MembersNodup { w with traitUsers := f } :=
  membersNodup_eqfields rfl hNd

theorem removeTraitImplementer_eq {w w3 : WorldState} {trait : Nat}
    (h : WorldState.removeTraitImplementer w trait = some w3) : w3 = w := by
  rw [WorldState.removeTraitImplementer] at h
  split at h
  · cases h
  · cases h
    rfl

/-- The whole `addToMgr`/`addTagToMgr`/`addTraitImplementer` cluster
preserves the claim-C1 invariant and touches only the patterns, the trait
users and the membership sets. -/
theorem mgrStep_ok :
    ∀ (fuel : Nat) (c : WorldState.MgrCall) (w w1 : WorldState) (evs : List Ev),
      MembersIff w → MembersNodup w →
      w.mgrStep fuel c = some (w1, evs) →
      MembersIff w1 ∧ MembersNodup w1 ∧ NonSyncEq w w1 := by
  intro fuel
  induction fuel with
  | zero =>
    intro c w w1 evs _ _ h
    rw [WorldState.mgrStep] at h
    cases h
  | succ fuel ih =>
    intro c w w1 evs hIff hNd h
    match c with
    | WorldState.MgrCall.addComp e t =>
      rw [WorldState.mgrStep] at h
      split at h
      · cases h
        exact ⟨hIff, hNd, nonSyncEq_refl w⟩
      · simp only [] at h
        set wp : WorldState := { w with mPatterns := fun x =>
          if x = e then (w.mPatterns e).setBit t else w.mPatterns x } with hwp
        split at h
        · cases h
        · rename_i w2 evs1 hm
          obtain ⟨hIff2, hNd2, heq2⟩ := notifyStage_ok w wp fuel e _ _ w2 evs1 hm
            hIff hNd rfl rfl (fun x hx => if_neg hx) (fun x _ => rfl) (if_pos rfl) rfl
            ⟨rfl, rfl, rfl, rfl, rfl⟩
          split at h
          · split at h
            · cases h
            · rename_i selfId htg
              split at h
              · split at h
                · cases h
                · rename_i w3 evs2 hrec
                  obtain ⟨hIff3, hNd3, heq3⟩ := ih _ w2 w3 evs2 hIff2 hNd2 hrec
                  cases h
                  exact ⟨hIff3, hNd3, nonSyncEq_trans heq2 heq3⟩
              · cases h
                exact ⟨hIff2, hNd2, heq2⟩
          · split at h
            · split at h
              · cases h
              · rename_i selfId htg
                split at h
                · split at h
                  · cases h
                  · rename_i w3 evs2 hrec
                    obtain ⟨hIff3, hNd3, heq3⟩ := ih _ w2 w3 evs2 hIff2 hNd2 hrec
                    cases h
                    exact ⟨hIff3, hNd3, nonSyncEq_trans heq2 heq3⟩
                · cases h
                  exact ⟨hIff2, hNd2, heq2⟩
            · cases h
              exact ⟨hIff2, hNd2, heq2⟩
    | WorldState.MgrCall.addTag e t =>
      rw [WorldState.mgrStep] at h
      split at h
      · cases h
        exact ⟨hIff, hNd, nonSyncEq_refl w⟩
      · simp only [] at h
        set wp : WorldState := { w with mTagPatterns := fun x =>
          if x = e then (w.mTagPatterns e).setBit t else w.mTagPatterns x } with hwp
        split at h
        · cases h
        · rename_i w2 evs1 hm
          obtain ⟨hIff2, hNd2, heq2⟩ := notifyStage_ok w wp fuel e _ _ w2 evs1 hm
            hIff hNd rfl rfl (fun x _ => rfl) (fun x hx => if_neg hx) rfl (if_pos rfl)
            ⟨rfl, rfl, rfl, rfl, rfl⟩
          split at h
          · split at h
            · cases h
            · rename_i selfId htg
              split at h
              · split at h
                · cases h
                · rename_i w3 evs2 hrec
                  obtain ⟨hIff3, hNd3, heq3⟩ := ih _ w2 w3 evs2 hIff2 hNd2 hrec
                  cases h
                  exact ⟨hIff3, hNd3, nonSyncEq_trans heq2 heq3⟩
              · cases h
                exact ⟨hIff2, hNd2, heq2⟩
          · split at h
            · split at h
              · cases h
              · rename_i selfId htg
                split at h
                · split at h
                  · cases h
                  · rename_i w3 evs2 hrec
                    obtain ⟨hIff3, hNd3, heq3⟩ := ih _ w2 w3 evs2 hIff2 hNd2 hrec
                    cases h
                    exact ⟨hIff3, hNd3, nonSyncEq_trans heq2 heq3⟩
                · cases h
                  exact ⟨hIff2, hNd2, heq2⟩
            · cases h
              exact ⟨hIff2, hNd2, heq2⟩
    | WorldState.MgrCall.addImplementer trait implId isTag =>
      rw [WorldState.mgrStep] at h
      split at h
      · rename_i tu htu
        simp only [] at h
        cases h
        exact ⟨membersIff_setTraitUsers w _ hIff, membersNodup_setTraitUsers w _ hNd,
          ⟨rfl, rfl, rfl, rfl, rfl⟩⟩
      · rename_i htu
        simp only [] at h
        obtain ⟨h1, h2, h3⟩ := ih _ _ w1 evs (membersIff_setTraitUsers w _ hIff)
          (membersNodup_setTraitUsers w _ hNd) h
        exact ⟨h1, h2, nonSyncEq_trans ⟨rfl, rfl, rfl, rfl, rfl⟩ h3⟩

end WhalECS

namespace WhalECS

theorem syncInv_setArrays (w : WorldState) (f : Nat → ComponentArray)
    (hs : SyncInv w) : SyncInv { w with arrays := f } :=
  ⟨hs.ndMembers, hs.freeNz, hs.freeNodup, hs.freeInactive, hs.freeNoChild,
   hs.childNodup, hs.childNz, hs.childParent, hs.killNodup, hs.killLive,
   hs.membersIff⟩

theorem syncInv_opAddComponent {w w1 : WorldState} {fuel e t v : Nat} {evs : List Ev}
    (hs : SyncInv w) (h : w.opAddComponent fuel e t v = some (w1, evs)) :
    SyncInv w1 := by
  rw [WorldState.opAddComponent] at h
  split at h
  · cases h
  · split at h
    · cases h
    · simp only [] at h
      have hsA : SyncInv { w with arrays := fun u =>
          if u = t then (w.arrays t).addData e v else w.arrays u } :=
        syncInv_setArrays w _ hs
      obtain ⟨h1, h2, h3⟩ := mgrStep_ok fuel _ _ w1 evs hsA.membersIff hsA.ndMembers h
      exact syncInv_of_nonSyncEq hsA h3 h1 h2

theorem syncInv_opAddTag {w w1 : WorldState} {fuel e t : Nat} {evs : List Ev}
    (hs : SyncInv w) (h : w.opAddTag fuel e t = some (w1, evs)) : SyncInv w1 := by
  rw [WorldState.opAddTag] at h
  split at h
  · cases h
  · obtain ⟨h1, h2, h3⟩ := mgrStep_ok fuel _ w w1 evs hs.membersIff hs.ndMembers h
    exact syncInv_of_nonSyncEq hs h3 h1 h2

theorem removeFromMgr_ok {w : WorldState} {fuel e t : Nat} {w2 : WorldState}
    {evs : List Ev}
    (hIff : MembersIff w) (hNd : MembersNodup w)
    (h : WorldState.removeFromMgr w fuel e t = some (w2, evs)) :
    MembersIff w2 ∧ MembersNodup w2 ∧ NonSyncEq w w2 := by
  rw [WorldState.removeFromMgr] at h
  simp only [] at h
  set wp : WorldState := { w with mPatterns := fun x =>
    if x = e then (w.mPatterns e).resetBit t else w.mPatterns x } with hwp
  split at h
  · cases h
  · rename_i w2' evs1 hm
    obtain ⟨hIff2, hNd2, heq2⟩ := notifyStage_ok w wp fuel e _ _ w2' evs1 hm
      hIff hNd rfl rfl (fun x hx => if_neg hx) (fun x _ => rfl) (if_pos rfl) rfl
      ⟨rfl, rfl, rfl, rfl, rfl⟩
    split at h
    · split at h
      · cases h
      · rename_i v0 htg
        split at h
        · split at h
          · cases h
          · rename_i w3 hrti
            have hw3 := removeTraitImplementer_eq hrti
            subst hw3
            cases h
            exact ⟨hIff2, hNd2, heq2⟩
        · cases h
          exact ⟨hIff2, hNd2, heq2⟩
    · split at h
      · split at h
        · cases h
        · rename_i v0 htg
          split at h
          · split at h
            · cases h
            · rename_i w3 hrti
              have hw3 := removeTraitImplementer_eq hrti
              subst hw3
              cases h
              exact ⟨hIff2, hNd2, heq2⟩
          · cases h
            exact ⟨hIff2, hNd2, heq2⟩
      · cases h
        exact ⟨hIff2, hNd2, heq2⟩

theorem syncInv_opRemoveComponent {w w1 : WorldState} {fuel e t : Nat} {evs : List Ev}
    (hs : SyncInv w) (h : w.opRemoveComponent fuel e t = some (w1, evs)) :
    SyncInv w1 := by
  rw [WorldState.opRemoveComponent] at h
  split at h
  · cases h
  · split at h
    · cases h
    · rename_i w2' evs' hr
      simp only [] at h
      obtain ⟨h1, h2, h3⟩ := removeFromMgr_ok hs.membersIff hs.ndMembers hr
      have hsw2 : SyncInv w2' := syncInv_of_nonSyncEq hs h3 h1 h2
      cases h
      split
      · exact syncInv_setArrays w2' _ hsw2
      · exact hsw2

theorem syncInv_opRemoveTag {w w1 : WorldState} {fuel e t : Nat} {evs : List Ev}
    (hs : SyncInv w) (h : w.opRemoveTag fuel e t = some (w1, evs)) : SyncInv w1 := by
  have h2 : WorldState.removeTagFromMgr w fuel e t = some (w1, evs) := h
  rw [WorldState.removeTagFromMgr] at h2
  simp only [] at h2
  obtain ⟨ha, hb, hc⟩ := notifyStage_ok w
    { w with mTagPatterns := fun x =>
        if x = e then (w.mTagPatterns e).resetBit t else w.mTagPatterns x }
    fuel e _ _ w1 evs h2 hs.membersIff hs.ndMembers rfl rfl (fun x _ => rfl)
    (fun x hx => if_neg hx) rfl (if_pos rfl) ⟨rfl, rfl, rfl, rfl, rfl⟩
  exact syncInv_of_nonSyncEq hs hc ha hb

end WhalECS

namespace WhalECS

/-- Removing a just-deactivated entity from every system (the `deactivate`
path) restores the claim-C1 invariant. -/
theorem membersIff_deactivate (w0 w1 : WorldState) (e : Nat)
    (hsys : w1.systems = w0.systems)
    (hactx : ∀ x, x ≠ e → w1.mActiveEntities x = w0.mActiveEntities x)
    (hacte : w1.mActiveEntities e = false)
    (hpatx : ∀ x, x ≠ e → w1.mPatterns x = w0.mPatterns x)
    (htagx : ∀ x, x ≠ e → w1.mTagPatterns x = w0.mTagPatterns x)
    (hIff : MembersIff w0) (hNd : MembersNodup w0) :
    MembersIff (w1.onEntityDestroyed e).1 ∧ MembersNodup (w1.onEntityDestroyed e).1 := by
  have hmap : (w1.onEntityDestroyed e).1.systems
      = w1.systems.map (fun ss => if ss.mEntities.contains e
          then { ss with mEntities := ss.mEntities.erase e } else ss) := by
    show (WorldState.destroySystemsFrom e 0 w1.systems).1 = _
    rw [WorldState.destroySystemsFrom_eq]
  have hndAll : ∀ ss ∈ w1.systems, ss.mEntities.Nodup := by
    rw [hsys]
    exact hNd
  constructor
  · intro ss1 hss1 htr hec x
    rw [hmap] at hss1
    obtain ⟨ss0, hss0, rfl⟩ := List.mem_map.mp hss1
    have hss0w0 : ss0 ∈ w0.systems := hsys ▸ hss0
    have hnd0 := hndAll ss0 hss0
    have hclaim_ne : ∀ hx : x ≠ e,
        claimC1Match w1 ss0.sdef x = claimC1Match w0 ss0.sdef x :=
      fun hx => claimC1Match_congr w0 w1 ss0.sdef x (hactx x hx) (hpatx x hx)
        (htagx x hx)
    by_cases hc : ss0.mEntities.contains e = true
    · rw [if_pos hc] at htr hec ⊢
      have h0 := hIff ss0 hss0w0 htr hec x
      rw [contains_iff_mem] at h0
      show (ss0.mEntities.erase e).contains x = true
        ↔ claimC1Match w1 ss0.sdef x = true
      rw [contains_iff_mem]
      by_cases hx : x = e
      · subst hx
        rw [claimC1Match_false_of_inactive hacte]
        constructor
        · intro hmem
          exact absurd rfl ((List.Nodup.mem_erase_iff hnd0).mp hmem).1
        · intro hfm
          cases hfm
      · rw [hclaim_ne hx]
        rw [List.Nodup.mem_erase_iff hnd0]
        constructor
        · rintro ⟨-, hmem⟩
          exact h0.mp hmem
        · intro hcm
          exact ⟨hx, h0.mpr hcm⟩
    · rw [if_neg hc] at htr hec ⊢
      have h0 := hIff ss0 hss0w0 htr hec x
      rw [contains_iff_mem] at h0
      show ss0.mEntities.contains x = true ↔ claimC1Match w1 ss0.sdef x = true
      rw [contains_iff_mem]
      by_cases hx : x = e
      · subst hx
        rw [claimC1Match_false_of_inactive hacte]
        constructor
        · intro hmem
          exact absurd (contains_iff_mem.mpr hmem) hc
        · intro hfm
          cases hfm
      · rw [hclaim_ne hx]
        exact h0
  · intro ss1 hss1
    rw [hmap] at hss1
    obtain ⟨ss0, hss0, rfl⟩ := List.mem_map.mp hss1
    have hnd0 := hndAll ss0 hss0
    by_cases hc : ss0.mEntities.contains e = true
    · rw [if_pos hc]
      exact hnd0.erase e
    · rw [if_neg hc]
      exact hnd0

/-- One element of the `World::activate` worklist (activation plus the
conditional notification) preserves the claim-C1 invariant, provided the
activated entity is not a recycled id. -/
theorem activateStep_ok (w w2 : WorldState) (fuel e : Nat) (evs1 : List Ev)
    (hs : SyncInv w) (heF : e ∉ w.mAvailableIDs)
    (hm : (if (w.emActivate e).2 then
        WorldState.onEntityPatternChanged (w.emActivate e).1 fuel e
          ((w.emActivate e).1.mPatterns e) ((w.emActivate e).1.mTagPatterns e)
      else some ((w.emActivate e).1, [])) = some (w2, evs1)) :
    SyncInv w2 ∧ w2.mAvailableIDs = w.mAvailableIDs
      ∧ w2.parentToChildren = w.parentToChildren := by
  by_cases hb : w.mActiveEntities e = true
  · have hr : w.emActivate e = (w, false) := by
      rw [WorldState.emActivate, if_pos hb]
    rw [hr] at hm
    rw [if_neg (by simp)] at hm
    cases hm
    exact ⟨hs, rfl, rfl⟩
  · have hr : w.emActivate e = ({ w with mActiveEntities := fun x =>
        if x = e then true else w.mActiveEntities x }, true) := by
      rw [WorldState.emActivate, if_neg hb]
    rw [hr] at hm
    rw [if_pos (by simp)] at hm
    obtain ⟨h1, h2, h3⟩ := membersIff_after_notify w
      { w with mActiveEntities := fun x => if x = e then true else w.mActiveEntities x }
      w2 fuel e _ _ evs1 rfl (fun x hx => if_neg hx) (fun x _ => rfl) (fun x _ => rfl)
      (if_pos rfl) rfl rfl hs.membersIff hs.ndMembers hm
    have hav : w2.mAvailableIDs = w.mAvailableIDs := by rw [h3]
    have hptc : w2.parentToChildren = w.parentToChildren := by rw [h3]
    have hctp : w2.childToParent = w.childToParent := by rw [h3]
    have hkill : w2.mToKill = w.mToKill := by rw [h3]
    have hact2 : w2.mActiveEntities
        = fun x => if x = e then true else w.mActiveEntities x := by rw [h3]
    refine ⟨⟨h2, ?_, ?_, ?_, ?_, ?_, ?_, ?_, ?_, ?_, h1⟩, hav, hptc⟩
    · rw [hav]
      exact hs.freeNz
    · rw [hav]
      exact hs.freeNodup
    · intro id hid
      rw [hav] at hid
      rw [hact2]
      show (if id = e then true else w.mActiveEntities id) = false
      rw [if_neg (show ¬ id = e from fun hc => heF (hc ▸ hid))]
      exact hs.freeInactive id hid
    · rw [hav, hptc]
      exact hs.freeNoChild
    · rw [hptc]
      exact hs.childNodup
    · rw [hptc]
      exact hs.childNz
    · rw [hptc, hctp]
      exact hs.childParent
    · rw [hkill]
      exact hs.killNodup
    · rw [hkill, hav]
      exact hs.killLive

/-- `World::activate` (worklist form) preserves the claim-C1 invariant when
every worklist entity is nonzero and live; child entities automatically
satisfy this inside the recursion. -/
theorem syncInv_opActivateList :
    ∀ (fuel : Nat) (ws : List Nat) (w w1 : WorldState) (evs : List Ev),
      SyncInv w → (∀ x ∈ ws, x ≠ 0 ∧ x ∉ w.mAvailableIDs) →
      w.opActivateList fuel ws = some (w1, evs) →
      SyncInv w1 ∧ w1.mAvailableIDs = w.mAvailableIDs := by
  intro fuel
  induction fuel with
  | zero =>
    intro ws w w1 evs hs hws h
    rw [WorldState.opActivateList] at h
    by_cases hq : ws.isEmpty
    · rw [if_pos hq] at h
      cases h
      exact ⟨hs, rfl⟩
    · rw [if_neg hq] at h
      cases h
  | succ fuel ih =>
    intro ws w w1 evs hs hws h
    match ws with
    | [] =>
      rw [WorldState.opActivateList] at h
      cases h
      exact ⟨hs, rfl⟩
    | e :: rest =>
      rw [WorldState.opActivateList] at h
      by_cases hint : w.hasInternalComponent e = true
      · rw [if_pos hint] at h
        cases h
      · rw [if_neg hint] at h
        simp only [] at h
        obtain ⟨he0, heF⟩ := hws e (List.mem_cons_self e rest)
        split at h
        · cases h
        · rename_i w2 evs1 hm
          obtain ⟨hs2, hav2, hptc2⟩ := activateStep_ok w w2 fuel e evs1 hs heF hm
          split at h
          · cases h
          · rename_i w3 evs2 hrec
            have hcond : ∀ x ∈ w2.parentToChildren e ++ rest,
                x ≠ 0 ∧ x ∉ w2.mAvailableIDs := by
              intro x hx
              rcases List.mem_append.mp hx with hxc | hxr
              · constructor
                · intro hx0
                  exact hs2.childNz e (hx0 ▸ hxc)
                · intro hxa
                  exact hs2.freeNoChild x hxa e he0 hxc
              · obtain ⟨hx1, hx2⟩ := hws x (List.mem_cons_of_mem e hxr)
                refine ⟨hx1, ?_⟩
                rw [hav2]
                exact hx2
            obtain ⟨hs3, hav3⟩ := ih _ w2 w3 evs2 hs2 hcond hrec
            cases h
            exact ⟨hs3, hav3.trans hav2⟩

/-- `World::deactivate` (worklist form) preserves the claim-C1 invariant
unconditionally. -/
theorem syncInv_opDeactivateList :
    ∀ (fuel : Nat) (ws : List Nat) (w w1 : WorldState) (evs : List Ev),
      SyncInv w → w.opDeactivateList fuel ws = some (w1, evs) → SyncInv w1 := by
  intro fuel
  induction fuel with
  | zero =>
    intro ws w w1 evs hs h
    rw [WorldState.opDeactivateList] at h
    by_cases hq : ws.isEmpty
    · rw [if_pos hq] at h
      cases h
      exact hs
    · rw [if_neg hq] at h
      cases h
  | succ fuel ih =>
    intro ws w w1 evs hs h
    match ws with
    | [] =>
      rw [WorldState.opDeactivateList] at h
      cases h
      exact hs
    | e :: rest =>
      rw [WorldState.opDeactivateList] at h
      have hstep : SyncInv (if (w.emDeactivate e).2 then
          WorldState.onEntityDestroyed (w.emDeactivate e).1 e
        else ((w.emDeactivate e).1, [])).1 := by
        by_cases hb : w.mActiveEntities e = true
        · have hr : w.emDeactivate e = ({ w with mActiveEntities := fun x =>
              if x = e then false else w.mActiveEntities x }, true) := by
            rw [WorldState.emDeactivate, if_pos hb]
          rw [hr, if_pos (by simp)]
          obtain ⟨hIffD, hNdD⟩ := membersIff_deactivate w
            { w with mActiveEntities := fun x =>
                if x = e then false else w.mActiveEntities x } e rfl
            (fun x hx => if_neg hx) (if_pos rfl) (fun x _ => rfl) (fun x _ => rfl)
            hs.membersIff hs.ndMembers
          refine ⟨hNdD, hs.freeNz, hs.freeNodup, ?_, hs.freeNoChild, hs.childNodup,
            hs.childNz, hs.childParent, hs.killNodup, hs.killLive, hIffD⟩
          intro id hid
          show (if id = e then false else w.mActiveEntities id) = false
          by_cases hide : id = e
          · rw [if_pos hide]
          · rw [if_neg hide]
            exact hs.freeInactive id hid
        · have hr : w.emDeactivate e = (w, false) := by
            rw [WorldState.emDeactivate, if_neg hb]
          rw [hr, if_neg (by simp)]
          exact hs
      split at h
      · cases h
      · rename_i w3 evs2 hrec
        have hres := ih _ _ w3 evs2 hstep hrec
        cases h
        exact hres

end WhalECS

namespace WhalECS

/-- `World::kill` (worklist form) preserves the claim-C1 invariant when the
killed entity is nonzero and live. -/
theorem syncInv_opKillList :
    ∀ (fuel : Nat) (ws : List Nat) (w w1 : WorldState),
      SyncInv w → (∀ x ∈ ws, x ≠ 0 ∧ x ∉ w.mAvailableIDs) →
      w.opKillList fuel ws = some w1 → SyncInv w1 := by
  intro fuel
  induction fuel with
  | zero =>
    intro ws w w1 hs hws h
    rw [WorldState.opKillList] at h
    by_cases hq : ws.isEmpty
    · rw [if_pos hq] at h
      cases h
      exact hs
    · rw [if_neg hq] at h
      cases h
  | succ fuel ih =>
    intro ws w w1 hs hws h
    match ws with
    | [] =>
      rw [WorldState.opKillList] at h
      cases h
      exact hs
    | e :: rest =>
      rw [WorldState.opKillList] at h
      by_cases hint : w.hasInternalComponent e = true
      · rw [if_pos hint] at h
        cases h
      · rw [if_neg hint] at h
        simp only [] at h
        obtain ⟨he0, heF⟩ := hws e (List.mem_cons_self e rest)
        have hsMid : SyncInv { w with mToKill := insertUnique w.mToKill e } := by
          refine ⟨hs.ndMembers, hs.freeNz, hs.freeNodup, hs.freeInactive,
            hs.freeNoChild, hs.childNodup, hs.childNz, hs.childParent, ?_, ?_,
            hs.membersIff⟩
          · exact nodup_insertUnique e hs.killNodup
          · intro x hx
            rcases mem_insertUnique_iff.mp hx with hxo | rfl
            · exact hs.killLive x hxo
            · exact ⟨he0, heF⟩
        have hcond : ∀ x ∈ ({ w with mToKill := insertUnique w.mToKill e } :
              WorldState).parentToChildren e ++ rest,
            x ≠ 0 ∧ x ∉ ({ w with mToKill := insertUnique w.mToKill e } :
              WorldState).mAvailableIDs := by
          intro x hx
          rcases List.mem_append.mp hx with hxc | hxr
          · exact ⟨fun hx0 => hs.childNz e (hx0 ▸ hxc),
              fun hxa => hs.freeNoChild x hxa e he0 hxc⟩
          · exact hws x (List.mem_cons_of_mem e hxr)
        exact ih _ _ w1 hsMid hcond h

/-- Destroying one live, nonzero entity during the `killEntities` drain
preserves the claim-C1 invariant. -/
theorem syncInv_destroyOne (w : WorldState) (e : Nat)
    (hs : SyncInv w) (he0 : e ≠ 0) (heF : e ∉ w.mAvailableIDs)
    (hkill : w.mToKill = []) :
    SyncInv (w.destroyOne e).1
    ∧ (w.destroyOne e).1.mAvailableIDs = w.mAvailableIDs ++ [e]
    ∧ (w.destroyOne e).1.mToKill = [] := by
  have hIffD := membersIff_deactivate w
    { w with
      mActiveEntities := fun x => if x = e then false else w.mActiveEntities x
      mPatterns := fun x => if x = e then 0 else w.mPatterns x
      mTagPatterns := fun x => if x = e then 0 else w.mTagPatterns x } e rfl
    (fun x hx => if_neg hx) (if_pos rfl) (fun x hx => if_neg hx) (fun x hx => if_neg hx)
    hs.membersIff hs.ndMembers
  refine ⟨⟨hIffD.2, ?_, ?_, ?_, ?_, ?_, ?_, ?_, ?_, ?_, hIffD.1⟩, rfl, hkill⟩
  · intro id hid
    have hid2 : id ∈ w.mAvailableIDs ++ [e] := hid
    rcases List.mem_append.mp hid2 with h | h
    · exact hs.freeNz id h
    · rw [List.mem_singleton] at h
      subst h
      exact he0
  · show (w.mAvailableIDs ++ [e]).Nodup
    refine List.Nodup.append hs.freeNodup (List.nodup_singleton e) ?_
    intro a ha hb
    rw [List.mem_singleton] at hb
    subst hb
    exact heF ha
  · intro id hid
    have hid2 : id ∈ w.mAvailableIDs ++ [e] := hid
    show (if id = e then false else w.mActiveEntities id) = false
    by_cases hide : id = e
    · rw [if_pos hide]
    · rw [if_neg hide]
      rcases List.mem_append.mp hid2 with h | h
      · exact hs.freeInactive id h
      · rw [List.mem_singleton] at h
        exact absurd h hide
  · intro id hid p hp0 hmem
    have hid2 : id ∈ w.mAvailableIDs ++ [e] := hid
    have hmem2 : id ∈ (if p = w.childToParent e
        then (w.parentToChildren (w.childToParent e)).erase e
        else w.parentToChildren p) := hmem
    rcases List.mem_append.mp hid2 with hidw | hide
    · split_ifs at hmem2 with hpc
      · subst hpc
        exact hs.freeNoChild id hidw _ hp0 (List.mem_of_mem_erase hmem2)
      · exact hs.freeNoChild id hidw p hp0 hmem2
    · rw [List.mem_singleton] at hide
      subst hide
      split_ifs at hmem2 with hpc
      · exact ((List.Nodup.mem_erase_iff (hs.childNodup _)).mp hmem2).1 rfl
      · exact hpc (hs.childParent p hp0 id hmem2).symm
  · intro p
    show (if p = w.childToParent e
        then (w.parentToChildren (w.childToParent e)).erase e
        else w.parentToChildren p).Nodup
    split_ifs with hpc
    · exact (hs.childNodup _).erase e
    · exact hs.childNodup p
  · intro p
    show 0 ∉ (if p = w.childToParent e
        then (w.parentToChildren (w.childToParent e)).erase e
        else w.parentToChildren p)
    split_ifs with hpc
    · intro hmem
      exact hs.childNz _ (List.mem_of_mem_erase hmem)
    · exact hs.childNz p
  · intro p hp0 c hc
    have hc2 : c ∈ (if p = w.childToParent e
        then (w.parentToChildren (w.childToParent e)).erase e
        else w.parentToChildren p) := hc
    show (if c = e then 0 else w.childToParent c) = p
    split_ifs at hc2 with hpc
    · subst hpc
      have hcc := (List.Nodup.mem_erase_iff (hs.childNodup _)).mp hc2
      rw [if_neg hcc.1]
      exact hs.childParent _ hp0 c hcc.2
    · by_cases hce : c = e
      · subst hce
        exact absurd (hs.childParent p hp0 c hc2).symm hpc
      · rw [if_neg hce]
        exact hs.childParent p hp0 c hc2
  · show w.mToKill.Nodup
    rw [hkill]
    exact List.nodup_nil
  · intro x hx
    have hx2 : x ∈ w.mToKill := hx
    rw [hkill] at hx2
    cases hx2

/-- The `killEntities` inner loop over a duplicate-free list of live, nonzero
entities preserves the claim-C1 invariant. -/
theorem syncInv_destroyList (es : List Nat) :
    ∀ w : WorldState, SyncInv w → w.mToKill = [] → es.Nodup →
      (∀ x ∈ es, x ≠ 0 ∧ x ∉ w.mAvailableIDs) →
      SyncInv (w.destroyList es).1 ∧ (w.destroyList es).1.mToKill = [] := by
  induction es with
  | nil =>
    intro w hs hk _ _
    exact ⟨hs, hk⟩
  | cons a rest ih =>
    intro w hs hk hnd hws
    obtain ⟨ha0, haF⟩ := hws a (List.mem_cons_self a rest)
    obtain ⟨hsD, havD, hkD⟩ := syncInv_destroyOne w a hs ha0 haF hk
    refine ih _ hsD hkD (List.nodup_cons.mp hnd).2 ?_
    intro x hx
    obtain ⟨hx0, hxF⟩ := hws x (List.mem_cons_of_mem a hx)
    refine ⟨hx0, ?_⟩
    rw [havD]
    intro hmem
    rcases List.mem_append.mp hmem with h | h
    · exact hxF h
    · rw [List.mem_singleton] at h
      exact (List.nodup_cons.mp hnd).1 (h ▸ hx)

theorem syncInv_killPass (w : WorldState) (hs : SyncInv w) :
    SyncInv (w.killPass).1 := by
  have hsW1 : SyncInv { w with
      mKilledThisFrame := w.mToKill.foldl insertUnique w.mKilledThisFrame
      mToKill := [] } := by
    refine ⟨hs.ndMembers, hs.freeNz, hs.freeNodup, hs.freeInactive, hs.freeNoChild,
      hs.childNodup, hs.childNz, hs.childParent, List.nodup_nil, ?_, hs.membersIff⟩
    intro x hx
    exact absurd hx (List.not_mem_nil x)
  have hcond : ∀ x ∈ w.mToKill, x ≠ 0 ∧ x ∉ ({ w with
      mKilledThisFrame := w.mToKill.foldl insertUnique w.mKilledThisFrame
      mToKill := [] } : WorldState).mAvailableIDs :=
    fun x hx => hs.killLive x hx
  obtain ⟨hsD, hkD⟩ := syncInv_destroyList w.mToKill _ hsW1 rfl hs.killNodup hcond
  refine ⟨hsD.ndMembers, hsD.freeNz, hsD.freeNodup, hsD.freeInactive, hsD.freeNoChild,
    hsD.childNodup, hsD.childNz, hsD.childParent, ?_, ?_, hsD.membersIff⟩
  · rw [WorldState.killPass_mToKill]
    exact List.nodup_nil
  · intro x hx
    rw [WorldState.killPass_mToKill] at hx
    cases hx

theorem syncInv_killEntitiesLoop :
    ∀ (fuel : Nat) (w wl : WorldState) (evs : List Ev),
      SyncInv w → WorldState.killEntitiesLoop fuel w = some (wl, evs) → SyncInv wl := by
  intro fuel
  induction fuel with
  | zero =>
    intro w wl evs hs h
    rw [WorldState.killEntitiesLoop] at h
    by_cases hq : w.mToKill.isEmpty
    · rw [if_pos hq] at h
      cases h
      exact hs
    · rw [if_neg hq] at h
      cases h
  | succ fuel ih =>
    intro w wl evs hs h
    rw [WorldState.killEntitiesLoop] at h
    by_cases hq : w.mToKill.isEmpty
    · rw [if_pos hq] at h
      cases h
      exact hs
    · rw [if_neg hq] at h
      simp only [] at h
      split at h
      · cases h
      · rename_i w4 evs2 hrec
        have hres := ih _ w4 evs2 (syncInv_killPass w hs) hrec
        cases h
        exact hres

theorem syncInv_opKillEntities {w w1 : WorldState} {fuel : Nat} {evs : List Ev}
    (hs : SyncInv w) (h : w.opKillEntities fuel = some (w1, evs)) : SyncInv w1 := by
  rw [WorldState.opKillEntities] at h
  split at h
  · cases h
  · rename_i wl evs2 hl
    have hsl := syncInv_killEntitiesLoop fuel w wl evs2 hs hl
    cases h
    exact ⟨hsl.ndMembers, hsl.freeNz, hsl.freeNodup, hsl.freeInactive, hsl.freeNoChild,
      hsl.childNodup, hsl.childNz, hsl.childParent, hsl.killNodup, hsl.killLive,
      hsl.membersIff⟩

end WhalECS

namespace WhalECS

/-- Creating an inactive entity under the root preserves the claim-C1
invariant; on success with a nonzero id the new id is live, inactive and in
no nonzero children list. -/
theorem syncInv_createEntityFalse {w w1 : WorldState} {parent id : Nat}
    (hs : SyncInv w) (hp0 : parent = 0)
    (h : w.createEntity false parent = some (w1, id)) :
    SyncInv w1
    ∧ (id ≠ 0 → id ∉ w1.mAvailableIDs ∧ w1.mActiveEntities id = false
        ∧ (∀ p, p ≠ 0 → id ∉ w1.parentToChildren p)) := by
  subst hp0
  rw [WorldState.createEntity] at h
  by_cases hcap : (w.mEntityCount + 1) % 2 ^ 32 ≥ MAX_ENTITIES
  · rw [if_pos hcap] at h
    cases h
    exact ⟨hs, fun hid => absurd rfl hid⟩
  · rw [if_neg hcap] at h
    rcases hq : w.mAvailableIDs with - | ⟨a, rest⟩
    · rw [hq] at h
      cases h
    · rw [hq] at h
      simp only [] at h
      cases h
      have ha0 : id ≠ 0 := hs.freeNz id (by rw [hq]; exact List.mem_cons_self id rest)
      have haN : (id :: rest).Nodup := hq ▸ hs.freeNodup
      have haR : id ∉ rest := (List.nodup_cons.mp haN).1
      have hrestSub : ∀ x ∈ rest, x ∈ w.mAvailableIDs := by
        intro x hx
        rw [hq]
        exact List.mem_cons_of_mem id hx
      constructor
      · refine ⟨hs.ndMembers, ?_, ?_, ?_, ?_, ?_, ?_, ?_, hs.killNodup, ?_, ?_⟩
        · intro x hx
          exact hs.freeNz x (hrestSub x hx)
        · exact (List.nodup_cons.mp haN).2
        · intro x hx
          exact hs.freeInactive x (hrestSub x hx)
        · intro x hx p hp0 hmem
          have hm2 : x ∈ (if p = 0
              then insertUnique (if (0 : Nat) = id then [] else w.parentToChildren 0) id
              else if p = id then [] else w.parentToChildren p) := hmem
          rw [if_neg hp0] at hm2
          split_ifs at hm2 with hpa
          · cases hm2
          · exact hs.freeNoChild x (hrestSub x hx) p hp0 hm2
        · intro p
          show (if p = 0
              then insertUnique (if (0 : Nat) = id then [] else w.parentToChildren 0) id
              else if p = id then [] else w.parentToChildren p).Nodup
          split_ifs with hp0 h0a hpa
          · exact nodup_insertUnique id List.nodup_nil
          · exact nodup_insertUnique id (hs.childNodup 0)
          · exact List.nodup_nil
          · exact hs.childNodup p
        · intro p
          show 0 ∉ (if p = 0
              then insertUnique (if (0 : Nat) = id then [] else w.parentToChildren 0) id
              else if p = id then [] else w.parentToChildren p)
          split_ifs with hp0 h0a hpa
          · intro hm
            rcases mem_insertUnique_iff.mp hm with hmm | h0
            · cases hmm
            · exact ha0 h0.symm
          · intro hm
            rcases mem_insertUnique_iff.mp hm with hmm | h0
            · exact hs.childNz 0 hmm
            · exact ha0 h0.symm
          · intro hm
            cases hm
          · exact hs.childNz p
        · intro p hp0 c hc
          have hc2 : c ∈ (if p = 0
              then insertUnique (if (0 : Nat) = id then [] else w.parentToChildren 0) id
              else if p = id then [] else w.parentToChildren p) := hc
          rw [if_neg hp0] at hc2
          show (if c = id then 0 else w.childToParent c) = p
          split_ifs at hc2 with hpa
          · cases hc2
          · have hca : c ≠ id := by
              intro hcc
              subst hcc
              exact hs.freeNoChild c (by rw [hq]; exact List.mem_cons_self c rest)
                p hp0 hc2
            rw [if_neg hca]
            exact hs.childParent p hp0 c hc2
        · intro x hx
          obtain ⟨hx1, hx2⟩ := hs.killLive x hx
          refine ⟨hx1, ?_⟩
          intro hmem
          exact hx2 (hrestSub x hmem)
        · exact hs.membersIff
      · intro _
        refine ⟨haR, hs.freeInactive id (by rw [hq]; exact List.mem_cons_self id rest), ?_⟩
        intro p hp0 hmem
        have hm2 : id ∈ (if p = 0
            then insertUnique (if (0 : Nat) = id then [] else w.parentToChildren 0) id
            else if p = id then [] else w.parentToChildren p) := hmem
        rw [if_neg hp0] at hm2
        split_ifs at hm2 with hpa
        · cases hm2
        · exact hs.freeNoChild id (by rw [hq]; exact List.mem_cons_self id rest) p hp0 hm2

/-- The copy/link stage of `World::copy` preserves the claim-C1 invariant
when the new entity is nonzero, live, inactive and not recorded as anyone's
child in a nonzero list. -/
theorem syncInv_copyLink (w1 : WorldState) (prefab newE : Nat)
    (hs : SyncInv w1) (hnz : newE ≠ 0) (hF : newE ∉ w1.mAvailableIDs)
    (hinact : w1.mActiveEntities newE = false)
    (hNoChild : ∀ p, p ≠ 0 → newE ∉ w1.parentToChildren p) :
    SyncInv (w1.copyLink prefab newE)
    ∧ (w1.copyLink prefab newE).mAvailableIDs = w1.mAvailableIDs := by
  refine ⟨⟨hs.ndMembers, hs.freeNz, hs.freeNodup, hs.freeInactive, ?_, ?_, ?_, ?_,
    hs.killNodup, hs.killLive, ?_⟩, rfl⟩
  · intro id hid p hp0 hmem
    have hm2 : id ∈ (if p = w1.childToParent prefab
        then insertUnique (w1.parentToChildren (w1.childToParent prefab)) newE
        else w1.parentToChildren p) := hmem
    split_ifs at hm2 with hpc
    · subst hpc
      rcases mem_insertUnique_iff.mp hm2 with hmm | rfl
      · exact hs.freeNoChild id hid _ hp0 hmm
      · exact hF hid
    · exact hs.freeNoChild id hid p hp0 hm2
  · intro p
    show (if p = w1.childToParent prefab
        then insertUnique (w1.parentToChildren (w1.childToParent prefab)) newE
        else w1.parentToChildren p).Nodup
    split_ifs with hpc
    · exact nodup_insertUnique newE (hs.childNodup _)
    · exact hs.childNodup p
  · intro p
    show 0 ∉ (if p = w1.childToParent prefab
        then insertUnique (w1.parentToChildren (w1.childToParent prefab)) newE
        else w1.parentToChildren p)
    split_ifs with hpc
    · intro hm
      rcases mem_insertUnique_iff.mp hm with hmm | h0
      · exact hs.childNz _ hmm
      · exact hnz h0.symm
    · exact hs.childNz p
  · intro p hp0 c hc
    have hc2 : c ∈ (if p = w1.childToParent prefab
        then insertUnique (w1.parentToChildren (w1.childToParent prefab)) newE
        else w1.parentToChildren p) := hc
    show (if c = newE then w1.childToParent prefab else w1.childToParent c) = p
    split_ifs at hc2 with hpc
    · subst hpc
      rcases mem_insertUnique_iff.mp hc2 with hmm | rfl
      · by_cases hcn : c = newE
        · subst hcn
          exact absurd hmm (hNoChild _ hp0)
        · rw [if_neg hcn]
          exact hs.childParent _ hp0 c hmm
      · rw [if_pos rfl]
    · by_cases hcn : c = newE
      · subst hcn
        exact absurd hc2 (hNoChild p hp0)
      · rw [if_neg hcn]
        exact hs.childParent p hp0 c hc2
  · exact membersIff_skip w1 (w1.copyLink prefab newE) newE rfl rfl hinact
      (fun x hx => if_neg hx) (fun x _ => rfl) hs.membersIff

/-- `World::copy` preserves the claim-C1 invariant. -/
theorem syncInv_opCopy {w wf : WorldState} {fuel prefab : Nat} {act : Bool}
    {newE : Nat} {evs : List Ev}
    (hs : SyncInv w) (h : w.opCopy fuel prefab act = some (wf, newE, evs)) :
    SyncInv wf := by
  rw [WorldState.opCopy] at h
  rcases hce : w.worldEntity false with - | r1
  · rw [hce] at h
    cases h
  · obtain ⟨w1, id⟩ := r1
    rw [hce] at h
    simp only [] at h
    obtain ⟨hsw1, hrest⟩ := syncInv_createEntityFalse hs rfl hce
    by_cases h0 : (id == 0) = true
    · rw [if_pos h0] at h
      cases h
      exact hsw1
    · rw [if_neg h0] at h
      have hz : id ≠ 0 := by
        intro hzz
        rw [hzz] at h0
        simp at h0
      obtain ⟨hF, hinact, hnolist⟩ := hrest hz
      obtain ⟨hsCL, havCL⟩ := syncInv_copyLink w1 prefab id hsw1 hz hF hinact hnolist
      split at h
      · split at h
        · cases h
        · rename_i w5 evs5 hact5
          have hcond : ∀ x ∈ [id], x ≠ 0 ∧ x ∉ (w1.copyLink prefab id).mAvailableIDs := by
            intro x hx
            rw [List.mem_singleton] at hx
            subst hx
            refine ⟨hz, ?_⟩
            rw [havCL]
            exact hF
          obtain ⟨hs5, -⟩ := syncInv_opActivateList fuel [id] _ w5 evs5 hsCL hcond hact5
          cases h
          exact hs5
      · cases h
        exact hsCL

/-- `Entity::addChild` (reparent) preserves the claim-C1 invariant when the
child is nonzero and live. -/
theorem syncInv_opAddChild {w w1 : WorldState} {parent child : Nat}
    (hs : SyncInv w) (hc0 : child ≠ 0) (hcF : child ∉ w.mAvailableIDs)
    (h : w.opAddChild parent child = some w1) : SyncInv w1 := by
  rw [WorldState.opAddChild] at h
  split at h
  · cases h
  · simp only [] at h
    cases h
    refine ⟨hs.ndMembers, hs.freeNz, hs.freeNodup, hs.freeInactive, ?_, ?_, ?_, ?_,
      hs.killNodup, hs.killLive, ?_⟩
    · intro id hid p hp0 hmem
      have hm2 : id ∈ (if p = parent
          then insertUnique (if parent = w.childToParent child
            then (w.parentToChildren (w.childToParent child)).erase child
            else w.parentToChildren parent) child
          else if p = w.childToParent child
            then (w.parentToChildren (w.childToParent child)).erase child
            else w.parentToChildren p) := hmem
      split_ifs at hm2 with hp1 hp2 hp3
      · subst hp1
        rcases mem_insertUnique_iff.mp hm2 with hmm | rfl
        · exact hs.freeNoChild id hid _ (by rw [← hp2]; exact hp0)
            (List.mem_of_mem_erase hmm)
        · exact hcF hid
      · subst hp1
        rcases mem_insertUnique_iff.mp hm2 with hmm | rfl
        · exact hs.freeNoChild id hid p hp0 hmm
        · exact hcF hid
      · subst hp3
        exact hs.freeNoChild id hid _ hp0 (List.mem_of_mem_erase hm2)
      · exact hs.freeNoChild id hid p hp0 hm2
    · intro p
      show (if p = parent
          then insertUnique (if parent = w.childToParent child
            then (w.parentToChildren (w.childToParent child)).erase child
            else w.parentToChildren parent) child
          else if p = w.childToParent child
            then (w.parentToChildren (w.childToParent child)).erase child
            else w.parentToChildren p).Nodup
      split_ifs with hp1 hp2 hp3
      · exact nodup_insertUnique child ((hs.childNodup _).erase child)
      · exact nodup_insertUnique child (hs.childNodup parent)
      · exact (hs.childNodup _).erase child
      · exact hs.childNodup p
    · intro p
      show 0 ∉ (if p = parent
          then insertUnique (if parent = w.childToParent child
            then (w.parentToChildren (w.childToParent child)).erase child
            else w.parentToChildren parent) child
          else if p = w.childToParent child
            then (w.parentToChildren (w.childToParent child)).erase child
            else w.parentToChildren p)
      split_ifs with hp1 hp2 hp3
      · intro hm
        rcases mem_insertUnique_iff.mp hm with hmm | h0
        · exact hs.childNz _ (List.mem_of_mem_erase hmm)
        · exact hc0 h0.symm
      · intro hm
        rcases mem_insertUnique_iff.mp hm with hmm | h0
        · exact hs.childNz parent hmm
        · exact hc0 h0.symm
      · intro hm
        exact hs.childNz _ (List.mem_of_mem_erase hm)
      · exact hs.childNz p
    · intro p hp0 c hc
      have hc2 : c ∈ (if p = parent
          then insertUnique (if parent = w.childToParent child
            then (w.parentToChildren (w.childToParent child)).erase child
            else w.parentToChildren parent) child
          else if p = w.childToParent child
            then (w.parentToChildren (w.childToParent child)).erase child
            else w.parentToChildren p) := hc
      show (if c = child then parent else w.childToParent c) = p
      split_ifs at hc2 with hp1 hp2 hp3
      · subst hp1
        rcases mem_insertUnique_iff.mp hc2 with hmm | rfl
        · have hcc := (List.Nodup.mem_erase_iff (hs.childNodup _)).mp hmm
          rw [if_neg hcc.1]
          have hcp := hs.childParent _ (by rw [← hp2]; exact hp0) c hcc.2
          rw [hcp]
          exact hp2.symm
        · rw [if_pos rfl]
      · subst hp1
        rcases mem_insertUnique_iff.mp hc2 with hmm | rfl
        · by_cases hcc : c = child
          · subst hcc
            exact absurd (hs.childParent p hp0 c hmm).symm hp2
          · rw [if_neg hcc]
            exact hs.childParent p hp0 c hmm
        · rw [if_pos rfl]
      · subst hp3
        have hcc := (List.Nodup.mem_erase_iff (hs.childNodup _)).mp hc2
        rw [if_neg hcc.1]
        exact hs.childParent _ hp0 c hcc.2
      · by_cases hcc : c = child
        · subst hcc
          exact absurd (hs.childParent p hp0 c hc2).symm hp3
        · rw [if_neg hcc]
          exact hs.childParent p hp0 c hc2
    · exact membersIff_eqfields rfl rfl rfl rfl hs.membersIff

end WhalECS

namespace WhalECS

/-- One guarded claim-C1 operation preserves the invariant. -/
theorem syncInv_interpM {w w1 : WorldState} {fuel : Nat} {op : MOp} {evs : List Ev}
    (hs : SyncInv w) (hg : opGuard w op)
    (h : w.interpM fuel op = some (w1, evs)) : SyncInv w1 := by
  match op with
  | MOp.addComp e t v => exact syncInv_opAddComponent hs h
  | MOp.removeComp e t => exact syncInv_opRemoveComponent hs h
  | MOp.addTag e t => exact syncInv_opAddTag hs h
  | MOp.removeTag e t => exact syncInv_opRemoveTag hs h
  | MOp.activate e =>
    obtain ⟨he0, heF⟩ := hg
    have hcond : ∀ x ∈ [e], x ≠ 0 ∧ x ∉ w.mAvailableIDs := by
      intro x hx
      rw [List.mem_singleton] at hx
      subst hx
      exact ⟨he0, heF⟩
    exact (syncInv_opActivateList fuel [e] w w1 evs hs hcond h).1
  | MOp.deactivate e => exact syncInv_opDeactivateList fuel [e] w w1 evs hs h
  | MOp.copy prefab isActive =>
    have h2 : (match w.opCopy fuel prefab isActive with
      | none => none
      | some (w2, _, evs2) => some (w2, evs2)) = some (w1, evs) := h
    split at h2
    · cases h2
    · rename_i w2 newE evs2 hcp
      cases h2
      exact syncInv_opCopy hs hcp
  | MOp.kill e =>
    obtain ⟨he0, heF⟩ := hg
    have h2 : (match w.opKillList fuel [e] with
      | none => none
      | some w2 => some (w2, ([] : List Ev))) = some (w1, evs) := h
    split at h2
    · cases h2
    · rename_i w2 hk
      cases h2
      have hcond : ∀ x ∈ [e], x ≠ 0 ∧ x ∉ w.mAvailableIDs := by
        intro x hx
        rw [List.mem_singleton] at hx
        subst hx
        exact ⟨he0, heF⟩
      exact syncInv_opKillList fuel [e] w w1 hs hcond hk
  | MOp.killEntities => exact syncInv_opKillEntities hs h
  | MOp.reparent parent child =>
    obtain ⟨hc0, hcF⟩ := hg
    have h2 : (match w.opAddChild parent child with
      | none => none
      | some w2 => some (w2, ([] : List Ev))) = some (w1, evs) := h
    split at h2
    · cases h2
    · rename_i w2 hk
      cases h2
      exact syncInv_opAddChild hs hc0 hcF hk

/-- A whole guarded run preserves the invariant. -/
theorem syncInv_runM :
    ∀ (ops : List MOp) (fuel : Nat) (w wf : WorldState) (evs : List Ev),
      SyncInv w → GuardedRun fuel ops w →
      WorldState.runM fuel ops w = some (wf, evs) → SyncInv wf := by
  intro ops
  induction ops with
  | nil =>
    intro fuel w wf evs hs _ h
    rw [WorldState.runM] at h
    cases h
    exact hs
  | cons op rest ih =>
    intro fuel w wf evs hs hg h
    rw [WorldState.runM] at h
    split at h
    · cases h
    · rename_i w1 evs1 hstep
      split at h
      · cases h
      · rename_i w2 evs2 hrest
        have hs1 := syncInv_interpM hs hg.1 hstep
        have hg1 : GuardedRun fuel rest w1 := by
          have h2 := hg.2
          rw [hstep] at h2
          exact h2
        have hres := ih fuel w1 w2 evs2 hs1 hg1 hrest
        cases h
        exact hres

/-- C1 (amended): restricted to systems without trait requirements and
without the exclude-children attribute, and to guarded operation sequences —
`activate`, `kill` and `reparent` applied only to nonzero, non-recycled
entities — the membership invariant holds: starting from a well-formed world
(`SyncInv`, which includes the invariant itself), after any successful
sequence of the listed operations, every such system's membership set
contains exactly the entities that are active, whose component and tag
patterns contain the system's required signatures, and which are disjoint
from its excluded signatures.  For exclude-children systems the claim is
false (see the counterexample): reparenting notifies no one
(`onEntityParentChanged` has no caller), so the parent clause goes stale. -/
theorem c1_membership_invariant :
    ∀ (fuel : Nat) (ops : List MOp) (w wf : WorldState) (evs : List Ev),
      SyncInv w → GuardedRun fuel ops w →
      WorldState.runM fuel ops w = some (wf, evs) →
      SyncInv wf
      ∧ (∀ ss ∈ wf.systems, ss.sdef.mTraits = [] →
          ss.sdef.attrs &&& ExcludeChildren = 0 →
          ∀ e, ss.mEntities.contains e = true ↔ claimC1Match wf ss.sdef e = true) := by
  intro fuel ops w wf evs hs hg h
  have hsf := syncInv_runM ops fuel w wf evs hs hg h
  exact ⟨hsf, hsf.membersIff⟩

set_option maxRecDepth 40000 in
/-- C1 counterexample: an exclude-children system requiring component 3;
entities 1 and 2 get the component and are activated (both join: neither has
a matching parent), then 2 is reparented under 1.  Entity 2 stays in the
membership set although the claim's full predicate — whose exclude-children
clause says the system must not match the parent — is now false. -/
theorem c1_counterexample :
    (WorldState.runM 6 c1Ops c1Start).isSome = true
    ∧ ((c1Final.1).systems.getD 0 ⟨⟨0, 0, 0, 0, [], 0, false, false⟩, []⟩).mEntities.contains 2
        = true
    ∧ claimC1MatchFull (c1Final.1)
        ((c1Final.1).systems.getD 0 ⟨⟨0, 0, 0, 0, [], 0, false, false⟩, []⟩).sdef 2
      = false := by
  exact ⟨rfl, rfl, rfl⟩

set_option maxRecDepth 40000 in
/-- C1 witness: the amended invariant applied to a concrete guarded run — a
plain system requiring component 3, live entity 1 receives the component and
is activated; afterwards the membership set is synchronised and contains
entity 1. -/
theorem c1_witness :
    ∃ wf evs, WorldState.runM 5 c1WitOps c1WitStart = some (wf, evs)
      ∧ (∀ ss ∈ wf.systems, ss.sdef.mTraits = [] →
          ss.sdef.attrs &&& ExcludeChildren = 0 →
          ∀ e, ss.mEntities.contains e = true ↔ claimC1Match wf ss.sdef e = true)
      ∧ (wf.systems.getD 0 ⟨⟨0, 0, 0, 0, [], 0, false, false⟩, []⟩).mEntities.contains 1
          = true := by
  have hsync : SyncInv c1WitStart := by
    refine ⟨?_, by decide, by decide, ?_, ?_, ?_, ?_, ?_, List.nodup_nil, ?_, ?_⟩
    · intro ss hss
      have h1 := List.mem_singleton.mp hss
      subst h1
      exact List.nodup_nil
    · intro id _
      rfl
    · intro id _ p _ hmem
      exact absurd hmem (List.not_mem_nil id)
    · intro p
      exact List.nodup_nil
    · intro p
      exact List.not_mem_nil 0
    · intro p _ c hc
      exact absurd hc (List.not_mem_nil c)
    · intro x hx
      exact absurd hx (List.not_mem_nil x)
    · intro ss hss htr hec e
      have h1 := List.mem_singleton.mp hss
      subst h1
      constructor
      · intro hm
        simp at hm
      · intro hcm
        have h2 : (false : Bool) = true := active_of_claimC1Match hcm
        cases h2
  have hguard : GuardedRun 5 c1WitOps c1WitStart :=
    ⟨trivial, ⟨⟨by decide, by decide⟩, trivial⟩⟩
  have hres := c1_membership_invariant 5 c1WitOps c1WitStart (c1WitFinal.1)
    (c1WitFinal.2) hsync hguard rfl
  exact ⟨c1WitFinal.1, c1WitFinal.2, rfl, hres.2, rfl⟩

end WhalECS
